import Mathlib

/-!
gospider: the cron evaluator, the scheduler control loop and the execution wrapper

A shallow embedding of `scheduler/cron.go`, `scheduler/job.go`, `scheduler/scheduler.go`,
`scheduler/result.go` and `spiders/spiders.go`, with the part of Go's `time`, `strings` and
`strconv` they call. Times are UTC; `int` and `uint` have 64 bits; strings are sequences of
Unicode characters.
-/

set_option maxRecDepth 100000

namespace Gospider

/-! ## Go `time` in UTC -/

/-- An instant of Go's `time.Time` read in UTC: the nanoseconds elapsed since the zero time
`0001-01-01T00:00:00Z` (negative before it), in the proleptic Gregorian calendar and without
the bounds of Go's 64-bit representation. -/
structure Time where
  ns : Int
deriving DecidableEq, Repr

def nsPerSecond : Int := 1000000000

def nsPerMinute : Int := 60 * nsPerSecond

def nsPerHour : Int := 3600 * nsPerSecond

def nsPerDay : Int := 86400 * nsPerSecond

/-- Go `time.Time{}`. -/
def Time.zero : Time := ⟨0⟩

/-- Go `t.IsZero()`. -/
def Time.IsZero (t : Time) : Bool := decide (t.ns = 0)

/-- Go `t.After(u)`. -/
def Time.After (t u : Time) : Bool := decide (u.ns < t.ns)

/-- Go `t.Before(u)`. -/
def Time.Before (t u : Time) : Bool := decide (t.ns < u.ns)

/-- Go `t.Add(d)` for a duration of `d` nanoseconds. -/
def Time.Add (t : Time) (d : Int) : Time := ⟨t.ns + d⟩

/-- Go `t.Truncate(d)`, `d > 0`: round down to a multiple of `d` since the zero time. -/
def Time.Truncate (t : Time) (d : Int) : Time := ⟨t.ns - t.ns % d⟩

/-- Gregorian leap year (proleptic). -/
def isLeap (y : Int) : Bool :=
  decide (y % 4 = 0) && (decide (y % 100 ≠ 0) || decide (y % 400 = 0))

/-- Days from 0001-01-01 to January 1st of year `y`. -/
def daysSinceEpoch (y : Int) : Int :=
  365 * (y - 1) + (y - 1) / 4 - (y - 1) / 100 + (y - 1) / 400

/-- Go `absDate`, first half: the year holding day `n` (day 0 is 0001-01-01) and the
zero-based day within that year, by 400-, 100-, 4- and 1-year cycles. -/
def absYear (n : Int) : Int × Int :=
  let n400 := n / 146097
  let d := n - 146097 * n400
  let n100 := d / 36524
  let n100 := n100 - n100 / 4
  let d := d - 36524 * n100
  let n4 := d / 1461
  let d := d - 1461 * n4
  let n1 := d / 365
  let n1 := n1 - n1 / 4
  let d := d - 365 * n1
  (400 * n400 + 100 * n100 + 4 * n4 + n1 + 1, d)

/-- Days of the year before month `m` (1..12; 13 gives the length of the year). -/
def daysBefore (leap : Bool) (m : Int) : Int :=
  let l : Int := if leap then 1 else 0
  if m ≤ 1 then 0
  else if m = 2 then 31
  else if m = 3 then 59 + l
  else if m = 4 then 90 + l
  else if m = 5 then 120 + l
  else if m = 6 then 151 + l
  else if m = 7 then 181 + l
  else if m = 8 then 212 + l
  else if m = 9 then 243 + l
  else if m = 10 then 273 + l
  else if m = 11 then 304 + l
  else if m = 12 then 334 + l
  else 365 + l

/-- Month (1..12) holding the zero-based day `yday` of a year. -/
def monthOfYday (leap : Bool) (yday : Int) : Int :=
  if yday < daysBefore leap 2 then 1
  else if yday < daysBefore leap 3 then 2
  else if yday < daysBefore leap 4 then 3
  else if yday < daysBefore leap 5 then 4
  else if yday < daysBefore leap 6 then 5
  else if yday < daysBefore leap 7 then 6
  else if yday < daysBefore leap 8 then 7
  else if yday < daysBefore leap 9 then 8
  else if yday < daysBefore leap 10 then 9
  else if yday < daysBefore leap 11 then 10
  else if yday < daysBefore leap 12 then 11
  else 12

/-- Whole days since the zero time. -/
def Time.absDays (t : Time) : Int := t.ns / nsPerDay

/-- Seconds into the UTC day. -/
def Time.secOfDay (t : Time) : Int := (t.ns / nsPerSecond) % 86400

def Time.Year (t : Time) : Int := (absYear t.absDays).1

def Time.YearDay0 (t : Time) : Int := (absYear t.absDays).2

def Time.Month (t : Time) : Int := monthOfYday (isLeap t.Year) t.YearDay0

def Time.Day (t : Time) : Int := t.YearDay0 - daysBefore (isLeap t.Year) t.Month + 1

def Time.Hour (t : Time) : Int := t.secOfDay / 3600

def Time.Minute (t : Time) : Int := (t.secOfDay % 3600) / 60

def Time.Second (t : Time) : Int := t.secOfDay % 60

def Time.Nanosecond (t : Time) : Int := t.ns % nsPerSecond

/-- Go `t.Weekday()`, Sunday = 0; day 0 (0001-01-01) is a Monday. -/
def Time.Weekday (t : Time) : Int := (t.absDays + 1) % 7

/-- Go `time.Date(year, month, day, hour, min, sec, nsec, time.UTC)`: the month is normalised
into the year, every other overflow carries arithmetically. -/
def Date (year month day hour min sec nsec : Int) : Time :=
  let y := year + (month - 1) / 12
  let m := (month - 1) % 12 + 1
  let days := daysSinceEpoch y + daysBefore (isLeap y) m + (day - 1)
  ⟨(days * 86400 + hour * 3600 + min * 60 + sec) * nsPerSecond + nsec⟩

/-- Go `t.AddDate(years, months, days)`. -/
def Time.AddDate (t : Time) (years months days : Int) : Time :=
  Date (t.Year + years) (t.Month + months) (t.Day + days) t.Hour t.Minute t.Second t.Nanosecond


/-! ## `scheduler/cron.go`: the schedule and `Next` -/

/-- Outcome of running a piece of the program: a value, a returned Go `error`, a panic, or a
loop that has not finished within the fuel the model gives it. -/
inductive Res (ε α : Type) where
  | ok (val : α)
  | err (e : ε)
  | panic
  | hang
deriving DecidableEq, Repr

def Res.bind {ε α β : Type} (x : Res ε α) (f : α → Res ε β) : Res ε β :=
  match x with
  | .ok a => f a
  | .err e => .err e
  | .panic => .panic
  | .hang => .hang

/-- The six bit patterns of `type Cron struct`; each field is a `uint64`. -/
structure Cron where
  Second : Nat
  Minute : Nat
  Hour : Nat
  Dom : Nat
  Month : Nat
  Dow : Nat
deriving DecidableEq, Repr

def uint64Size : Nat := 18446744073709551616

/-- The constant `starBit uint64 = 1 << 63`. -/
def starBit : Nat := 9223372036854775808

def cronScheduleFiledNum : Nat := 6

/-- The expression `1<<uint(v)` of `Next` and `dayMatches`, a `uint64` shift of a value that is
never negative there. -/
def oneShl (v : Int) : Nat := (1 <<< v.toNat) % uint64Size

/-- Go `dayMatches(s, t)`. -/
def dayMatches (s : Cron) (t : Time) : Bool :=
  let domMatch := decide (oneShl t.Day &&& s.Dom > 0)
  let dowMatch := decide (oneShl t.Weekday &&& s.Dow > 0)
  if s.Dom &&& starBit > 0 ∨ s.Dow &&& starBit > 0 then
    domMatch && dowMatch
  else
    domMatch || dowMatch

/-- The month loop of `Next`. The `continue` under `if next.Month() == time.January` resumes this
innermost loop, so both branches go on with the loop condition. -/
def monthLoop : Nat → Cron → Time → Option Time
  | 0, _, _ => none
  | fuel + 1, s, next =>
    if oneShl next.Month &&& s.Month = 0 then
      let next := next.AddDate 0 1 0
      let next := Date next.Year next.Month 1 0 0 0 0
      if next.Month = 1 then monthLoop fuel s next else monthLoop fuel s next
    else some next

/-- The day loop of `Next`; `continue` again resumes this loop. -/
def dayLoop : Nat → Cron → Time → Option Time
  | 0, _, _ => none
  | fuel + 1, s, next =>
    if !dayMatches s next then
      let next := next.AddDate 0 0 1
      let next := Date next.Year next.Month next.Day 0 0 0 0
      if next.Day = 1 then dayLoop fuel s next else dayLoop fuel s next
    else some next

/-- The hour loop of `Next`. -/
def hourLoop : Nat → Cron → Time → Option Time
  | 0, _, _ => none
  | fuel + 1, s, next =>
    if oneShl next.Hour &&& s.Hour = 0 then
      let next := next.Add (1 * nsPerHour)
      let next := next.Truncate nsPerHour
      if next.Hour = 0 then hourLoop fuel s next else hourLoop fuel s next
    else some next

/-- The minute loop of `Next`. -/
def minuteLoop : Nat → Cron → Time → Option Time
  | 0, _, _ => none
  | fuel + 1, s, next =>
    if oneShl next.Minute &&& s.Minute = 0 then
      let next := next.Add (1 * nsPerMinute)
      let next := next.Truncate nsPerMinute
      if next.Minute = 0 then minuteLoop fuel s next else minuteLoop fuel s next
    else some next

/-- The second loop of `Next`. -/
def secondLoop : Nat → Cron → Time → Option Time
  | 0, _, _ => none
  | fuel + 1, s, next =>
    if oneShl next.Second &&& s.Second = 0 then
      let next := next.Add (1 * nsPerSecond)
      if next.Second = 0 then secondLoop fuel s next else secondLoop fuel s next
    else some next

/-- Go `(s *Cron) Next(a)`. Every path through the body of the outer `for` ends in `return` or
`break` (no `continue` reaches it), so the body runs once. `none`: some loop has not finished
within `fuel` iterations. -/
def Cron.Next (fuel : Nat) (s : Cron) (a : Time) : Option Time :=
  let start := (a.Add nsPerSecond).Truncate nsPerSecond
  let endT := a.AddDate 5 0 0
  if start.After endT then some Time.zero
  else
    (monthLoop fuel s start).bind fun next =>
    (dayLoop fuel s next).bind fun next =>
    (hourLoop fuel s next).bind fun next =>
    (minuteLoop fuel s next).bind fun next =>
    (secondLoop fuel s next).bind fun next =>
    if next.After endT then some Time.zero else some next


/-! ## `scheduler/cron.go`: parsing -/

/-- Which `return ..., fmt.Errorf(...)` of `cron.go` produced the error. -/
inductive CronError where
  | emptyExpression
  | fieldCount (count : Nat)
  | parseInt
  | negative
  | tooManyDashes
  | tooManySlashes
  | belowMin
  | aboveMax
  | startAfterEnd
  | zeroStep
deriving DecidableEq, Repr

/-- The struct `bounds`. -/
structure bounds where
  min : Nat
  max : Nat
  names : Option (List (List Char × Nat))
deriving DecidableEq, Repr

def seconds : bounds := ⟨0, 59, none⟩

def minutes : bounds := ⟨0, 59, none⟩

def hours : bounds := ⟨0, 23, none⟩

def daysOfMonth : bounds := ⟨1, 31, none⟩

def months : bounds :=
  ⟨1, 12, some [("jan".toList, 1), ("feb".toList, 2), ("mar".toList, 3), ("apr".toList, 4),
    ("may".toList, 5), ("jun".toList, 6), ("jul".toList, 7), ("aug".toList, 8),
    ("sep".toList, 9), ("oct".toList, 10), ("nov".toList, 11), ("dec".toList, 12)]⟩

def daysOfWeek : bounds :=
  ⟨0, 6, some [("sun".toList, 0), ("mon".toList, 1), ("tue".toList, 2), ("wed".toList, 3),
    ("thu".toList, 4), ("fri".toList, 5), ("sat".toList, 6)]⟩

/-- Go `strings.Split(s, sep)` for a separator of one ASCII character: the pieces between the
separators, empty pieces included; one piece more than there are separators. -/
def Split (sep : Char) : List Char → List (List Char)
  | [] => [[]]
  | c :: cs =>
    if c = sep then [] :: Split sep cs
    else
      match Split sep cs with
      | [] => [[c]]
      | p :: ps => (c :: p) :: ps

/-- Go `unicode.IsSpace`. -/
def isSpace (c : Char) : Bool :=
  let n := c.toNat
  (9 ≤ n && n ≤ 13) || n = 32 || n = 0x85 || n = 0xA0 || n = 0x1680 ||
  (0x2000 ≤ n && n ≤ 0x200A) || n = 0x2028 || n = 0x2029 || n = 0x202F || n = 0x205F ||
  n = 0x3000

/-- Go `strings.Fields`: the maximal runs of characters that are not white space. -/
def Fields : List Char → List (List Char)
  | [] => []
  | c :: cs =>
    if isSpace c then Fields cs
    else
      match cs with
      | [] => [[c]]
      | d :: _ =>
        if isSpace d then [c] :: Fields cs
        else
          match Fields cs with
          | [] => [[c]]
          | p :: ps => (c :: p) :: ps

/-- Go `unicode.ToLower` as far as a lookup among ASCII names can tell: the characters it maps
to an ASCII letter are `A`..`Z`, U+0130 (to `i`) and U+212A (to `k`); every other character
goes to itself or to a character outside ASCII and is left alone here. -/
def toLowerChar (c : Char) : Char :=
  if 65 ≤ c.toNat ∧ c.toNat ≤ 90 then Char.ofNat (c.toNat + 32)
  else if c.toNat = 0x130 then 'i'
  else if c.toNat = 0x212A then 'k'
  else c

/-- Go `strings.ToLower`, see `toLowerChar`. -/
def ToLower (s : List Char) : List Char := s.map toLowerChar

/-- Value of a run of ASCII decimal digits, `none` when a character is not a digit. -/
def parseDigits : List Char → Nat → Option Nat
  | [], acc => some acc
  | c :: cs, acc =>
    if 48 ≤ c.toNat ∧ c.toNat ≤ 57 then parseDigits cs (acc * 10 + (c.toNat - 48)) else none

/-- Go `strconv.Atoi` with a 64-bit `int`: an optional sign, then one or more decimal digits,
and a value within `int`; `none` is its error. -/
def Atoi (s : List Char) : Option Int :=
  match s with
  | [] => none
  | c :: cs =>
    if c = '-' then
      if cs = [] then none
      else (parseDigits cs 0).bind fun n => if n ≤ 9223372036854775808 then some (-(n : Int)) else none
    else if c = '+' then
      if cs = [] then none
      else (parseDigits cs 0).bind fun n => if n < 9223372036854775808 then some (n : Int) else none
    else (parseDigits s 0).bind fun n => if n < 9223372036854775808 then some (n : Int) else none

/-- Go `mustParseInt`. -/
def mustParseInt (expr : List Char) : Res CronError Nat :=
  match Atoi expr with
  | none => .err .parseInt
  | some num => if num < 0 then .err .negative else .ok num.toNat

/-- Go `parseIntOrName`. -/
def parseIntOrName (expr : List Char) (names : Option (List (List Char × Nat))) : Res CronError Nat :=
  match names with
  | some tbl =>
    match tbl.lookup (ToLower expr) with
    | some namedInt => .ok namedInt
    | none => mustParseInt expr
  | none => mustParseInt expr

/-- The constant `math.MaxUint64`. -/
def maxUint64 : Nat := 18446744073709551615

/-- The `for i := min; i <= max; i += step` loop of `getBits`, `i` a 64-bit `uint`. -/
def getBitsLoop : Nat → Nat → Nat → Nat → Nat → Option Nat
  | 0, _, _, _, _ => none
  | fuel + 1, i, max, step, bits =>
    if i ≤ max then
      getBitsLoop fuel ((i + step) % uint64Size) max step (bits ||| (1 <<< i) % uint64Size)
    else some bits

/-- Go `getBits`. `min < 0` is never true of a `uint`. With `max ≤ 63` and `step ≠ 0` the loop
leaves after at most 65 tests of its condition (`i` grows past `max`, or wraps, falls by
`2^64 - step ≤ 63` a time and then grows past `max`); with `step = 0` it never leaves. -/
def getBits (min max step : Nat) : Res CronError Nat :=
  if max > 63 then .panic
  else if step = 1 then
    .ok ((maxUint64 ^^^ ((maxUint64 <<< (max + 1)) % uint64Size)) &&& ((maxUint64 <<< min) % uint64Size))
  else
    match getBitsLoop 65 min max step 0 with
    | some bits => .ok bits
    | none => .hang

/-- Go `getRange`. -/
def getRange (expr : List Char) (r : bounds) : Res CronError Nat :=
  let rangeAndStep := Split '/' expr
  let lowAndHigh := Split '-' (rangeAndStep.headD [])
  let singleDigit := lowAndHigh.length == 1
  let range : Res CronError (Nat × Nat × Nat) :=
    if lowAndHigh.headD [] = ['*'] ∨ lowAndHigh.headD [] = ['?'] then .ok (r.min, r.max, starBit)
    else
      (parseIntOrName (lowAndHigh.headD []) r.names).bind fun start =>
        match lowAndHigh with
        | [_] => .ok (start, start, 0)
        | [_, high] => (parseIntOrName high r.names).bind fun e => .ok (start, e, 0)
        | _ => .err .tooManyDashes
  range.bind fun (start, end1, extra) =>
    let stepped : Res CronError (Nat × Nat) :=
      match rangeAndStep with
      | [_] => .ok (1, end1)
      | [_, st] => (mustParseInt st).bind fun step => .ok (step, if singleDigit then r.max else end1)
      | _ => .err .tooManySlashes
    stepped.bind fun (step, end2) =>
      if start < r.min then .err .belowMin
      else if end2 > r.max then .err .aboveMax
      else if start > end2 then .err .startAfterEnd
      else if step = 0 then .err .zeroStep
      else (getBits start end2 step).bind fun b => .ok (b ||| extra)

/-- The `for _, expr := range ranges` loop of `getField`. -/
def getFieldLoop (r : bounds) : List (List Char) → Nat → Res CronError Nat
  | [], bits => .ok bits
  | expr :: rest, bits => (getRange expr r).bind fun bit => getFieldLoop r rest (bits ||| bit)

/-- Go `getField`. -/
def getField (field : List Char) (r : bounds) : Res CronError Nat :=
  getFieldLoop r (Split ',' field) 0

/-- Go `NewCron`. The closure `field` stops parsing at the first error, which is the one
returned. -/
def NewCron (cron : String) : Res CronError Cron :=
  if cron.toList.length = 0 then .err .emptyExpression
  else
    match Fields cron.toList with
    | [f0, f1, f2, f3, f4, f5] =>
      (getField f0 seconds).bind fun second =>
      (getField f1 minutes).bind fun minute =>
      (getField f2 hours).bind fun hour =>
      (getField f3 daysOfMonth).bind fun dayOfMonth =>
      (getField f4 months).bind fun month =>
      (getField f5 daysOfWeek).bind fun dayOfWeek =>
      .ok ⟨second, minute, hour, dayOfMonth, month, dayOfWeek⟩
    | fields => .err (.fieldCount fields.length)


/-! ## `spiders/spiders.go`, `scheduler/job.go` -/

/-- The values of the map `runners`: the runner functions the registry holds. -/
inductive Runner where
  | weixinCrawl
deriving DecidableEq, Repr

/-- Go `spiders.GetRunnerByName`; `none` is its error. -/
def GetRunnerByName (name : String) : Option Runner :=
  if name = "WeiXinArticle" then some Runner.weixinCrawl else none

/-- The struct `JobCore`. -/
structure JobCore where
  Id : String
  Name : String
  CronRule : String
  RunnerName : String
  RunnerArgs : String
deriving DecidableEq, Repr

/-- The struct `Job`; `Runner` and `Cron` are `nil` (`none`) until `build` succeeds. -/
structure Job extends JobCore where
  CreateTime : Time
  UpdateTime : Time
  Deleted : Bool
  Opened : Bool
  Runner : Option Runner
  Cron : Option Cron
  Next : Time
deriving DecidableEq, Repr

/-- Go `JobsByTime.Less`, on the two jobs at the indices. -/
def JobsByTime.Less (a b : Job) : Bool :=
  if a.Next.IsZero then false
  else if b.Next.IsZero then true
  else a.Next.Before b.Next

/-- Why `build` failed. -/
inductive BuildError where
  | cron (e : CronError)
  | runner
deriving DecidableEq, Repr

/-- Go `(job *Job) build()`: the job with `Cron` and `Runner` set, or the error. -/
def Job.build (job : Job) : Res BuildError Job :=
  match NewCron job.CronRule with
  | .err e => .err (.cron e)
  | .panic => .panic
  | .hang => .hang
  | .ok cron =>
    match GetRunnerByName job.RunnerName with
    | none => .err .runner
    | some runner => .ok { job with Cron := some cron, Runner := some runner }

/-- Go `InsertJob`. The store answers `some t` when every database call succeeds, `t` being the
`time.Now()` read in between, and `none` when one fails; a failure leaves the job as it was. -/
def InsertJob (db : Option Time) (job : Job) : Option Job :=
  db.map fun t => { job with CreateTime := t, UpdateTime := t }

/-- Go `UpdateJob`, the store answering as for `InsertJob`. -/
def UpdateJob (db : Option Time) (job : Job) : Option Job :=
  db.map fun t => { job with UpdateTime := t }

/-- Go `DeleteJob`, the store answering as for `InsertJob`. -/
def DeleteJob (db : Option Time) (job : Job) : Option Job :=
  db.map fun t => { job with Deleted := true, UpdateTime := t }

/-- The job `LoadJobs` makes of one row: `&Job{}` with the nine scanned columns. -/
def rowJob (row : Job) : Job :=
  { toJobCore := row.toJobCore, CreateTime := row.CreateTime, UpdateTime := row.UpdateTime,
    Deleted := row.Deleted, Opened := row.Opened, Runner := none, Cron := none,
    Next := Time.zero }

/-- The `for rows.Next()` loop of `LoadJobs`: a row whose job does not build is skipped. -/
def loadRows : List Job → Res Unit (List Job)
  | [] => .ok []
  | row :: rest =>
    match (rowJob row).build with
    | .panic => .panic
    | .hang => .hang
    | .err _ => loadRows rest
    | .ok job => (loadRows rest).bind fun jobs => .ok (job :: jobs)

/-- Go `LoadJobs`; the store answers with the rows, or `none` when the query or a scan fails. -/
def LoadJobs (db : Option (List Job)) : Res Unit (List Job) :=
  match db with
  | none => .err ()
  | some rows => loadRows rows

/-! ## `scheduler/scheduler.go`: the control loop -/

/-- The state the control loop owns: the fields `running` and `jobs` of `scheduler`. Every
pointer of `jobs` is to a job no other slot shares, so the slice is a list of jobs. -/
structure scheduler where
  running : Bool
  jobs : List Job
deriving DecidableEq, Repr

/-- The errors of the `process...CMD` methods. -/
inductive CmdError where
  | build (e : BuildError)
  | storeInsert
  | storeUpdate
  | storeDelete
  | notFound
  | alreadyOpened
  | alreadyClosed
deriving DecidableEq, Repr

/-- Go `(s *scheduler) calcJobsNextTime(after)`. A job of the list has a `Cron`; calling `Next`
on a nil one would panic. -/
def calcJobsNextTime (fuel : Nat) (after : Time) : List Job → Res Unit (List Job)
  | [] => .ok []
  | job :: rest =>
    if job.Opened then
      match job.Cron with
      | none => .panic
      | some c =>
        match c.Next fuel after with
        | none => .hang
        | some n => (calcJobsNextTime fuel after rest).bind fun js => .ok ({ job with Next := n } :: js)
    else (calcJobsNextTime fuel after rest).bind fun js => .ok ({ job with Next := Time.zero } :: js)

/-- Go `(s *scheduler) findJobById`: index and job of the first match. -/
def findJobById : List Job → String → Option (Nat × Job)
  | [], _ => none
  | job :: rest, jobId =>
    if job.Id = jobId then some (0, job)
    else (findJobById rest jobId).map fun p => (p.1 + 1, p.2)

/-- Go `(s *scheduler) processNewJobCMD(jobCore)`: the state it leaves and how it ends. `id` is
the string of `uuid.New()`, `db` the answer of the store to `InsertJob`, `now` is
`time.Now()`. -/
def processNewJobCMD (fuel : Nat) (s : scheduler) (jobCore : JobCore) (id : String)
    (db : Option Time) (now : Time) : scheduler × Res CmdError Unit :=
  let job : Job :=
    { toJobCore := { jobCore with Id := id }, CreateTime := Time.zero, UpdateTime := Time.zero,
      Deleted := false, Opened := false, Runner := none, Cron := none, Next := Time.zero }
  match job.build with
  | .err e => (s, .err (.build e))
  | .panic => (s, .panic)
  | .hang => (s, .hang)
  | .ok job =>
    match InsertJob db job with
    | none => (s, .err .storeInsert)
    | some job =>
      match job.Cron with
      | none => ({ s with jobs := s.jobs ++ [job] }, .panic)
      | some c =>
        match c.Next fuel now with
        | none => ({ s with jobs := s.jobs ++ [job] }, .hang)
        | some n => ({ s with jobs := s.jobs ++ [{ job with Next := n }] }, .ok ())

/-- Go `(s *scheduler) processDeleteJobCMD(id)`. -/
def processDeleteJobCMD (s : scheduler) (id : String) (db : Option Time) :
    scheduler × Res CmdError Unit :=
  match findJobById s.jobs id with
  | some (idx, job) =>
    match DeleteJob db job with
    | none => (s, .err .storeDelete)
    | some _ => ({ s with jobs := s.jobs.take idx ++ s.jobs.drop (idx + 1) }, .ok ())
  | none => (s, .err .notFound)

/-- Go `(s *scheduler) processUpdateJobCMD(jobCore)`. -/
def processUpdateJobCMD (fuel : Nat) (s : scheduler) (jobCore : JobCore) (db : Option Time)
    (now : Time) : scheduler × Res CmdError Unit :=
  match findJobById s.jobs jobCore.Id with
  | some (idx, job) =>
    let job2 : Job := { job with toJobCore := jobCore }
    match job2.build with
    | .err e => (s, .err (.build e))
    | .panic => (s, .panic)
    | .hang => (s, .hang)
    | .ok job2 =>
      match UpdateJob db job2 with
      | none => (s, .err .storeUpdate)
      | some job2 =>
        match job2.Cron with
        | none => ({ s with jobs := s.jobs.set idx job2 }, .panic)
        | some c =>
          match c.Next fuel now with
          | none => ({ s with jobs := s.jobs.set idx job2 }, .hang)
          | some n => ({ s with jobs := s.jobs.set idx { job2 with Next := n } }, .ok ())
  | none => (s, .err .notFound)

/-- Go `(s *scheduler) processOpenJobCMD(id)`; the job is changed in place. -/
def processOpenJobCMD (fuel : Nat) (s : scheduler) (id : String) (db : Option Time)
    (now : Time) : scheduler × Res CmdError Unit :=
  match findJobById s.jobs id with
  | some (idx, job) =>
    if job.Opened then (s, .err .alreadyOpened)
    else
      let job := { job with Opened := true }
      match UpdateJob db job with
      | none => ({ s with jobs := s.jobs.set idx { job with Opened := false } }, .err .storeUpdate)
      | some job =>
        match job.Cron with
        | none => ({ s with jobs := s.jobs.set idx job }, .panic)
        | some c =>
          match c.Next fuel now with
          | none => ({ s with jobs := s.jobs.set idx job }, .hang)
          | some n => ({ s with jobs := s.jobs.set idx { job with Next := n } }, .ok ())
  | none => (s, .err .notFound)

/-- Go `(s *scheduler) processCloseJobCMD(id)`; the job is changed in place. -/
def processCloseJobCMD (s : scheduler) (id : String) (db : Option Time) :
    scheduler × Res CmdError Unit :=
  match findJobById s.jobs id with
  | some (idx, job) =>
    if !job.Opened then (s, .err .alreadyClosed)
    else
      let job := { job with Opened := false }
      match UpdateJob db job with
      | none => ({ s with jobs := s.jobs.set idx { job with Opened := true } }, .err .storeUpdate)
      | some job => ({ s with jobs := s.jobs.set idx { job with Next := Time.zero } }, .ok ())
  | none => (s, .err .notFound)

/-- The `for _, job := range s.jobs` loop of the `timer.C` case of `listen`: the job list it
leaves and the copies handed to `go s.runJobWithRecover`, in order. -/
def timerLoop (fuel : Nat) (now : Time) : List Job → Res Unit (List Job × List Job)
  | [] => .ok ([], [])
  | job :: rest =>
    if job.Next.After now || job.Next.IsZero then .ok (job :: rest, [])
    else
      match job.Cron with
      | none => .panic
      | some c =>
        match c.Next fuel now with
        | none => .hang
        | some n =>
          (timerLoop fuel now rest).bind fun p =>
            .ok ({ job with Next := n } :: p.1, { job with Next := n } :: p.2)

/-- What reaches the `select` of `listen`, with what the environment answers while the case
runs: the store, `uuid.New()` and `time.Now()`. -/
inductive Command where
  | start
  | stop
  | reload
  | jobSnapshot
  | isRunningSnapshot
  | timer (now : Time)
  | newJob (jobCore : JobCore) (id : String) (db : Option Time) (now : Time)
  | deleteJob (id : String) (db : Option Time)
  | updateJob (jobCore : JobCore) (db : Option Time) (now : Time)
  | openJob (id : String) (db : Option Time) (now : Time)
  | closeJob (id : String) (db : Option Time)
deriving DecidableEq, Repr

/-- Where a case of the `select` leaves the loops: back to the `select` on the same timer,
out of `JobsChanged` (sort again and arm a new timer), or out of `SchedulerStateChanged`
(load or drop the jobs first). -/
inductive Flow where
  | wait
  | jobsChanged
  | schedulerStateChanged
deriving DecidableEq, Repr

/-- How a `process...CMD` call continues `listen`: an error is logged and the loop waits on,
success leaves `JobsChanged`; `none` when the call has not returned. -/
def afterCmd (p : scheduler × Res CmdError Unit) : Option (scheduler × Flow) :=
  match p.2 with
  | .ok _ => some (p.1, Flow.jobsChanged)
  | .err _ => some (p.1, Flow.wait)
  | .panic => none
  | .hang => none

/-- One case of the `select` of `listen`. -/
def onCommand (fuel : Nat) (s : scheduler) : Command → Option (scheduler × Flow)
  | .start =>
    if !s.running then some ({ s with running := true }, Flow.schedulerStateChanged)
    else some (s, Flow.wait)
  | .stop =>
    if s.running then some ({ s with running := false }, Flow.schedulerStateChanged)
    else some (s, Flow.wait)
  | .reload => some ({ s with running := true }, Flow.schedulerStateChanged)
  | .jobSnapshot => some (s, Flow.wait)
  | .isRunningSnapshot => some (s, Flow.wait)
  | .timer now =>
    match timerLoop fuel now s.jobs with
    | .ok p => some ({ s with jobs := p.1 }, Flow.jobsChanged)
    | _ => none
  | .newJob jobCore id db now =>
    if s.running then afterCmd (processNewJobCMD fuel s jobCore id db now) else some (s, Flow.wait)
  | .deleteJob id db =>
    if s.running then afterCmd (processDeleteJobCMD s id db) else some (s, Flow.wait)
  | .updateJob jobCore db now =>
    if s.running then afterCmd (processUpdateJobCMD fuel s jobCore db now) else some (s, Flow.wait)
  | .openJob id db now =>
    if s.running then afterCmd (processOpenJobCMD fuel s id db now) else some (s, Flow.wait)
  | .closeJob id db =>
    if s.running then afterCmd (processCloseJobCMD s id db) else some (s, Flow.wait)

/-- The head of the outer `for` of `listen`: `loadJobs` (a failed load is logged and keeps the
list) and `calcJobsNextTime(time.Now())` when running, `s.jobs = nil` otherwise. -/
def enterPhase (fuel : Nat) (s : scheduler) (db : Option (List Job)) (now : Time) :
    Option scheduler :=
  if s.running then
    match LoadJobs db with
    | .panic => none
    | .hang => none
    | .err _ =>
      match calcJobsNextTime fuel now s.jobs with
      | .ok js => some { s with jobs := js }
      | _ => none
    | .ok jobs =>
      match calcJobsNextTime fuel now jobs with
      | .ok js => some { s with jobs := js }
      | _ => none
  else some { s with jobs := [] }

/-- What `sort.Sort(JobsByTime(s.jobs))` may leave of `jobs`: a rearrangement in which no job
is `Less` than one before it. -/
def SortedByTime (jobs sorted : List Job) : Prop :=
  sorted.Perm jobs ∧ sorted.Pairwise fun a b => JobsByTime.Less b a = false

/-- The states in which `listen` waits at its `select`. -/
inductive Reachable (fuel : Nat) : scheduler → Prop where
  | init : Reachable fuel ⟨false, []⟩
  | wait (s s1 : scheduler) (cmd : Command) :
      Reachable fuel s → onCommand fuel s cmd = some (s1, Flow.wait) → Reachable fuel s1
  | jobsChanged (s s1 : scheduler) (cmd : Command) (sorted : List Job) :
      Reachable fuel s → onCommand fuel s cmd = some (s1, Flow.jobsChanged) →
      SortedByTime s1.jobs sorted → Reachable fuel { s1 with jobs := sorted }
  | schedulerStateChanged (s s1 s2 : scheduler) (cmd : Command) (db : Option (List Job))
      (now : Time) (sorted : List Job) :
      Reachable fuel s → onCommand fuel s cmd = some (s1, Flow.schedulerStateChanged) →
      enterPhase fuel s1 db now = some s2 → SortedByTime s2.jobs sorted →
      Reachable fuel { s2 with jobs := sorted }

/-! ## `scheduler/result.go` and `runJobWithRecover` -/

def successJobExecuteState : String := "SUCCESS"

def failJobExecuteState : String := "FAIL"

def runningJobExecuteState : String := "RUNNING"

def defaultJobExecuteState : String := runningJobExecuteState

/-- The struct `JobResult`. -/
structure JobResult where
  id : String
  deleted : Bool
  createTime : Time
  updateTime : Time
  jobId : String
  jobName : String
  jobCronRule : String
  jobRunnerName : String
  jobRunnerArgs : String
  startTime : Time
  endTime : Time
  executeState : String
  log : String
deriving DecidableEq, Repr

/-- Go `NewJobResult(job)`, `id` the string of `uuid.New()`. -/
def NewJobResult (job : Job) (id : String) : JobResult :=
  { id := id, deleted := false, createTime := Time.zero, updateTime := Time.zero,
    jobId := job.Id, jobName := job.Name, jobCronRule := job.CronRule,
    jobRunnerName := job.RunnerName, jobRunnerArgs := job.RunnerArgs,
    startTime := Time.zero, endTime := Time.zero, executeState := defaultJobExecuteState,
    log := "" }

/-- Go `(result *JobResult) atStart()`, `t` its `time.Now()`. -/
def JobResult.atStart (result : JobResult) (t : Time) : JobResult :=
  { result with startTime := t, createTime := t, updateTime := t,
                executeState := runningJobExecuteState }

/-- Go `(result *JobResult) atEnd(isSuccess, log)`, `t` its `time.Now()`. -/
def JobResult.atEnd (result : JobResult) (isSuccess : Bool) (log : String) (t : Time) :
    JobResult :=
  { result with endTime := t, updateTime := t, log := log,
                executeState := if isSuccess then successJobExecuteState else failJobExecuteState }

/-- A call of the store made for a result record, with the record as sent. -/
inductive StoreCall where
  | insert (r : JobResult)
  | update (r : JobResult)
deriving DecidableEq, Repr

/-- How the call `job.Runner(job.RunnerArgs)` ends; the strings are what `%v` prints of the
error and of the panic value. -/
inductive RunnerOutcome where
  | returnsNil
  | returnsErr (msg : String)
  | panics (shown : String)
deriving DecidableEq, Repr

/-- What the environment answers during one `runJobWithRecover`: `uuid.New()`, the three
`time.Now()` (in `atStart`, in the `atEnd` of the body, in the `atEnd` of the deferred
function), the store (`none`: no error, `some msg`: the error) for the insert, for the update
of the body and for the update of the deferred function, and the runner. -/
structure ExecEnv where
  id : String
  tStart : Time
  tEnd : Time
  tRecover : Time
  insertErr : Option String
  updateErr : Option String
  recoverUpdateErr : Option String
  runner : RunnerOutcome
deriving DecidableEq, Repr

/-- The variables of `runJobWithRecover` when its body is left: `result`, the buffer `bf`, the
store calls made so far, and the value of a panic under way. -/
structure ExecState where
  result : JobResult
  bf : String
  calls : List StoreCall
  panicking : Option String
deriving DecidableEq, Repr

/-- The body of `runJobWithRecover` below the `defer`. Calling a nil `Runner` panics. -/
def runBody (job : Job) (env : ExecEnv) : ExecState :=
  let result := (NewJobResult job env.id).atStart env.tStart
  let calls := [StoreCall.insert result]
  match env.insertErr with
  | some e => ⟨result, "", calls, some e⟩
  | none =>
    let outcome :=
      match job.Runner with
      | none => RunnerOutcome.panics "runtime error: invalid memory address or nil pointer dereference"
      | some _ => env.runner
    match outcome with
    | .panics shown => ⟨result, "", calls, some shown⟩
    | .returnsErr msg =>
      let bf := "任务执行返回错误：" ++ msg ++ "\n"
      let result := result.atEnd false bf env.tEnd
      ⟨result, bf, calls ++ [StoreCall.update result], env.updateErr⟩
    | .returnsNil =>
      let bf := "任务执行成功\n"
      let result := result.atEnd true bf env.tEnd
      ⟨result, bf, calls ++ [StoreCall.update result], env.updateErr⟩

/-- The deferred function of `runJobWithRecover`: `recover()` ends a panic under way, the
buffer gets the crash line and `SaveAtEnd(false, ...)` is called; its error is only logged. -/
def runDeferred (env : ExecEnv) (st : ExecState) : ExecState :=
  match st.panicking with
  | some shown =>
    let bf := st.bf ++ ("作业宕机，" ++ shown ++ "。")
    let result := st.result.atEnd false bf env.tRecover
    ⟨result, bf, st.calls ++ [StoreCall.update result], none⟩
  | none => st

/-- Go `(s *scheduler) runJobWithRecover(job)`. -/
def runJobWithRecover (job : Job) (env : ExecEnv) : ExecState :=
  runDeferred env (runBody job env)


/-! ## `scheduler/scheduler.go`: the store calls of a command -/

/-- A call of the store made for a job, with the job as passed. -/
inductive JobStoreCall where
  | insert (job : Job)
  | update (job : Job)
  | delete (job : Job)
deriving DecidableEq, Repr

/-- The store calls `processNewJobCMD` makes: `InsertJob` of the job once built. -/
def processNewJobCMD_calls (jobCore : JobCore) (id : String) : List JobStoreCall :=
  let job : Job :=
    { toJobCore := { jobCore with Id := id }, CreateTime := Time.zero, UpdateTime := Time.zero,
      Deleted := false, Opened := false, Runner := none, Cron := none, Next := Time.zero }
  match job.build with
  | .ok job => [JobStoreCall.insert job]
  | _ => []

/-- The store calls `processDeleteJobCMD` makes: `DeleteJob` of the job found. -/
def processDeleteJobCMD_calls (s : scheduler) (id : String) : List JobStoreCall :=
  match findJobById s.jobs id with
  | some (_, job) => [JobStoreCall.delete job]
  | none => []

/-- The store calls `processUpdateJobCMD` makes: `UpdateJob` of the copy once built. -/
def processUpdateJobCMD_calls (s : scheduler) (jobCore : JobCore) : List JobStoreCall :=
  match findJobById s.jobs jobCore.Id with
  | some (_, job) =>
    match ({ job with toJobCore := jobCore } : Job).build with
    | .ok job2 => [JobStoreCall.update job2]
    | _ => []
  | none => []

/-- The store calls `processOpenJobCMD` makes: `UpdateJob` of the job found, now opened. -/
def processOpenJobCMD_calls (s : scheduler) (id : String) : List JobStoreCall :=
  match findJobById s.jobs id with
  | some (_, job) => if job.Opened then [] else [JobStoreCall.update { job with Opened := true }]
  | none => []

/-- The store calls `processCloseJobCMD` makes: `UpdateJob` of the job found, now closed. -/
def processCloseJobCMD_calls (s : scheduler) (id : String) : List JobStoreCall :=
  match findJobById s.jobs id with
  | some (_, job) => if !job.Opened then [] else [JobStoreCall.update { job with Opened := false }]
  | none => []

/-- The calls of the job store one case of the `select` of `listen` makes. -/
def onCommand_calls (s : scheduler) : Command → List JobStoreCall
  | .start => []
  | .stop => []
  | .reload => []
  | .jobSnapshot => []
  | .isRunningSnapshot => []
  | .timer _ => []
  | .newJob jobCore id _ _ => if s.running then processNewJobCMD_calls jobCore id else []
  | .deleteJob id _ => if s.running then processDeleteJobCMD_calls s id else []
  | .updateJob jobCore _ _ => if s.running then processUpdateJobCMD_calls s jobCore else []
  | .openJob id _ _ => if s.running then processOpenJobCMD_calls s id else []
  | .closeJob id _ => if s.running then processCloseJobCMD_calls s id else []

/-- Whether a store call is an update of a result record. -/
def StoreCall.isUpdate : StoreCall → Bool
  | .update _ => true
  | .insert _ => false

/-- The sort key the specification gives a job: its `Next`, and `+∞` (here `⊤`) when `Next` is
the zero time. -/
def JobsByTime.key (j : Job) : WithTop Int :=
  if j.Next.IsZero then ⊤ else ((j.Next.ns : Int) : WithTop Int)

/-- The steps of `getRange(expr, r)` up to its call of `getBits`: the arguments `min`, `max`,
`step` of the call and the `extra` bits or-ed to its result, or the error `getRange` returns
before the call. -/
def getRangeCall (expr : List Char) (r : bounds) : Res CronError (Nat × Nat × Nat × Nat) :=
  let rangeAndStep := Split '/' expr
  let lowAndHigh := Split '-' (rangeAndStep.headD [])
  let singleDigit := lowAndHigh.length == 1
  let range : Res CronError (Nat × Nat × Nat) :=
    if lowAndHigh.headD [] = ['*'] ∨ lowAndHigh.headD [] = ['?'] then .ok (r.min, r.max, starBit)
    else
      (parseIntOrName (lowAndHigh.headD []) r.names).bind fun start =>
        match lowAndHigh with
        | [_] => .ok (start, start, 0)
        | [_, high] => (parseIntOrName high r.names).bind fun e => .ok (start, e, 0)
        | _ => .err .tooManyDashes
  range.bind fun (start, end1, extra) =>
    let stepped : Res CronError (Nat × Nat) :=
      match rangeAndStep with
      | [_] => .ok (1, end1)
      | [_, st] => (mustParseInt st).bind fun step => .ok (step, if singleDigit then r.max else end1)
      | _ => .err .tooManySlashes
    stepped.bind fun (step, end2) =>
      if start < r.min then .err .belowMin
      else if end2 > r.max then .err .aboveMax
      else if start > end2 then .err .startAfterEnd
      else if step = 0 then .err .zeroStep
      else .ok (start, end2, step, extra)

/-! ## Theorems -/

/-! ### The calendar -/

theorem isLeap_iff (y : Int) :
    isLeap y = true ↔ (y % 4 = 0 ∧ (y % 100 ≠ 0 ∨ y % 400 = 0)) := by
  simp [isLeap]

theorem absYear_cycles (n b c e f : Int) (hb : b = n / 146097)
    (hc : c = (n - 146097 * b) / 36524)
    (he : e = (n - 146097 * b - 36524 * (c - c / 4)) / 1461)
    (hf : f = (n - 146097 * b - 36524 * (c - c / 4) - 1461 * e) / 365) :
    daysSinceEpoch (400 * b + 100 * (c - c / 4) + 4 * e + (f - f / 4) + 1)
      + (n - 146097 * b - 36524 * (c - c / 4) - 1461 * e - 365 * (f - f / 4)) = n ∧
    0 ≤ (n - 146097 * b - 36524 * (c - c / 4) - 1461 * e - 365 * (f - f / 4)) ∧
    ((n - 146097 * b - 36524 * (c - c / 4) - 1461 * e - 365 * (f - f / 4)) < 365 ∨
      ((n - 146097 * b - 36524 * (c - c / 4) - 1461 * e - 365 * (f - f / 4)) = 365 ∧
        isLeap (400 * b + 100 * (c - c / 4) + 4 * e + (f - f / 4) + 1) = true)) := by
  rw [isLeap_iff]
  simp only [daysSinceEpoch]
  have hc5 : c = 0 ∨ c = 1 ∨ c = 2 ∨ c = 3 ∨ c = 4 := by omega
  have hf5 : f = 0 ∨ f = 1 ∨ f = 2 ∨ f = 3 ∨ f = 4 := by omega
  rcases hc5 with h | h | h | h | h <;> rcases hf5 with k | k | k | k | k <;>
    subst h <;> subst k <;> (refine ⟨by omega, by omega, ?_⟩; omega)

/-- The year and day of year of `absYear` add up to the day, and the day of year lies within
the year. -/
theorem absYear_spec (n : Int) :
    daysSinceEpoch (absYear n).1 + (absYear n).2 = n ∧ 0 ≤ (absYear n).2 ∧
    ((absYear n).2 < 365 ∨ ((absYear n).2 = 365 ∧ isLeap (absYear n).1 = true)) :=
  absYear_cycles n _ _ _ _ rfl rfl rfl rfl

theorem daysSinceEpoch_succ (y : Int) :
    daysSinceEpoch (y + 1) = daysSinceEpoch y + 365 + (if isLeap y = true then 1 else 0) := by
  by_cases h : isLeap y = true
  · rw [if_pos h]; rw [isLeap_iff] at h; simp only [daysSinceEpoch]; omega
  · rw [if_neg h]; rw [isLeap_iff] at h; simp only [daysSinceEpoch]; omega

theorem daysSinceEpoch_mono (y z : Int) (h : y ≤ z) : daysSinceEpoch y ≤ daysSinceEpoch z := by
  simp only [daysSinceEpoch]
  omega

/-- A month has between 28 and 31 days. -/
theorem daysBefore_step (l : Bool) (m : Int) (h1 : 1 ≤ m) (h12 : m ≤ 12) :
    daysBefore l m + 28 ≤ daysBefore l (m + 1) ∧ daysBefore l (m + 1) ≤ daysBefore l m + 31 := by
  have hm : m = 1 ∨ m = 2 ∨ m = 3 ∨ m = 4 ∨ m = 5 ∨ m = 6 ∨ m = 7 ∨ m = 8 ∨ m = 9 ∨ m = 10 ∨
      m = 11 ∨ m = 12 := by omega
  rcases hm with h | h | h | h | h | h | h | h | h | h | h | h <;> subst h <;>
    cases l <;> simp [daysBefore]

theorem daysBefore_mono (l : Bool) (m k : Int) (h1 : 1 ≤ m) (hmk : m ≤ k) (h13 : k ≤ 13) :
    daysBefore l m ≤ daysBefore l k := by
  have hm : m = 1 ∨ m = 2 ∨ m = 3 ∨ m = 4 ∨ m = 5 ∨ m = 6 ∨ m = 7 ∨ m = 8 ∨ m = 9 ∨ m = 10 ∨
      m = 11 ∨ m = 12 ∨ m = 13 := by omega
  have hk : k = 1 ∨ k = 2 ∨ k = 3 ∨ k = 4 ∨ k = 5 ∨ k = 6 ∨ k = 7 ∨ k = 8 ∨ k = 9 ∨ k = 10 ∨
      k = 11 ∨ k = 12 ∨ k = 13 := by omega
  rcases hm with h | h | h | h | h | h | h | h | h | h | h | h | h <;> subst h <;>
    rcases hk with h | h | h | h | h | h | h | h | h | h | h | h | h <;> subst h <;>
    first
      | omega
      | (cases l <;> simp [daysBefore])

theorem daysBefore_one (l : Bool) : daysBefore l 1 = 0 := by
  simp [daysBefore]

theorem daysBefore_thirteen (l : Bool) : daysBefore l 13 = 365 + (if l = true then 1 else 0) := by
  cases l <;> simp [daysBefore]

theorem daysBefore_values (l : Bool) :
    daysBefore l 2 = 31 ∧ daysBefore l 3 = 59 + (if l = true then 1 else 0) ∧
    daysBefore l 4 = 90 + (if l = true then 1 else 0) ∧
    daysBefore l 5 = 120 + (if l = true then 1 else 0) ∧
    daysBefore l 6 = 151 + (if l = true then 1 else 0) ∧
    daysBefore l 7 = 181 + (if l = true then 1 else 0) ∧
    daysBefore l 8 = 212 + (if l = true then 1 else 0) ∧
    daysBefore l 9 = 243 + (if l = true then 1 else 0) ∧
    daysBefore l 10 = 273 + (if l = true then 1 else 0) ∧
    daysBefore l 11 = 304 + (if l = true then 1 else 0) ∧
    daysBefore l 12 = 334 + (if l = true then 1 else 0) := by
  cases l <;> decide

/-- The month found for a day of the year holds that day. -/
theorem monthOfYday_spec (l : Bool) (yd : Int) (h0 : 0 ≤ yd) (h1 : yd < daysBefore l 13) :
    1 ≤ monthOfYday l yd ∧ monthOfYday l yd ≤ 12 ∧
    daysBefore l (monthOfYday l yd) ≤ yd ∧ yd < daysBefore l (monthOfYday l yd + 1) := by
  obtain ⟨e2, e3, e4, e5, e6, e7, e8, e9, e10, e11, e12⟩ := daysBefore_values l
  have e1 := daysBefore_one l
  have e13 := daysBefore_thirteen l
  have k2 : (1 : Int) + 1 = 2 := rfl
  have k3 : (2 : Int) + 1 = 3 := rfl
  have k4 : (3 : Int) + 1 = 4 := rfl
  have k5 : (4 : Int) + 1 = 5 := rfl
  have k6 : (5 : Int) + 1 = 6 := rfl
  have k7 : (6 : Int) + 1 = 7 := rfl
  have k8 : (7 : Int) + 1 = 8 := rfl
  have k9 : (8 : Int) + 1 = 9 := rfl
  have k10 : (9 : Int) + 1 = 10 := rfl
  have k11 : (10 : Int) + 1 = 11 := rfl
  have k12 : (11 : Int) + 1 = 12 := rfl
  have k13 : (12 : Int) + 1 = 13 := rfl
  have hL : 0 ≤ (if l = true then (1 : Int) else 0) ∧ (if l = true then (1 : Int) else 0) ≤ 1 := by
    cases l <;> simp
  generalize (if l = true then (1 : Int) else 0) = L at *
  unfold monthOfYday
  rw [e2, e3, e4, e5, e6, e7, e8, e9, e10, e11, e12]
  rw [e13] at h1
  by_cases c2 : yd < 31
  · rw [if_pos c2, k2, e1, e2]; clear e1 e2 e3 e4 e5 e6 e7 e8 e9 e10 e11 e12 e13; omega
  rw [if_neg c2]
  by_cases c3 : yd < 59 + L
  · rw [if_pos c3, k3, e2, e3]; clear e1 e2 e3 e4 e5 e6 e7 e8 e9 e10 e11 e12 e13; omega
  rw [if_neg c3]
  by_cases c4 : yd < 90 + L
  · rw [if_pos c4, k4, e3, e4]; clear e1 e2 e3 e4 e5 e6 e7 e8 e9 e10 e11 e12 e13; omega
  rw [if_neg c4]
  by_cases c5 : yd < 120 + L
  · rw [if_pos c5, k5, e4, e5]; clear e1 e2 e3 e4 e5 e6 e7 e8 e9 e10 e11 e12 e13; omega
  rw [if_neg c5]
  by_cases c6 : yd < 151 + L
  · rw [if_pos c6, k6, e5, e6]; clear e1 e2 e3 e4 e5 e6 e7 e8 e9 e10 e11 e12 e13; omega
  rw [if_neg c6]
  by_cases c7 : yd < 181 + L
  · rw [if_pos c7, k7, e6, e7]; clear e1 e2 e3 e4 e5 e6 e7 e8 e9 e10 e11 e12 e13; omega
  rw [if_neg c7]
  by_cases c8 : yd < 212 + L
  · rw [if_pos c8, k8, e7, e8]; clear e1 e2 e3 e4 e5 e6 e7 e8 e9 e10 e11 e12 e13; omega
  rw [if_neg c8]
  by_cases c9 : yd < 243 + L
  · rw [if_pos c9, k9, e8, e9]; clear e1 e2 e3 e4 e5 e6 e7 e8 e9 e10 e11 e12 e13; omega
  rw [if_neg c9]
  by_cases c10 : yd < 273 + L
  · rw [if_pos c10, k10, e9, e10]; clear e1 e2 e3 e4 e5 e6 e7 e8 e9 e10 e11 e12 e13; omega
  rw [if_neg c10]
  by_cases c11 : yd < 304 + L
  · rw [if_pos c11, k11, e10, e11]; clear e1 e2 e3 e4 e5 e6 e7 e8 e9 e10 e11 e12 e13; omega
  rw [if_neg c11]
  by_cases c12 : yd < 334 + L
  · rw [if_pos c12, k12, e11, e12]; clear e1 e2 e3 e4 e5 e6 e7 e8 e9 e10 e11 e12 e13; omega
  rw [if_neg c12, k13, e12, e13]; clear e1 e2 e3 e4 e5 e6 e7 e8 e9 e10 e11 e12 e13; omega

theorem Time.ext_ns (t u : Time) (h : t.ns = u.ns) : t = u := by
  cases t
  cases u
  simp_all

/-- The day number of a time splits into year start, month start and day of month. -/
theorem Time.absDays_eq (t : Time) :
    daysSinceEpoch t.Year + daysBefore (isLeap t.Year) t.Month + (t.Day - 1) = t.absDays := by
  have h := (absYear_spec t.absDays).1
  simp only [Time.Day, Time.Year, Time.YearDay0] at *
  omega

theorem Time.yearDay_range (t : Time) :
    0 ≤ t.YearDay0 ∧ t.YearDay0 < daysBefore (isLeap t.Year) 13 := by
  have h := absYear_spec t.absDays
  rw [daysBefore_thirteen]
  simp only [Time.Year, Time.YearDay0]
  rcases h with ⟨_, h0, h1 | ⟨h1, h2⟩⟩
  · constructor
    · exact h0
    · split <;> omega
  · constructor
    · exact h0
    · rw [if_pos h2]; omega

theorem Time.month_range (t : Time) : 1 ≤ t.Month ∧ t.Month ≤ 12 := by
  have h := monthOfYday_spec (isLeap t.Year) t.YearDay0 t.yearDay_range.1 t.yearDay_range.2
  exact ⟨h.1, h.2.1⟩

/-- The day of the month lies within the month. -/
theorem Time.day_range (t : Time) :
    1 ≤ t.Day ∧ daysBefore (isLeap t.Year) t.Month + t.Day ≤ daysBefore (isLeap t.Year) (t.Month + 1) := by
  have h := monthOfYday_spec (isLeap t.Year) t.YearDay0 t.yearDay_range.1 t.yearDay_range.2
  simp only [Time.Day, Time.Month] at *
  omega

theorem Time.day_le (t : Time) : t.Day ≤ 31 := by
  have h := t.day_range
  have hs := daysBefore_step (isLeap t.Year) t.Month t.month_range.1 t.month_range.2
  omega

theorem Time.weekday_range (t : Time) : 0 ≤ t.Weekday ∧ t.Weekday ≤ 6 := by
  simp only [Time.Weekday]
  omega

theorem Time.hour_range (t : Time) : 0 ≤ t.Hour ∧ t.Hour ≤ 23 := by
  simp only [Time.Hour, Time.secOfDay]
  omega

theorem Time.minute_range (t : Time) : 0 ≤ t.Minute ∧ t.Minute ≤ 59 := by
  simp only [Time.Minute, Time.secOfDay]
  omega

theorem Time.second_range (t : Time) : 0 ≤ t.Second ∧ t.Second ≤ 59 := by
  simp only [Time.Second, Time.secOfDay]
  omega

/-- The clock fields and the day number give the instant back. -/
theorem Time.ns_eq (t : Time) :
    ((t.absDays * 86400 + t.Hour * 3600 + t.Minute * 60 + t.Second) * nsPerSecond
      + t.Nanosecond) = t.ns := by
  simp only [Time.absDays, Time.Hour, Time.Minute, Time.Second, Time.Nanosecond, Time.secOfDay,
    nsPerDay, nsPerSecond]
  omega

/-- The instant `Date` builds, for a month already within 1..12. -/
theorem Date_ns (y m d h mi s n : Int) (h1 : 1 ≤ m) (h12 : m ≤ 12) :
    (Date y m d h mi s n).ns =
      ((daysSinceEpoch y + daysBefore (isLeap y) m + (d - 1)) * 86400 + h * 3600 + mi * 60 + s)
        * nsPerSecond + n := by
  have e1 : y + (m - 1) / 12 = y := by omega
  have e2 : (m - 1) % 12 + 1 = m := by omega
  simp only [Date, e1, e2]

/-- The instant `Date` builds for month 13: January of the next year. -/
theorem Date_ns_thirteen (y d h mi s n : Int) :
    (Date y 13 d h mi s n).ns =
      ((daysSinceEpoch (y + 1) + (d - 1)) * 86400 + h * 3600 + mi * 60 + s) * nsPerSecond + n := by
  have e1 : y + ((13 : Int) - 1) / 12 = y + 1 := by omega
  have e2 : ((13 : Int) - 1) % 12 + 1 = 1 := by omega
  simp only [Date, e1, e2, daysBefore_one, add_zero]

/-- Go `Date` of the fields of a time is that time. -/
theorem Date_fields (t : Time) :
    Date t.Year t.Month t.Day t.Hour t.Minute t.Second t.Nanosecond = t := by
  have h := Date_ns t.Year t.Month t.Day t.Hour t.Minute t.Second t.Nanosecond
    t.month_range.1 t.month_range.2
  rw [t.absDays_eq, t.ns_eq] at h
  generalize Date t.Year t.Month t.Day t.Hour t.Minute t.Second t.Nanosecond = u at h
  cases t
  cases u
  simp_all

theorem daysBefore_nonneg (l : Bool) (m : Int) (h1 : 1 ≤ m) (h13 : m ≤ 13) :
    0 ≤ daysBefore l m := by
  have h := daysBefore_mono l 1 m (le_refl 1) h1 h13
  rw [daysBefore_one] at h
  exact h

theorem yearStart_succ (y : Int) :
    daysSinceEpoch (y + 1) = daysSinceEpoch y + daysBefore (isLeap y) 13 := by
  rw [daysSinceEpoch_succ, daysBefore_thirteen]
  omega

/-- Month starts are ordered like the pairs of year and month. -/
theorem monthStart_le (y m z k : Int) (hm : 1 ≤ m) (hm13 : m ≤ 13) (hk : 1 ≤ k) (hk13 : k ≤ 13)
    (h : y < z ∨ (y = z ∧ m ≤ k)) :
    daysSinceEpoch y + daysBefore (isLeap y) m ≤ daysSinceEpoch z + daysBefore (isLeap z) k := by
  rcases h with h | ⟨h, hmk⟩
  · have a1 := daysBefore_mono (isLeap y) m 13 hm hm13 (le_refl 13)
    have a2 := yearStart_succ y
    have a3 := daysSinceEpoch_mono (y + 1) z (by omega)
    have a4 := daysBefore_nonneg (isLeap z) k hk hk13
    generalize daysSinceEpoch (y + 1) = p at *
    generalize daysSinceEpoch y = q at *
    generalize daysSinceEpoch z = r at *
    generalize daysBefore (isLeap y) m = u at *
    generalize daysBefore (isLeap y) 13 = v at *
    generalize daysBefore (isLeap z) k = w at *
    omega
  · subst h
    have a1 := daysBefore_mono (isLeap y) m k hm hmk hk13
    generalize daysBefore (isLeap y) m = u at *
    generalize daysBefore (isLeap y) k = w at *
    omega

/-- A time lies in the month its fields name. -/
theorem Time.absDays_bounds (t : Time) :
    daysSinceEpoch t.Year + daysBefore (isLeap t.Year) t.Month ≤ t.absDays ∧
    t.absDays < daysSinceEpoch t.Year + daysBefore (isLeap t.Year) (t.Month + 1) := by
  have h1 := t.absDays_eq
  have h2 := t.day_range
  generalize daysSinceEpoch t.Year = p at *
  generalize daysBefore (isLeap t.Year) t.Month = u at *
  generalize daysBefore (isLeap t.Year) (t.Month + 1) = v at *
  generalize t.absDays = a at *
  generalize t.Day = d at *
  omega

theorem Time.ns_bounds (t : Time) :
    t.absDays * nsPerDay ≤ t.ns ∧ t.ns < (t.absDays + 1) * nsPerDay := by
  simp only [Time.absDays, nsPerDay, nsPerSecond]
  omega

/-- A month start at or before a time is at or before the start of the month of that time. -/
theorem monthStart_le_of_le_absDays (t : Time) (y m : Int) (hm : 1 ≤ m) (hm13 : m ≤ 13)
    (h : daysSinceEpoch y + daysBefore (isLeap y) m ≤ t.absDays) :
    daysSinceEpoch y + daysBefore (isLeap y) m ≤
      daysSinceEpoch t.Year + daysBefore (isLeap t.Year) t.Month := by
  have hr := t.month_range
  by_cases hc : y < t.Year ∨ (y = t.Year ∧ m ≤ t.Month)
  · exact monthStart_le y m t.Year t.Month hm hm13 hr.1 (by omega) hc
  · exfalso
    have hlt : t.Year < y ∨ (t.Year = y ∧ t.Month + 1 ≤ m) := by omega
    have a1 := monthStart_le t.Year (t.Month + 1) y m (by omega) (by omega) hm hm13 hlt
    have a2 := t.absDays_bounds.2
    generalize daysSinceEpoch t.Year = p at *
    generalize daysBefore (isLeap t.Year) (t.Month + 1) = v at *
    generalize daysSinceEpoch y = q at *
    generalize daysBefore (isLeap y) m = w at *
    generalize t.absDays = a at *
    omega

/-- Field form of the instant `AddDate(0, 1, 0)` gives. -/
theorem Time.addMonth_ns (t : Time) :
    (t.AddDate 0 1 0).ns =
      ((daysSinceEpoch t.Year + daysBefore (isLeap t.Year) (t.Month + 1) + (t.Day - 1)) * 86400
        + t.Hour * 3600 + t.Minute * 60 + t.Second) * nsPerSecond + t.Nanosecond := by
  have hr := t.month_range
  simp only [Time.AddDate, add_zero]
  by_cases h12 : t.Month = 12
  · rw [h12]
    have e : (12 : Int) + 1 = 13 := rfl
    rw [e, Date_ns_thirteen, yearStart_succ]
  · rw [Date_ns _ _ _ _ _ _ _ (by omega) (by omega)]

/-- The month step of `Next` moves forward, to a whole second. -/
theorem monthStep_gt (t : Time) :
    t.ns < (Date (t.AddDate 0 1 0).Year (t.AddDate 0 1 0).Month 1 0 0 0 0).ns ∧
    (Date (t.AddDate 0 1 0).Year (t.AddDate 0 1 0).Month 1 0 0 0 0).ns % nsPerSecond = 0 := by
  have hx := t.addMonth_ns
  generalize t.AddDate 0 1 0 = x at *
  have hxr := x.month_range
  have hr := t.month_range
  rw [Date_ns _ _ _ _ _ _ _ hxr.1 hxr.2]
  have b1 := t.absDays_bounds
  have b2 := t.ns_bounds
  have b3 := t.day_range
  have c1 := t.hour_range
  have c2 := t.minute_range
  have c3 := t.second_range
  have c4 : 0 ≤ t.Nanosecond ∧ t.Nanosecond < nsPerSecond := by
    simp only [Time.Nanosecond, nsPerSecond]; omega
  have hxd : daysSinceEpoch t.Year + daysBefore (isLeap t.Year) (t.Month + 1) ≤ x.absDays := by
    have d1 := x.ns_bounds
    simp only [nsPerDay, nsPerSecond] at *
    generalize daysSinceEpoch t.Year = p at *
    generalize daysBefore (isLeap t.Year) (t.Month + 1) = v at *
    generalize daysBefore (isLeap t.Year) t.Month = u at *
    generalize x.absDays = a at *
    generalize t.Hour = h at *
    generalize t.Minute = mi at *
    generalize t.Second = s at *
    generalize t.Nanosecond = n at *
    generalize t.Day = d at *
    generalize x.ns = xn at *
    omega
  have key := monthStart_le_of_le_absDays x t.Year (t.Month + 1) (by omega) (by omega) hxd
  simp only [nsPerDay, nsPerSecond] at *
  generalize daysSinceEpoch t.Year = p at *
  generalize daysBefore (isLeap t.Year) (t.Month + 1) = v at *
  generalize daysBefore (isLeap t.Year) t.Month = u at *
  generalize daysSinceEpoch x.Year = q at *
  generalize daysBefore (isLeap x.Year) x.Month = w at *
  generalize t.absDays = a at *
  generalize t.ns = tn at *
  constructor <;> omega

/-- The day step of `Next` moves to the start of the next day. -/
theorem dayStep_eq (t : Time) :
    (Date (t.AddDate 0 0 1).Year (t.AddDate 0 0 1).Month (t.AddDate 0 0 1).Day 0 0 0 0).ns =
      (t.absDays + 1) * nsPerDay := by
  have hx : (t.AddDate 0 0 1).ns = t.ns + nsPerDay := by
    simp only [Time.AddDate, add_zero]
    rw [Date_ns _ _ _ _ _ _ _ t.month_range.1 t.month_range.2]
    have h1 := t.ns_eq
    have h2 := t.absDays_eq
    simp only [nsPerDay, nsPerSecond] at *
    generalize daysSinceEpoch t.Year = p at *
    generalize daysBefore (isLeap t.Year) t.Month = u at *
    generalize t.absDays = a at *
    generalize t.Hour = h at *
    generalize t.Minute = mi at *
    generalize t.Second = s at *
    generalize t.Nanosecond = n at *
    generalize t.Day = d at *
    generalize t.ns = tn at *
    omega
  generalize t.AddDate 0 0 1 = x at *
  rw [Date_ns _ _ _ _ _ _ _ x.month_range.1 x.month_range.2, x.absDays_eq]
  have e : x.absDays = t.absDays + 1 := by
    simp only [Time.absDays, hx, nsPerDay, nsPerSecond]
    omega
  rw [e]
  simp only [nsPerDay, nsPerSecond]
  omega

/-! ### `Next`: the window of its result -/

theorem monthLoop_ge (fuel : Nat) (s : Cron) (x r : Time) (h : monthLoop fuel s x = some r)
    (hx : x.ns % nsPerSecond = 0) : x.ns ≤ r.ns ∧ r.ns % nsPerSecond = 0 := by
  induction fuel generalizing x with
  | zero => simp [monthLoop] at h
  | succ n ih =>
    simp only [monthLoop, ite_self] at h
    split at h
    · have hs := monthStep_gt x
      have := ih _ h hs.2
      omega
    · injection h with h
      subst h
      exact ⟨le_refl _, hx⟩

theorem dayLoop_ge (fuel : Nat) (s : Cron) (x r : Time) (h : dayLoop fuel s x = some r)
    (hx : x.ns % nsPerSecond = 0) : x.ns ≤ r.ns ∧ r.ns % nsPerSecond = 0 := by
  induction fuel generalizing x with
  | zero => simp [dayLoop] at h
  | succ n ih =>
    simp only [dayLoop, ite_self] at h
    split at h
    · have hs := dayStep_eq x
      have hb := x.ns_bounds
      have h0 : (Date (x.AddDate 0 0 1).Year (x.AddDate 0 0 1).Month (x.AddDate 0 0 1).Day
          0 0 0 0).ns % nsPerSecond = 0 := by
        rw [hs]; simp only [nsPerDay, nsPerSecond]; omega
      have := ih _ h h0
      omega
    · injection h with h
      subst h
      exact ⟨le_refl _, hx⟩

theorem hourLoop_ge (fuel : Nat) (s : Cron) (x r : Time) (h : hourLoop fuel s x = some r)
    (hx : x.ns % nsPerSecond = 0) : x.ns ≤ r.ns ∧ r.ns % nsPerSecond = 0 := by
  induction fuel generalizing x with
  | zero => simp [hourLoop] at h
  | succ n ih =>
    simp only [hourLoop, ite_self] at h
    split at h
    · have h0 : ((x.Add (1 * nsPerHour)).Truncate nsPerHour).ns % nsPerSecond = 0 ∧
          x.ns < ((x.Add (1 * nsPerHour)).Truncate nsPerHour).ns := by
        simp only [Time.Add, Time.Truncate, nsPerHour, nsPerSecond]; omega
      have := ih _ h h0.1
      omega
    · injection h with h
      subst h
      exact ⟨le_refl _, hx⟩

theorem minuteLoop_ge (fuel : Nat) (s : Cron) (x r : Time) (h : minuteLoop fuel s x = some r)
    (hx : x.ns % nsPerSecond = 0) : x.ns ≤ r.ns ∧ r.ns % nsPerSecond = 0 := by
  induction fuel generalizing x with
  | zero => simp [minuteLoop] at h
  | succ n ih =>
    simp only [minuteLoop, ite_self] at h
    split at h
    · have h0 : ((x.Add (1 * nsPerMinute)).Truncate nsPerMinute).ns % nsPerSecond = 0 ∧
          x.ns < ((x.Add (1 * nsPerMinute)).Truncate nsPerMinute).ns := by
        simp only [Time.Add, Time.Truncate, nsPerMinute, nsPerSecond]; omega
      have := ih _ h h0.1
      omega
    · injection h with h
      subst h
      exact ⟨le_refl _, hx⟩

theorem secondLoop_ge (fuel : Nat) (s : Cron) (x r : Time) (h : secondLoop fuel s x = some r)
    (hx : x.ns % nsPerSecond = 0) : x.ns ≤ r.ns ∧ r.ns % nsPerSecond = 0 := by
  induction fuel generalizing x with
  | zero => simp [secondLoop] at h
  | succ n ih =>
    simp only [secondLoop, ite_self] at h
    split at h
    · have h0 : (x.Add (1 * nsPerSecond)).ns % nsPerSecond = 0 ∧
          x.ns < (x.Add (1 * nsPerSecond)).ns := by
        simp only [Time.Add, nsPerSecond] at *; omega
      have := ih _ h h0.1
      omega
    · injection h with h
      subst h
      exact ⟨le_refl _, hx⟩

/-- What `Next` returns when it returns: the zero time, or a whole second after `a` and not
after `a.AddDate(5, 0, 0)`. -/
theorem Cron.Next_cases (fuel : Nat) (s : Cron) (a r : Time) (h : s.Next fuel a = some r) :
    r = Time.zero ∨
      (a.ns < r.ns ∧ r.ns ≤ (a.AddDate 5 0 0).ns ∧ r.ns % nsPerSecond = 0) := by
  simp only [Cron.Next] at h
  split at h
  · left; injection h with h; exact h.symm
  · have hs : ((a.Add nsPerSecond).Truncate nsPerSecond).ns % nsPerSecond = 0 ∧
        a.ns < ((a.Add nsPerSecond).Truncate nsPerSecond).ns := by
      simp only [Time.Add, Time.Truncate, nsPerSecond]; omega
    generalize (a.Add nsPerSecond).Truncate nsPerSecond = start at *
    cases h1 : monthLoop fuel s start with
    | none => simp [h1] at h
    | some x1 =>
      cases h2 : dayLoop fuel s x1 with
      | none => simp [h1, h2] at h
      | some x2 =>
        cases h3 : hourLoop fuel s x2 with
        | none => simp [h1, h2, h3] at h
        | some x3 =>
          cases h4 : minuteLoop fuel s x3 with
          | none => simp [h1, h2, h3, h4] at h
          | some x4 =>
            cases h5 : secondLoop fuel s x4 with
            | none => simp [h1, h2, h3, h4, h5] at h
            | some x5 =>
              simp only [h1, h2, h3, h4, h5, Option.bind] at h
              have g1 := monthLoop_ge fuel s start x1 h1 hs.1
              have g2 := dayLoop_ge fuel s x1 x2 h2 g1.2
              have g3 := hourLoop_ge fuel s x2 x3 h3 g2.2
              have g4 := minuteLoop_ge fuel s x3 x4 h4 g3.2
              have g5 := secondLoop_ge fuel s x4 x5 h5 g4.2
              split at h
              · left; injection h with h; exact h.symm
              · rename_i hna
                injection h with h
                subst h
                right
                simp only [Time.After, decide_eq_true_eq, not_lt] at hna
                refine ⟨by omega, hna, g5.2⟩

/-- Claim C4. For every `Cron` (so for every one `NewCron` returns) and every time `t`, a
result of `Next(t)` that is not the zero time is after `t`, is not after `t.AddDate(5, 0, 0)`
(`t` plus five years), and is a whole second: its nanosecond part is zero. -/
theorem Cron.Next_window (fuel : Nat) (c : Cron) (t r : Time) (h : c.Next fuel t = some r)
    (hz : r.IsZero = false) :
    r.After t = true ∧ r.After (t.AddDate 5 0 0) = false ∧ r.Nanosecond = 0 := by
  rcases Cron.Next_cases fuel c t r h with h0 | ⟨h1, h2, h3⟩
  · subst h0
    simp [Time.IsZero, Time.zero] at hz
  · simp only [Time.After, Time.Nanosecond, decide_eq_true_eq, decide_eq_false_iff_not, not_lt]
    exact ⟨h1, h2, h3⟩

/-- The window of `Next` at the schedule of `"0 0 0 ? * wed"` and Monday 2024-01-01T00:00:00Z, where
`Next` is Wednesday 2024-01-03T00:00:00Z. -/
theorem Cron.Next_window_witness :
    NewCron "0 0 0 ? * wed" = .ok ⟨1, 1, 1, 9223372041149743102, 9223372036854783998, 8⟩ ∧
    (Cron.Next 40 ⟨1, 1, 1, 9223372041149743102, 9223372036854783998, 8⟩
      (Date 2024 1 1 0 0 0 0) = some (Date 2024 1 3 0 0 0 0)) ∧
    (Date 2024 1 3 0 0 0 0).IsZero = false ∧
    ((Date 2024 1 3 0 0 0 0).After (Date 2024 1 1 0 0 0 0) = true ∧
      (Date 2024 1 3 0 0 0 0).After ((Date 2024 1 1 0 0 0 0).AddDate 5 0 0) = false ∧
      (Date 2024 1 3 0 0 0 0).Nanosecond = 0) :=
  ⟨by decide, by decide, by decide,
    Cron.Next_window 40 ⟨1, 1, 1, 9223372041149743102, 9223372036854783998, 8⟩
      (Date 2024 1 1 0 0 0 0) (Date 2024 1 3 0 0 0 0) (by decide) (by decide)⟩

/-! ### `Next`: more fuel does not change a result -/

theorem monthLoop_fuel (n m : Nat) (hnm : n ≤ m) (s : Cron) (x r : Time)
    (h : monthLoop n s x = some r) : monthLoop m s x = some r := by
  induction n generalizing m x with
  | zero => simp [monthLoop] at h
  | succ n ih =>
    obtain ⟨k, rfl⟩ : ∃ k, m = k + 1 := ⟨m - 1, by omega⟩
    simp only [monthLoop, ite_self] at h ⊢
    split
    · rename_i hc
      rw [if_pos hc] at h
      exact ih k (by omega) _ h
    · rename_i hc
      rw [if_neg hc] at h
      exact h

theorem dayLoop_fuel (n m : Nat) (hnm : n ≤ m) (s : Cron) (x r : Time)
    (h : dayLoop n s x = some r) : dayLoop m s x = some r := by
  induction n generalizing m x with
  | zero => simp [dayLoop] at h
  | succ n ih =>
    obtain ⟨k, rfl⟩ : ∃ k, m = k + 1 := ⟨m - 1, by omega⟩
    simp only [dayLoop, ite_self] at h ⊢
    split
    · rename_i hc
      rw [if_pos hc] at h
      exact ih k (by omega) _ h
    · rename_i hc
      rw [if_neg hc] at h
      exact h

theorem hourLoop_fuel (n m : Nat) (hnm : n ≤ m) (s : Cron) (x r : Time)
    (h : hourLoop n s x = some r) : hourLoop m s x = some r := by
  induction n generalizing m x with
  | zero => simp [hourLoop] at h
  | succ n ih =>
    obtain ⟨k, rfl⟩ : ∃ k, m = k + 1 := ⟨m - 1, by omega⟩
    simp only [hourLoop, ite_self] at h ⊢
    split
    · rename_i hc
      rw [if_pos hc] at h
      exact ih k (by omega) _ h
    · rename_i hc
      rw [if_neg hc] at h
      exact h

theorem minuteLoop_fuel (n m : Nat) (hnm : n ≤ m) (s : Cron) (x r : Time)
    (h : minuteLoop n s x = some r) : minuteLoop m s x = some r := by
  induction n generalizing m x with
  | zero => simp [minuteLoop] at h
  | succ n ih =>
    obtain ⟨k, rfl⟩ : ∃ k, m = k + 1 := ⟨m - 1, by omega⟩
    simp only [minuteLoop, ite_self] at h ⊢
    split
    · rename_i hc
      rw [if_pos hc] at h
      exact ih k (by omega) _ h
    · rename_i hc
      rw [if_neg hc] at h
      exact h

theorem secondLoop_fuel (n m : Nat) (hnm : n ≤ m) (s : Cron) (x r : Time)
    (h : secondLoop n s x = some r) : secondLoop m s x = some r := by
  induction n generalizing m x with
  | zero => simp [secondLoop] at h
  | succ n ih =>
    obtain ⟨k, rfl⟩ : ∃ k, m = k + 1 := ⟨m - 1, by omega⟩
    simp only [secondLoop, ite_self] at h ⊢
    split
    · rename_i hc
      rw [if_pos hc] at h
      exact ih k (by omega) _ h
    · rename_i hc
      rw [if_neg hc] at h
      exact h

/-- A result `Next` reaches with some fuel is its result with any larger fuel. -/
theorem Cron.Next_fuel (n m : Nat) (hnm : n ≤ m) (s : Cron) (a r : Time)
    (h : s.Next n a = some r) : s.Next m a = some r := by
  simp only [Cron.Next] at h ⊢
  split
  · rename_i hc
    rw [if_pos hc] at h
    exact h
  · rename_i hc
    rw [if_neg hc] at h
    generalize (a.Add nsPerSecond).Truncate nsPerSecond = start at *
    cases h1 : monthLoop n s start with
    | none => simp [h1] at h
    | some x1 =>
      cases h2 : dayLoop n s x1 with
      | none => simp [h1, h2] at h
      | some x2 =>
        cases h3 : hourLoop n s x2 with
        | none => simp [h1, h2, h3] at h
        | some x3 =>
          cases h4 : minuteLoop n s x3 with
          | none => simp [h1, h2, h3, h4] at h
          | some x4 =>
            cases h5 : secondLoop n s x4 with
            | none => simp [h1, h2, h3, h4, h5] at h
            | some x5 =>
              simp only [h1, h2, h3, h4, h5, Option.bind] at h
              simp only [monthLoop_fuel n m hnm s _ _ h1, dayLoop_fuel n m hnm s _ _ h2,
                hourLoop_fuel n m hnm s _ _ h3, minuteLoop_fuel n m hnm s _ _ h4,
                secondLoop_fuel n m hnm s _ _ h5, Option.bind]
              exact h

/-! ### `Next`: the loops do not look again at the higher fields -/

/-- Claim C1, at a failing input. `Next` of the schedule of `"0 0 12 * * mon"` at Monday
2024-01-01T13:00:00Z is 2024-01-02T12:00:00Z: the hour loop runs over midnight into Tuesday and
the day is not looked at again, so the result is not the zero time and its day does not satisfy
`dayMatches`. -/
theorem Next_noon_monday_is_tuesday :
    NewCron "0 0 12 * * mon" =
      .ok ⟨1, 1, 4096, 9223372041149743102, 9223372036854783998, 2⟩ ∧
    (∀ k : Nat, Cron.Next (64 + k) ⟨1, 1, 4096, 9223372041149743102, 9223372036854783998, 2⟩
      (Date 2024 1 1 13 0 0 0) = some (Date 2024 1 2 12 0 0 0)) ∧
    (Date 2024 1 1 13 0 0 0).Weekday = 1 ∧
    (Date 2024 1 2 12 0 0 0).IsZero = false ∧
    (Date 2024 1 2 12 0 0 0).Weekday = 2 ∧
    dayMatches ⟨1, 1, 4096, 9223372041149743102, 9223372036854783998, 2⟩
      (Date 2024 1 2 12 0 0 0) = false := by
  refine ⟨by decide, fun k => ?_, by decide, by decide, by decide, by decide⟩
  exact Cron.Next_fuel 64 (64 + k) (by omega) _ _ _ (by decide)

/-- Claim C2, at a failing input. `Next` of the schedule of `"0 0 0 * 2 *"` at
2024-01-31T00:00:00Z is 2025-02-01T00:00:00Z: `AddDate(0, 1, 0)` of January 31st is March 2nd,
so the month loop steps over February 2024, and 2024-02-01T00:00:00Z, which matches every
field, lies strictly between the time and the result. -/
theorem Next_skips_february :
    NewCron "0 0 0 * 2 *" = .ok ⟨1, 1, 1, 9223372041149743102, 4, 9223372036854775935⟩ ∧
    (∀ k : Nat, Cron.Next (64 + k) ⟨1, 1, 1, 9223372041149743102, 4, 9223372036854775935⟩
      (Date 2024 1 31 0 0 0 0) = some (Date 2025 2 1 0 0 0 0)) ∧
    (Date 2025 2 1 0 0 0 0).IsZero = false ∧
    (Date 2024 2 1 0 0 0 0).After (Date 2024 1 31 0 0 0 0) = true ∧
    (Date 2025 2 1 0 0 0 0).After (Date 2024 2 1 0 0 0 0) = true ∧
    (Date 2024 2 1 0 0 0 0).Nanosecond = 0 ∧
    oneShl (Date 2024 2 1 0 0 0 0).Second &&& 1 ≠ 0 ∧
    oneShl (Date 2024 2 1 0 0 0 0).Minute &&& 1 ≠ 0 ∧
    oneShl (Date 2024 2 1 0 0 0 0).Hour &&& 1 ≠ 0 ∧
    oneShl (Date 2024 2 1 0 0 0 0).Month &&& 4 ≠ 0 ∧
    dayMatches ⟨1, 1, 1, 9223372041149743102, 4, 9223372036854775935⟩
      (Date 2024 2 1 0 0 0 0) = true := by
  refine ⟨by decide, fun k => ?_, by decide, by decide, by decide, by decide, by decide,
    by decide, by decide, by decide, by decide⟩
  exact Cron.Next_fuel 64 (64 + k) (by omega) _ _ _ (by decide)

theorem oneShl_land_four (m : Int) (h1 : 1 ≤ m) (h12 : m ≤ 12) (h : oneShl m &&& 4 ≠ 0) :
    m = 2 := by
  by_contra hne
  have hm : m = 1 ∨ m = 3 ∨ m = 4 ∨ m = 5 ∨ m = 6 ∨ m = 7 ∨ m = 8 ∨ m = 9 ∨ m = 10 ∨ m = 11 ∨
      m = 12 := by omega
  rcases hm with e | e | e | e | e | e | e | e | e | e | e <;> subst e <;> revert h <;> decide

theorem oneShl_land_day31 (d : Int) (h1 : 1 ≤ d) (h29 : d ≤ 29) :
    oneShl d &&& 2147483648 = 0 := by
  have hd : d = 1 ∨ d = 2 ∨ d = 3 ∨ d = 4 ∨ d = 5 ∨ d = 6 ∨ d = 7 ∨ d = 8 ∨ d = 9 ∨ d = 10 ∨
      d = 11 ∨ d = 12 ∨ d = 13 ∨ d = 14 ∨ d = 15 ∨ d = 16 ∨ d = 17 ∨ d = 18 ∨ d = 19 ∨ d = 20 ∨
      d = 21 ∨ d = 22 ∨ d = 23 ∨ d = 24 ∨ d = 25 ∨ d = 26 ∨ d = 27 ∨ d = 28 ∨ d = 29 := by omega
  rcases hd with e | e | e | e | e | e | e | e | e | e | e | e | e | e | e | e | e | e | e | e |
    e | e | e | e | e | e | e | e | e <;> subst e <;> decide

/-- Claim C3, at a failing input. No time has its month and its day matching the schedule of
`"0 0 0 31 2 *"` (there is no February 31st), and yet `Next` at 2024-01-01T00:00:00Z is
2024-03-31T00:00:00Z, not the zero time: the day loop runs out of February and the month is not
looked at again. -/
theorem Next_february_31_is_march_31 :
    NewCron "0 0 0 31 2 *" = .ok ⟨1, 1, 1, 2147483648, 4, 9223372036854775935⟩ ∧
    (∀ u : Time, ¬ (oneShl u.Month &&& 4 ≠ 0 ∧
      dayMatches ⟨1, 1, 1, 2147483648, 4, 9223372036854775935⟩ u = true)) ∧
    (∀ k : Nat, Cron.Next (64 + k) ⟨1, 1, 1, 2147483648, 4, 9223372036854775935⟩
      (Date 2024 1 1 0 0 0 0) = some (Date 2024 3 31 0 0 0 0)) ∧
    (Date 2024 3 31 0 0 0 0).IsZero = false ∧
    (Date 2024 3 31 0 0 0 0).Month = 3 := by
  refine ⟨by decide, fun u hu => ?_, fun k => ?_, by decide, by decide⟩
  · obtain ⟨hm, hd⟩ := hu
    have h2 := oneShl_land_four u.Month u.month_range.1 u.month_range.2 hm
    have hr := u.day_range
    rw [h2] at hr
    have e3 : (2 : Int) + 1 = 3 := rfl
    rw [e3] at hr
    obtain ⟨v2, v3, _⟩ := daysBefore_values (isLeap u.Year)
    rw [v2, v3] at hr
    have h29 : u.Day ≤ 29 := by
      have : (if isLeap u.Year = true then (1 : Int) else 0) ≤ 1 := by split <;> omega
      omega
    have hz := oneShl_land_day31 u.Day hr.1 h29
    have hstar : (9223372036854775935 : Nat) &&& starBit > 0 := by decide
    simp only [dayMatches, hz, hstar, or_true, if_true] at hd
    simp at hd
  · exact Cron.Next_fuel 64 (64 + k) (by omega) _ _ _ (by decide)

/-! ### `dayMatches` -/

/-- The test `1<<uint(v) & x > 0` reads bit `v` of `x`. -/
theorem oneShl_land_pos (v : Int) (x : Nat) (h0 : 0 ≤ v) (h63 : v ≤ 63) :
    (oneShl v &&& x > 0) ↔ x.testBit v.toNat = true := by
  obtain ⟨n, rfl⟩ : ∃ n : Nat, v = (n : Int) := ⟨v.toNat, by omega⟩
  have hn : n < 64 := by omega
  simp only [oneShl, Int.toNat_ofNat, uint64Size]
  have hlt : (1 <<< n) < 18446744073709551616 := by
    rw [Nat.one_shiftLeft]
    calc 2 ^ n < 2 ^ 64 := Nat.pow_lt_pow_right (by omega) hn
      _ = 18446744073709551616 := by norm_num
  rw [Nat.mod_eq_of_lt hlt, Nat.one_shiftLeft, gt_iff_lt, Nat.pos_iff_ne_zero, Nat.and_comm]
  rw [Nat.and_two_pow]
  cases x.testBit n <;> simp

theorem land_starBit_pos (x : Nat) : (x &&& starBit > 0) ↔ x.testBit 63 = true := by
  have e : starBit = 2 ^ 63 := by norm_num [starBit]
  rw [e, gt_iff_lt, Nat.pos_iff_ne_zero, Nat.and_two_pow]
  cases x.testBit 63 <;> simp

/-- Claim C5. `dayMatches(c, t)` is (day-of-month bit set in `c.Dom` and weekday bit set in
`c.Dow`) when bit 63 is set in `c.Dom` or in `c.Dow`, and (day-of-month bit set or weekday bit
set) otherwise. `"0 0 12 15 * mon"` parses to a schedule with `Dom = 1<<15` and `Dow = 1<<1`,
neither with bit 63, for which a time matches exactly on the 15th of a month or on a Monday. -/
theorem dayMatches_spec :
    (∀ (c : Cron) (t : Time), dayMatches c t =
      if c.Dom.testBit 63 = true ∨ c.Dow.testBit 63 = true then
        (c.Dom.testBit t.Day.toNat && c.Dow.testBit t.Weekday.toNat)
      else (c.Dom.testBit t.Day.toNat || c.Dow.testBit t.Weekday.toNat)) ∧
    NewCron "0 0 12 15 * mon" = .ok ⟨1, 1, 4096, 32768, 9223372036854783998, 2⟩ ∧
    Nat.testBit 32768 63 = false ∧ Nat.testBit 2 63 = false ∧
    (∀ t : Time, dayMatches ⟨1, 1, 4096, 32768, 9223372036854783998, 2⟩ t = true ↔
      (t.Day = 15 ∨ t.Weekday = 1)) := by
  have gen : ∀ (c : Cron) (t : Time), dayMatches c t =
      if c.Dom.testBit 63 = true ∨ c.Dow.testBit 63 = true then
        (c.Dom.testBit t.Day.toNat && c.Dow.testBit t.Weekday.toNat)
      else (c.Dom.testBit t.Day.toNat || c.Dow.testBit t.Weekday.toNat) := by
    intro c t
    have hd := oneShl_land_pos t.Day c.Dom (by have := t.day_range; omega)
      (by have := t.day_le; omega)
    have hw := oneShl_land_pos t.Weekday c.Dow t.weekday_range.1
      (by have := t.weekday_range; omega)
    simp only [dayMatches, land_starBit_pos, hd, hw, Bool.decide_eq_true]
  refine ⟨gen, by decide, by decide, by decide, fun t => ?_⟩
  rw [gen]
  have h1 : Nat.testBit 32768 63 = false := by decide
  have h2 : Nat.testBit 2 63 = false := by decide
  simp only [h1, h2, Bool.false_eq_true, or_self, if_false, Bool.or_eq_true]
  have hd := t.day_range
  have hd31 := t.day_le
  have hw := t.weekday_range
  have ed : Nat.testBit 32768 t.Day.toNat = true ↔ t.Day = 15 := by
    obtain ⟨n, hn⟩ : ∃ n : Nat, t.Day = (n : Int) := ⟨t.Day.toNat, by omega⟩
    rw [hn, Int.toNat_ofNat]
    have hn31 : n ≤ 31 := by omega
    have e : (32768 : Nat) = 2 ^ 15 := by norm_num
    rw [e, Nat.testBit_two_pow]
    simp only [decide_eq_true_eq]
    omega
  have ew : Nat.testBit 2 t.Weekday.toNat = true ↔ t.Weekday = 1 := by
    obtain ⟨n, hn⟩ : ∃ n : Nat, t.Weekday = (n : Int) := ⟨t.Weekday.toNat, by omega⟩
    rw [hn, Int.toNat_ofNat]
    have e : (2 : Nat) = 2 ^ 1 := by norm_num
    rw [e, Nat.testBit_two_pow]
    simp only [decide_eq_true_eq]
    omega
  rw [ed, ew]

/-! ### The control loop: jobs that are not opened -/

theorem SortedByTime_single (j : Job) : SortedByTime [j] [j] := by
  constructor
  · exact List.Perm.refl _
  · simp

theorem SortedByTime_nil : SortedByTime [] [] := by
  constructor
  · exact List.Perm.refl _
  · simp

/-- Claim C6, at a failing input. From the initial state, Start with an empty store and then a
successful New of a job with the rule `"* * * * * *"` at 2024-01-01T00:00:00Z lead to a state
the control loop waits in whose only job has `Opened = false` and `Next` 2024-01-01T00:00:01Z,
not the zero time: `processNewJobCMD` sets `Next` to `Cron.Next(now)` without looking at
`Opened`. -/
theorem closed_job_has_next_after_new :
    ∀ k : Nat, ∃ j : Job, Reachable (4 + k) ⟨true, [j]⟩ ∧ j.Id = "id-1" ∧
      j.Opened = false ∧ j.Next = Date 2024 1 1 0 0 1 0 ∧ j.Next.IsZero = false := by
  intro k
  have hn : Cron.Next (4 + k) ⟨10376293541461622783, 10376293541461622783, 9223372036871553023,
      9223372041149743102, 9223372036854783998, 9223372036854775935⟩ (Date 2024 1 1 0 0 0 0)
      = some (Date 2024 1 1 0 0 1 0) :=
    Cron.Next_fuel 4 (4 + k) (by omega) _ _ _ (by decide)
  have hb : Job.build
      { toJobCore := ⟨"id-1", "job", "* * * * * *", "WeiXinArticle", ""⟩,
        CreateTime := Time.zero, UpdateTime := Time.zero, Deleted := false, Opened := false,
        Runner := none, Cron := none, Next := Time.zero } =
      .ok
      { toJobCore := ⟨"id-1", "job", "* * * * * *", "WeiXinArticle", ""⟩,
        CreateTime := Time.zero, UpdateTime := Time.zero, Deleted := false, Opened := false,
        Runner := some Runner.weixinCrawl,
        Cron := some ⟨10376293541461622783, 10376293541461622783, 9223372036871553023,
          9223372041149743102, 9223372036854783998, 9223372036854775935⟩,
        Next := Time.zero } := by decide
  have r0 : Reachable (4 + k) ⟨false, []⟩ := Reachable.init
  have r1 : Reachable (4 + k) ⟨true, []⟩ :=
    Reachable.schedulerStateChanged ⟨false, []⟩ ⟨true, []⟩ ⟨true, []⟩ Command.start (some [])
      (Date 2024 1 1 0 0 0 0) [] r0 (by simp [onCommand])
      (by simp [enterPhase, LoadJobs, loadRows, calcJobsNextTime]) SortedByTime_nil
  refine ⟨
    { toJobCore := ⟨"id-1", "job", "* * * * * *", "WeiXinArticle", ""⟩,
      CreateTime := Date 2024 1 1 0 0 0 0, UpdateTime := Date 2024 1 1 0 0 0 0,
      Deleted := false, Opened := false, Runner := some Runner.weixinCrawl,
      Cron := some ⟨10376293541461622783, 10376293541461622783, 9223372036871553023,
        9223372041149743102, 9223372036854783998, 9223372036854775935⟩,
      Next := Date 2024 1 1 0 0 1 0 }, ?_, rfl, rfl, rfl, by decide⟩
  refine Reachable.jobsChanged ⟨true, []⟩ ⟨true, [_]⟩
    (Command.newJob ⟨"", "job", "* * * * * *", "WeiXinArticle", ""⟩ "id-1"
      (some (Date 2024 1 1 0 0 0 0)) (Date 2024 1 1 0 0 0 0)) [_] r1 ?_ (SortedByTime_single _)
  simp only [onCommand, if_true, processNewJobCMD, hb, InsertJob, Option.map, hn, afterCmd,
    List.nil_append]

/-! ### The control loop: a timer fire -/

/-- In a list ordered by `JobsByTime`, no job after one that is not due is due. -/
theorem not_due_of_sorted (now : Time) (job b : Job)
    (hj : (job.Next.After now || job.Next.IsZero) = true)
    (hl : JobsByTime.Less b job = false) :
    (b.Next.After now || b.Next.IsZero) = true := by
  simp only [JobsByTime.Less, Time.IsZero, Time.After, Time.Before, Bool.or_eq_true,
    decide_eq_true_eq] at *
  by_cases hb : b.Next.ns = 0
  · right; exact hb
  · rw [if_neg hb] at hl
    by_cases hz : job.Next.ns = 0
    · rw [if_pos hz] at hl
      cases hl
    · rw [if_neg hz] at hl
      simp only [decide_eq_false_iff_not, not_lt] at hl
      left
      omega

theorem timerLoop_none_due (fuel : Nat) (now : Time) (jobs : List Job)
    (h : ∀ b ∈ jobs, (b.Next.After now || b.Next.IsZero) = true) :
    timerLoop fuel now jobs = .ok (jobs, []) := by
  cases jobs with
  | nil => rfl
  | cons j rest =>
    have hj := h j (List.mem_cons_self _ _)
    simp only [timerLoop, hj, if_true]

/-- Claim C7. On a timer fire at `now`, over a job list ordered by `JobsByTime` (no job is
`Less` than one before it), and with `next j` the result of `Cron.Next(now)` for every due job
`j` (one whose `Next` is not zero and not after `now`): the loop returns; the list it leaves is
the old one with the `Next` of every due job replaced by `next j` and every other job as it
was; the jobs dispatched are the due jobs, each once and in list order, as copies with the new
`Next`. -/
theorem timerLoop_spec (fuel : Nat) (now : Time) (next : Job → Time) (jobs : List Job)
    (hs : jobs.Pairwise fun a b => JobsByTime.Less b a = false)
    (hn : ∀ j ∈ jobs, (j.Next.After now || j.Next.IsZero) = false →
      ∃ c, j.Cron = some c ∧ c.Next fuel now = some (next j)) :
    timerLoop fuel now jobs = .ok
      (jobs.map (fun j => if (j.Next.After now || j.Next.IsZero) = false
          then { j with Next := next j } else j),
       (jobs.filter (fun j => !(j.Next.After now || j.Next.IsZero))).map
          (fun j => { j with Next := next j })) := by
  induction jobs with
  | nil => rfl
  | cons job rest ih =>
    rw [List.pairwise_cons] at hs
    by_cases hj : (job.Next.After now || job.Next.IsZero) = true
    · have hall : ∀ b ∈ job :: rest, (b.Next.After now || b.Next.IsZero) = true := by
        intro b hb
        rcases List.mem_cons.mp hb with e | hb
        · rw [e]; exact hj
        · exact not_due_of_sorted now job b hj (hs.1 b hb)
      rw [timerLoop_none_due fuel now (job :: rest) hall]
      have hmap : (job :: rest).map (fun j => if (j.Next.After now || j.Next.IsZero) = false
          then { j with Next := next j } else j) = job :: rest := by
        conv => rhs; rw [← List.map_id (job :: rest)]
        apply List.map_congr_left
        intro b hb
        simp [hall b hb]
      have hfil : (job :: rest).filter (fun j => !(j.Next.After now || j.Next.IsZero)) = [] := by
        rw [List.filter_eq_nil_iff]
        intro b hb
        simp [hall b hb]
      rw [hmap, hfil]
      rfl
    · have hj2 : (job.Next.After now || job.Next.IsZero) = false := by
        cases h : (job.Next.After now || job.Next.IsZero)
        · rfl
        · exact absurd h hj
      obtain ⟨c, hc, hnx⟩ := hn job (List.mem_cons_self _ _) hj2
      have ih2 := ih hs.2 (fun j hjm => hn j (List.mem_cons_of_mem _ hjm))
      simp only [timerLoop, hj2, Bool.false_eq_true, if_false, hc, hnx, ih2, Res.bind,
        List.map_cons, if_true, List.filter_cons, Bool.not_false]

/-- A timer fire at 2024-01-01T00:00:05Z over a due job followed by a job with a zero `Next`. -/
theorem timerLoop_spec_witness :
    timerLoop 4 (Date 2024 1 1 0 0 5 0)
      [{ toJobCore := ⟨"a", "first", "* * * * * *", "WeiXinArticle", ""⟩,
         CreateTime := Time.zero, UpdateTime := Time.zero, Deleted := false, Opened := true,
         Runner := some Runner.weixinCrawl,
         Cron := some ⟨10376293541461622783, 10376293541461622783, 9223372036871553023,
           9223372041149743102, 9223372036854783998, 9223372036854775935⟩,
         Next := Date 2024 1 1 0 0 1 0 },
       { toJobCore := ⟨"b", "second", "* * * * * *", "WeiXinArticle", ""⟩,
         CreateTime := Time.zero, UpdateTime := Time.zero, Deleted := false, Opened := false,
         Runner := some Runner.weixinCrawl,
         Cron := some ⟨10376293541461622783, 10376293541461622783, 9223372036871553023,
           9223372041149743102, 9223372036854783998, 9223372036854775935⟩,
         Next := Time.zero }] =
    .ok
      ([{ toJobCore := ⟨"a", "first", "* * * * * *", "WeiXinArticle", ""⟩,
          CreateTime := Time.zero, UpdateTime := Time.zero, Deleted := false, Opened := true,
          Runner := some Runner.weixinCrawl,
          Cron := some ⟨10376293541461622783, 10376293541461622783, 9223372036871553023,
            9223372041149743102, 9223372036854783998, 9223372036854775935⟩,
          Next := Date 2024 1 1 0 0 6 0 },
        { toJobCore := ⟨"b", "second", "* * * * * *", "WeiXinArticle", ""⟩,
          CreateTime := Time.zero, UpdateTime := Time.zero, Deleted := false, Opened := false,
          Runner := some Runner.weixinCrawl,
          Cron := some ⟨10376293541461622783, 10376293541461622783, 9223372036871553023,
            9223372041149743102, 9223372036854783998, 9223372036854775935⟩,
          Next := Time.zero }],
       [{ toJobCore := ⟨"a", "first", "* * * * * *", "WeiXinArticle", ""⟩,
          CreateTime := Time.zero, UpdateTime := Time.zero, Deleted := false, Opened := true,
          Runner := some Runner.weixinCrawl,
          Cron := some ⟨10376293541461622783, 10376293541461622783, 9223372036871553023,
            9223372041149743102, 9223372036854783998, 9223372036854775935⟩,
          Next := Date 2024 1 1 0 0 6 0 }]) := by
  have h := timerLoop_spec 4 (Date 2024 1 1 0 0 5 0) (fun _ => Date 2024 1 1 0 0 6 0)
    [{ toJobCore := ⟨"a", "first", "* * * * * *", "WeiXinArticle", ""⟩,
       CreateTime := Time.zero, UpdateTime := Time.zero, Deleted := false, Opened := true,
       Runner := some Runner.weixinCrawl,
       Cron := some ⟨10376293541461622783, 10376293541461622783, 9223372036871553023,
         9223372041149743102, 9223372036854783998, 9223372036854775935⟩,
       Next := Date 2024 1 1 0 0 1 0 },
     { toJobCore := ⟨"b", "second", "* * * * * *", "WeiXinArticle", ""⟩,
       CreateTime := Time.zero, UpdateTime := Time.zero, Deleted := false, Opened := false,
       Runner := some Runner.weixinCrawl,
       Cron := some ⟨10376293541461622783, 10376293541461622783, 9223372036871553023,
         9223372041149743102, 9223372036854783998, 9223372036854775935⟩,
       Next := Time.zero }]
    (by
      rw [List.pairwise_cons]
      refine ⟨fun b hb => ?_, by simp⟩
      rw [List.mem_singleton] at hb
      subst hb
      decide)
    (by
      intro j hj hd
      rw [List.mem_cons, List.mem_singleton] at hj
      rcases hj with e | e
      · subst e
        exact ⟨_, rfl, by decide⟩
      · subst e
        revert hd
        decide)
  rw [h]
  decide

/-! ### The control loop: New and Update that fail -/

/-- Claim C8. When `processNewJobCMD` returns an error the job list is the one before the call,
and so it is when `processUpdateJobCMD` returns an error: whichever the error (the rule does
not parse, the runner name is unknown, the id is not in the list, the store fails). -/
theorem process_error_keeps_jobs (fuel : Nat) (s : scheduler) (jobCore : JobCore) (id : String)
    (db : Option Time) (now : Time) (e : CmdError) :
    ((processNewJobCMD fuel s jobCore id db now).2 = .err e →
      (processNewJobCMD fuel s jobCore id db now).1.jobs = s.jobs) ∧
    ((processUpdateJobCMD fuel s jobCore db now).2 = .err e →
      (processUpdateJobCMD fuel s jobCore db now).1.jobs = s.jobs) := by
  constructor
  · simp only [processNewJobCMD]
    repeat' split
    all_goals simp
  · simp only [processUpdateJobCMD]
    repeat' split
    all_goals simp

/-- A New whose rule has five fields and an Update whose store call fails, over a list of one
job. -/
theorem process_error_keeps_jobs_witness :
    (processNewJobCMD 4
      ⟨true, [{ toJobCore := ⟨"a", "first", "* * * * * *", "WeiXinArticle", ""⟩,
                CreateTime := Time.zero, UpdateTime := Time.zero, Deleted := false,
                Opened := true, Runner := some Runner.weixinCrawl,
                Cron := some ⟨10376293541461622783, 10376293541461622783, 9223372036871553023,
                  9223372041149743102, 9223372036854783998, 9223372036854775935⟩,
                Next := Date 2024 1 1 0 0 1 0 }]⟩
      ⟨"", "new", "* * * * *", "WeiXinArticle", ""⟩ "b" (some (Date 2024 1 1 0 0 0 0))
      (Date 2024 1 1 0 0 0 0)).2 = .err (.build (.cron (.fieldCount 5))) ∧
    (processNewJobCMD 4
      ⟨true, [{ toJobCore := ⟨"a", "first", "* * * * * *", "WeiXinArticle", ""⟩,
                CreateTime := Time.zero, UpdateTime := Time.zero, Deleted := false,
                Opened := true, Runner := some Runner.weixinCrawl,
                Cron := some ⟨10376293541461622783, 10376293541461622783, 9223372036871553023,
                  9223372041149743102, 9223372036854783998, 9223372036854775935⟩,
                Next := Date 2024 1 1 0 0 1 0 }]⟩
      ⟨"", "new", "* * * * *", "WeiXinArticle", ""⟩ "b" (some (Date 2024 1 1 0 0 0 0))
      (Date 2024 1 1 0 0 0 0)).1.jobs =
      [{ toJobCore := ⟨"a", "first", "* * * * * *", "WeiXinArticle", ""⟩,
         CreateTime := Time.zero, UpdateTime := Time.zero, Deleted := false,
         Opened := true, Runner := some Runner.weixinCrawl,
         Cron := some ⟨10376293541461622783, 10376293541461622783, 9223372036871553023,
           9223372041149743102, 9223372036854783998, 9223372036854775935⟩,
         Next := Date 2024 1 1 0 0 1 0 }] ∧
    (processUpdateJobCMD 4
      ⟨true, [{ toJobCore := ⟨"a", "first", "* * * * * *", "WeiXinArticle", ""⟩,
                CreateTime := Time.zero, UpdateTime := Time.zero, Deleted := false,
                Opened := true, Runner := some Runner.weixinCrawl,
                Cron := some ⟨10376293541461622783, 10376293541461622783, 9223372036871553023,
                  9223372041149743102, 9223372036854783998, 9223372036854775935⟩,
                Next := Date 2024 1 1 0 0 1 0 }]⟩
      ⟨"a", "renamed", "0 0 12 * * mon", "WeiXinArticle", ""⟩ none
      (Date 2024 1 1 0 0 0 0)).2 = .err .storeUpdate ∧
    (processUpdateJobCMD 4
      ⟨true, [{ toJobCore := ⟨"a", "first", "* * * * * *", "WeiXinArticle", ""⟩,
                CreateTime := Time.zero, UpdateTime := Time.zero, Deleted := false,
                Opened := true, Runner := some Runner.weixinCrawl,
                Cron := some ⟨10376293541461622783, 10376293541461622783, 9223372036871553023,
                  9223372041149743102, 9223372036854783998, 9223372036854775935⟩,
                Next := Date 2024 1 1 0 0 1 0 }]⟩
      ⟨"a", "renamed", "0 0 12 * * mon", "WeiXinArticle", ""⟩ none
      (Date 2024 1 1 0 0 0 0)).1.jobs =
      [{ toJobCore := ⟨"a", "first", "* * * * * *", "WeiXinArticle", ""⟩,
         CreateTime := Time.zero, UpdateTime := Time.zero, Deleted := false,
         Opened := true, Runner := some Runner.weixinCrawl,
         Cron := some ⟨10376293541461622783, 10376293541461622783, 9223372036871553023,
           9223372041149743102, 9223372036854783998, 9223372036854775935⟩,
         Next := Date 2024 1 1 0 0 1 0 }] :=
  ⟨by decide,
   (process_error_keeps_jobs 4 _ _ "b" (some (Date 2024 1 1 0 0 0 0)) (Date 2024 1 1 0 0 0 0)
      (.build (.cron (.fieldCount 5)))).1 (by decide),
   by decide,
   (process_error_keeps_jobs 4 _ ⟨"a", "renamed", "0 0 12 * * mon", "WeiXinArticle", ""⟩ ""
      none (Date 2024 1 1 0 0 0 0) .storeUpdate).2 (by decide)⟩

/-! ### The execution wrapper: the state it leaves -/

/-- Claim C9 as stated fails: a job with a runner, the insert succeeding, the runner returning
nil without a panic, and the update of the body failing leave `FAIL`, not `SUCCESS`, in the
result record. -/
theorem executeState_not_success_iff_runner_nil :
    ¬ ∀ (job : Job) (env : ExecEnv), job.Runner ≠ none →
      ((runJobWithRecover job env).result.executeState = successJobExecuteState ↔
        env.runner = RunnerOutcome.returnsNil) := by
  intro h
  have h1 := h
    { toJobCore := ⟨"a", "first", "* * * * * *", "WeiXinArticle", ""⟩,
      CreateTime := Time.zero, UpdateTime := Time.zero, Deleted := false, Opened := true,
      Runner := some Runner.weixinCrawl, Cron := none, Next := Time.zero }
    { id := "r", tStart := ⟨1⟩, tEnd := ⟨2⟩, tRecover := ⟨3⟩, insertErr := none,
      updateErr := some "connection lost", recoverUpdateErr := none,
      runner := RunnerOutcome.returnsNil }
    (by decide)
  revert h1
  decide

/-- Claim C9, amended. For every job with a runner and every answer of the runner and of the
store, the `executeState` that `runJobWithRecover` leaves in the result record is `SUCCESS`
exactly when the insert succeeded, the runner returned nil without a panic and the update made
by the body succeeded, and it is `FAIL` in every other case. -/
theorem executeState_success_iff (job : Job) (env : ExecEnv) (hr : job.Runner ≠ none) :
    ((runJobWithRecover job env).result.executeState = successJobExecuteState ↔
      (env.insertErr = none ∧ env.runner = RunnerOutcome.returnsNil ∧ env.updateErr = none)) ∧
    ((runJobWithRecover job env).result.executeState ≠ successJobExecuteState →
      (runJobWithRecover job env).result.executeState = failJobExecuteState) := by
  have hne : failJobExecuteState ≠ successJobExecuteState := by decide
  obtain ⟨rn, hrn⟩ : ∃ rn, job.Runner = some rn := by
    cases h : job.Runner with
    | none => exact absurd h hr
    | some rn => exact ⟨rn, rfl⟩
  cases hi : env.insertErr with
  | some e =>
    simp [runJobWithRecover, runBody, runDeferred, hi, JobResult.atEnd, hne]
  | none =>
    cases hrun : env.runner with
    | panics shown =>
      simp [runJobWithRecover, runBody, runDeferred, hi, hrn, hrun, JobResult.atEnd, hne]
    | returnsErr msg =>
      cases hu : env.updateErr <;>
        simp [runJobWithRecover, runBody, runDeferred, hi, hrn, hrun, hu, JobResult.atEnd, hne]
    | returnsNil =>
      cases hu : env.updateErr <;>
        simp [runJobWithRecover, runBody, runDeferred, hi, hrn, hrun, hu, JobResult.atEnd, hne]

/-- A run that ends in `SUCCESS` and a run whose runner panics. -/
theorem executeState_success_iff_witness :
    ((runJobWithRecover
        { toJobCore := ⟨"a", "first", "* * * * * *", "WeiXinArticle", ""⟩,
          CreateTime := Time.zero, UpdateTime := Time.zero, Deleted := false, Opened := true,
          Runner := some Runner.weixinCrawl, Cron := none, Next := Time.zero }
        { id := "r", tStart := ⟨1⟩, tEnd := ⟨2⟩, tRecover := ⟨3⟩, insertErr := none,
          updateErr := none, recoverUpdateErr := none,
          runner := RunnerOutcome.returnsNil }).result.executeState = "SUCCESS") ∧
    ((runJobWithRecover
        { toJobCore := ⟨"a", "first", "* * * * * *", "WeiXinArticle", ""⟩,
          CreateTime := Time.zero, UpdateTime := Time.zero, Deleted := false, Opened := true,
          Runner := some Runner.weixinCrawl, Cron := none, Next := Time.zero }
        { id := "r", tStart := ⟨1⟩, tEnd := ⟨2⟩, tRecover := ⟨3⟩, insertErr := none,
          updateErr := none, recoverUpdateErr := none,
          runner := RunnerOutcome.panics "boom" }).result.executeState = "FAIL") :=
  ⟨(executeState_success_iff _ _ (by decide)).1.mpr ⟨rfl, rfl, rfl⟩,
   (executeState_success_iff
      { toJobCore := ⟨"a", "first", "* * * * * *", "WeiXinArticle", ""⟩,
        CreateTime := Time.zero, UpdateTime := Time.zero, Deleted := false, Opened := true,
        Runner := some Runner.weixinCrawl, Cron := none, Next := Time.zero }
      { id := "r", tStart := ⟨1⟩, tEnd := ⟨2⟩, tRecover := ⟨3⟩, insertErr := none,
        updateErr := none, recoverUpdateErr := none,
        runner := RunnerOutcome.panics "boom" } (by decide)).2 (by decide)⟩

/-! ### `getBits` and `getRange`: the bits of a numeric term -/

theorem maxUint64_eq : maxUint64 = 2 ^ 64 - 1 := by
  norm_num [maxUint64]

theorem uint64Size_eq : uint64Size = 2 ^ 64 := by
  norm_num [uint64Size]

/-- The mask of the `step == 1` branch of `getBits`: bits `min..max`. -/
theorem getBits_mask_testBit (min max : Nat) (hmax : max ≤ 63) (i : Nat) :
    ((maxUint64 ^^^ ((maxUint64 <<< (max + 1)) % uint64Size)) &&&
      ((maxUint64 <<< min) % uint64Size)).testBit i = decide (min ≤ i ∧ i ≤ max) := by
  rw [maxUint64_eq, uint64Size_eq]
  simp only [Nat.testBit_and, Nat.testBit_xor, Nat.testBit_mod_two_pow, Nat.testBit_shiftLeft,
    Nat.testBit_two_pow_sub_one]
  by_cases h1 : i < 64 <;> by_cases h2 : min ≤ i <;> by_cases h3 : i ≤ max <;>
    simp [h1, h2, h3] <;> omega

/-- The loop of `getBits`, with fuel enough and no wrap of `i`: the bits it adds are those of
`i`, `i + step`, ... up to `max`. -/
theorem getBitsLoop_spec (fuel i max step acc : Nat) (hmax : max ≤ 63) (hstep : 1 ≤ step)
    (hwrap : step < 2 ^ 63) (hfuel : (if i ≤ max then max - i + 2 else 1) ≤ fuel) :
    ∃ bits, getBitsLoop fuel i max step acc = some bits ∧
      ∀ j, bits.testBit j = true ↔
        (acc.testBit j = true ∨ ∃ k, j = i + k * step ∧ j ≤ max) := by
  induction fuel generalizing i acc with
  | zero => split at hfuel <;> omega
  | succ n ih =>
    by_cases hi : i ≤ max
    · rw [if_pos hi] at hfuel
      have hnw : (i + step) % uint64Size = i + step := by
        rw [uint64Size_eq]
        apply Nat.mod_eq_of_lt
        have : (2 : Nat) ^ 64 = 2 * 2 ^ 63 := by norm_num
        omega
      have hsh : (1 <<< i) % uint64Size = 2 ^ i := by
        rw [uint64Size_eq, Nat.one_shiftLeft]
        apply Nat.mod_eq_of_lt
        exact Nat.pow_lt_pow_right (by omega) (by omega)
      simp only [getBitsLoop, if_pos hi, hnw, hsh]
      obtain ⟨bits, hb, hspec⟩ := ih (i + step) (acc ||| 2 ^ i)
        (by split <;> omega)
      refine ⟨bits, hb, fun j => ?_⟩
      rw [hspec j, Nat.testBit_or, Nat.testBit_two_pow]
      simp only [Bool.or_eq_true, decide_eq_true_eq]
      constructor
      · rintro (h | ⟨k, hk, hjm⟩)
        · rcases h with h | h
          · left; exact h
          · right; exact ⟨0, by omega, by omega⟩
        · right; exact ⟨k + 1, by rw [hk, Nat.add_mul]; omega, hjm⟩
      · rintro (h | ⟨k, hk, hjm⟩)
        · left; left; exact h
        · cases k with
          | zero => left; right; omega
          | succ k => right; exact ⟨k, by rw [hk, Nat.add_mul]; omega, hjm⟩
    · simp only [getBitsLoop, if_neg hi]
      refine ⟨acc, rfl, fun j => ?_⟩
      constructor
      · intro h; left; exact h
      · rintro (h | ⟨k, hk, hjm⟩)
        · exact h
        · exfalso
          have : i ≤ j := by rw [hk]; exact Nat.le_add_right _ _
          omega

/-- Go `getBits` for `min ≤ max ≤ 63` and a step a parsed `int` can hold: it returns, and bit
`j` is set exactly for `j = min + k * step` up to `max`. -/
theorem getBits_spec (min max step : Nat) (hmm : min ≤ max) (hmax : max ≤ 63)
    (hstep : 1 ≤ step) (hwrap : step < 2 ^ 63) :
    ∃ bits, getBits min max step = .ok bits ∧
      ∀ j, bits.testBit j = true ↔ ∃ k, j = min + k * step ∧ j ≤ max := by
  unfold getBits
  rw [if_neg (by omega)]
  by_cases h1 : step = 1
  · rw [if_pos h1]
    refine ⟨_, rfl, fun j => ?_⟩
    rw [getBits_mask_testBit min max hmax j, h1]
    simp only [decide_eq_true_eq, Nat.mul_one]
    constructor
    · rintro ⟨h2, h3⟩
      exact ⟨j - min, by omega, h3⟩
    · rintro ⟨k, hk, h3⟩
      exact ⟨by omega, h3⟩
  · rw [if_neg h1]
    obtain ⟨bits, hb, hspec⟩ := getBitsLoop_spec 65 min max step 0 hmax hstep hwrap
      (by split <;> omega)
    rw [hb]
    refine ⟨bits, rfl, fun j => ?_⟩
    rw [hspec j]
    simp

theorem Split_of_not_mem (sep : Char) (s : List Char) (h : sep ∉ s) : Split sep s = [s] := by
  induction s with
  | nil => rfl
  | cons c cs ih =>
    rw [List.mem_cons, not_or] at h
    have hc : ¬ c = sep := fun e => h.1 e.symm
    simp only [Split, if_neg hc, ih h.2]

theorem Split_append_sep (sep : Char) (a b : List Char) (h : sep ∉ a) :
    Split sep (a ++ sep :: b) = a :: Split sep b := by
  induction a with
  | nil => simp [Split]
  | cons c cs ih =>
    rw [List.mem_cons, not_or] at h
    have hc : ¬ c = sep := fun e => h.1 e.symm
    have ih2 := ih h.2
    rw [List.cons_append]
    simp only [Split, if_neg hc]
    rw [ih2]

/-- A step or a bound that `mustParseInt` accepts fits a non-negative 64-bit `int`. -/
theorem mustParseInt_lt (expr : List Char) (v : Nat) (h : mustParseInt expr = .ok v) :
    v < 2 ^ 63 := by
  have e63 : (2 : Nat) ^ 63 = 9223372036854775808 := by norm_num
  unfold mustParseInt at h
  cases ha : Atoi expr with
  | none => simp [ha] at h
  | some num =>
    simp only [ha] at h
    split at h
    · simp at h
    · rename_i hneg
      injection h with h
      have hnum : num < 9223372036854775808 := by
        unfold Atoi at ha
        cases expr with
        | nil => simp at ha
        | cons c cs =>
          simp only at ha
          split at ha
          · split at ha
            · simp at ha
            · cases hp : parseDigits cs 0 with
              | none => simp [hp] at ha
              | some n =>
                simp only [hp, Option.bind] at ha
                split at ha
                · injection ha with ha; omega
                · simp at ha
          · split at ha
            · split at ha
              · simp at ha
              · cases hp : parseDigits cs 0 with
                | none => simp [hp] at ha
                | some n =>
                  simp only [hp, Option.bind] at ha
                  split at ha
                  · injection ha with ha; omega
                  · simp at ha
            · cases hp : parseDigits (c :: cs) 0 with
              | none => simp [hp] at ha
              | some n =>
                simp only [hp, Option.bind] at ha
                split at ha
                · injection ha with ha; omega
                · simp at ha
      omega

/-- The checks and the call of `getBits` that end `getRange`, for a numeric term (`extra` is
zero): when they give a bit pattern, its bits are `start`, `start + step`, ... up to `end`. -/
theorem getRange_checks (r : bounds) (hr : r.max < 63) (start end2 step bits : Nat)
    (hwrap : step < 2 ^ 63)
    (h : (if start < r.min then (Res.err CronError.belowMin : Res CronError Nat)
      else if end2 > r.max then .err .aboveMax
      else if start > end2 then .err .startAfterEnd
      else if step = 0 then .err .zeroStep
      else (getBits start end2 step).bind fun b => .ok (b ||| 0)) = .ok bits) :
    (∀ j, bits.testBit j = true ↔ ∃ k, j = start + k * step ∧ j ≤ end2) ∧
    bits.testBit 63 = false := by
  split at h
  · simp at h
  split at h
  · simp at h
  split at h
  · simp at h
  split at h
  · simp at h
  rename_i h1 h2 h3 h4
  obtain ⟨b, hb, hspec⟩ := getBits_spec start end2 step (by omega) (by omega) (by omega) hwrap
  rw [hb] at h
  simp only [Res.bind, Nat.or_zero] at h
  injection h with h
  subst h
  refine ⟨hspec, ?_⟩
  cases h63 : b.testBit 63 with
  | false => rfl
  | true =>
    obtain ⟨k, hk, hle⟩ := (hspec 63).mp h63
    omega

theorem domain_max_lt (r : bounds)
    (hr : r ∈ [seconds, minutes, hours, daysOfMonth, months, daysOfWeek]) : r.max < 63 := by
  simp only [List.mem_cons, List.mem_singleton, List.not_mem_nil, or_false] at hr
  rcases hr with e | e | e | e | e | e <;> subst e <;> decide

/-- Claim C10. In each of the six field domains, for a numeric term that `getRange` accepts,
written from parts `a`, `b`, `c` free of `-` and `/` as `a` ("N"), `a-b` ("N-M"), `a/c` ("N/s")
or `a-b/c` ("N-M/s"), with `N`, `M` the values `parseIntOrName` gives `a`, `b` and `s` the value
`mustParseInt` gives `c`: bit `i` of the result is set exactly for `i = N + k * s`, `k ≥ 0`,
`i ≤ E`, and bit 63 is clear, where `s = 1` without a step and `E` is `N` for "N", `M` for "N-M"
and "N-M/s", the domain maximum for "N/s". The step 1 goes through the mask of `getBits`, every
other step through its loop. -/
theorem getRange_numeric_bits (r : bounds)
    (hr : r ∈ [seconds, minutes, hours, daysOfMonth, months, daysOfWeek])
    (a b c : List Char) (ha : '-' ∉ a ∧ '/' ∉ a) (hb : '-' ∉ b ∧ '/' ∉ b) (hc : '/' ∉ c)
    (hnum : a ≠ ['*'] ∧ a ≠ ['?']) (bits : Nat) :
    (getRange a r = .ok bits →
      ∃ N, parseIntOrName a r.names = .ok N ∧
        (∀ i, bits.testBit i = true ↔ ∃ k, i = N + k * 1 ∧ i ≤ N) ∧
        bits.testBit 63 = false) ∧
    (getRange (a ++ '-' :: b) r = .ok bits →
      ∃ N M, parseIntOrName a r.names = .ok N ∧ parseIntOrName b r.names = .ok M ∧
        (∀ i, bits.testBit i = true ↔ ∃ k, i = N + k * 1 ∧ i ≤ M) ∧
        bits.testBit 63 = false) ∧
    (getRange (a ++ '/' :: c) r = .ok bits →
      ∃ N s, parseIntOrName a r.names = .ok N ∧ mustParseInt c = .ok s ∧
        (∀ i, bits.testBit i = true ↔ ∃ k, i = N + k * s ∧ i ≤ r.max) ∧
        bits.testBit 63 = false) ∧
    (getRange (a ++ '-' :: b ++ '/' :: c) r = .ok bits →
      ∃ N M s, parseIntOrName a r.names = .ok N ∧ parseIntOrName b r.names = .ok M ∧
        mustParseInt c = .ok s ∧
        (∀ i, bits.testBit i = true ↔ ∃ k, i = N + k * s ∧ i ≤ M) ∧
        bits.testBit 63 = false) := by
  have hmax := domain_max_lt r hr
  have hstar : ¬ (a = ['*'] ∨ a = ['?']) := by
    rintro (e | e)
    · exact hnum.1 e
    · exact hnum.2 e
  have hab : '/' ∉ a ++ '-' :: b := by
    simp only [List.mem_append, List.mem_cons, not_or]
    exact ⟨ha.2, by decide, hb.2⟩
  have s1 : Split '/' a = [a] := Split_of_not_mem _ a ha.2
  have s2 : Split '-' a = [a] := Split_of_not_mem _ a ha.1
  have s3 : Split '/' (a ++ '-' :: b) = [a ++ '-' :: b] := Split_of_not_mem _ _ hab
  have s4 : Split '-' (a ++ '-' :: b) = [a, b] := by
    rw [Split_append_sep _ a b ha.1, Split_of_not_mem _ b hb.1]
  have s5 : Split '/' (a ++ '/' :: c) = [a, c] := by
    rw [Split_append_sep _ a c ha.2, Split_of_not_mem _ c hc]
  have s6 : Split '/' (a ++ '-' :: b ++ '/' :: c) = [a ++ '-' :: b, c] := by
    rw [Split_append_sep _ (a ++ '-' :: b) c hab, Split_of_not_mem _ c hc]
  have one_lt : (1 : Nat) < 2 ^ 63 := by norm_num
  refine ⟨fun h => ?_, fun h => ?_, fun h => ?_, fun h => ?_⟩
  · simp only [getRange, s1, s2, List.headD_cons, if_neg hstar] at h
    cases hp : parseIntOrName a r.names with
    | ok N =>
      simp only [hp, Res.bind, List.length_singleton, beq_self_eq_true] at h
      exact ⟨N, rfl, getRange_checks r hmax N N 1 bits one_lt h⟩
    | err e => simp [hp, Res.bind] at h
    | panic => simp [hp, Res.bind] at h
    | hang => simp [hp, Res.bind] at h
  · simp only [getRange, s3, s4, List.headD_cons, if_neg hstar] at h
    cases hp : parseIntOrName a r.names with
    | ok N =>
      cases hq : parseIntOrName b r.names with
      | ok M =>
        simp only [hp, hq, Res.bind] at h
        exact ⟨N, M, rfl, rfl, getRange_checks r hmax N M 1 bits one_lt h⟩
      | err e => simp [hp, hq, Res.bind] at h
      | panic => simp [hp, hq, Res.bind] at h
      | hang => simp [hp, hq, Res.bind] at h
    | err e => simp [hp, Res.bind] at h
    | panic => simp [hp, Res.bind] at h
    | hang => simp [hp, Res.bind] at h
  · simp only [getRange, s5, s2, List.headD_cons, if_neg hstar] at h
    cases hp : parseIntOrName a r.names with
    | ok N =>
      cases hq : mustParseInt c with
      | ok s =>
        simp only [hp, hq, Res.bind, List.length_singleton, beq_self_eq_true, if_true] at h
        exact ⟨N, s, rfl, rfl, getRange_checks r hmax N r.max s bits (mustParseInt_lt c s hq) h⟩
      | err e => simp [hp, hq, Res.bind] at h
      | panic => simp [hp, hq, Res.bind] at h
      | hang => simp [hp, hq, Res.bind] at h
    | err e => simp [hp, Res.bind] at h
    | panic => simp [hp, Res.bind] at h
    | hang => simp [hp, Res.bind] at h
  · simp only [getRange, s6, s4, List.headD_cons, if_neg hstar] at h
    cases hp : parseIntOrName a r.names with
    | ok N =>
      cases hq : parseIntOrName b r.names with
      | ok M =>
        cases hs : mustParseInt c with
        | ok s =>
          simp only [hp, hq, hs, Res.bind, List.length_cons, List.length_singleton,
            List.length_nil] at h
          have hne : ((0 + 1 + 1 : Nat) == 1) = false := by decide
          simp only [hne, Bool.false_eq_true, if_false] at h
          exact ⟨N, M, s, rfl, rfl, rfl,
            getRange_checks r hmax N M s bits (mustParseInt_lt c s hs) h⟩
        | err e => simp [hp, hq, hs, Res.bind] at h
        | panic => simp [hp, hq, hs, Res.bind] at h
        | hang => simp [hp, hq, hs, Res.bind] at h
      | err e => simp [hp, hq, Res.bind] at h
      | panic => simp [hp, hq, Res.bind] at h
      | hang => simp [hp, hq, Res.bind] at h
    | err e => simp [hp, Res.bind] at h
    | panic => simp [hp, Res.bind] at h
    | hang => simp [hp, Res.bind] at h

/-- The terms `10-50/3` of the seconds (loop of `getBits`) and `mon-fri` of the days of the week
(mask of `getBits`). -/
theorem getRange_numeric_bits_witness :
    getRange "10-50/3".toList seconds = .ok 643371375338496 ∧
    (∃ N M s, parseIntOrName "10".toList seconds.names = .ok N ∧
      parseIntOrName "50".toList seconds.names = .ok M ∧ mustParseInt "3".toList = .ok s ∧
      (∀ i, Nat.testBit 643371375338496 i = true ↔ ∃ k, i = N + k * s ∧ i ≤ M) ∧
      Nat.testBit 643371375338496 63 = false) ∧
    getRange "mon-fri".toList daysOfWeek = .ok 62 ∧
    (∃ N M, parseIntOrName "mon".toList daysOfWeek.names = .ok N ∧
      parseIntOrName "fri".toList daysOfWeek.names = .ok M ∧
      (∀ i, Nat.testBit 62 i = true ↔ ∃ k, i = N + k * 1 ∧ i ≤ M) ∧
      Nat.testBit 62 63 = false) :=
  ⟨by decide,
   (getRange_numeric_bits seconds (by decide) "10".toList "50".toList "3".toList
      (by decide) (by decide) (by decide) (by decide) 643371375338496).2.2.2 (by decide),
   by decide,
   (getRange_numeric_bits daysOfWeek (by decide) "mon".toList "fri".toList []
      (by decide) (by decide) (by decide) (by decide) 62).2.1 (by decide)⟩

/-! ### `NewCron`: field count, wildcards, separators -/

/-- Claim C14. For every string whose number of white-space separated fields (Go
`strings.Fields`) is not 6, the empty string among them, `NewCron` returns an error and no
`Cron`. -/
theorem NewCron_field_count (cron : String) (h : (Fields cron.toList).length ≠ 6) :
    ∃ e, NewCron cron = .err e := by
  unfold NewCron
  split
  · exact ⟨_, rfl⟩
  · split
    · rename_i heq
      rw [heq] at h
      simp at h
    · exact ⟨_, rfl⟩

/-- The empty string, five fields and seven fields. -/
theorem NewCron_field_count_witness :
    (Fields "".toList).length ≠ 6 ∧ (∃ e, NewCron "" = .err e) ∧
    (Fields "0 0 12 * *".toList).length ≠ 6 ∧ (∃ e, NewCron "0 0 12 * *" = .err e) ∧
    (Fields " 0 0 12 * * mon\t2024 ".toList).length ≠ 6 ∧
    (∃ e, NewCron " 0 0 12 * * mon\t2024 " = .err e) :=
  ⟨by decide, NewCron_field_count "" (by decide),
   by decide, NewCron_field_count "0 0 12 * *" (by decide),
   by decide, NewCron_field_count " 0 0 12 * * mon\t2024 " (by decide)⟩

/-- Claim C13. In each of the six field domains the terms `*` and `?` are accepted and give the
same bit pattern: bit `i` is set exactly for `min ≤ i ≤ max` and for `i = 63`. -/
theorem getRange_star (r : bounds)
    (hr : r ∈ [seconds, minutes, hours, daysOfMonth, months, daysOfWeek]) :
    ∃ bits, getRange ['*'] r = .ok bits ∧ getRange ['?'] r = .ok bits ∧
      ∀ i, bits.testBit i = true ↔ ((r.min ≤ i ∧ i ≤ r.max) ∨ i = 63) := by
  have hmax := domain_max_lt r hr
  have hmin : r.min ≤ r.max := by
    simp only [List.mem_cons, List.mem_singleton, List.not_mem_nil, or_false] at hr
    rcases hr with e | e | e | e | e | e <;> subst e <;> decide
  have e1 : Split '/' ['*'] = [['*']] := by decide
  have e2 : Split '-' ['*'] = [['*']] := by decide
  have e3 : Split '/' ['?'] = [['?']] := by decide
  have e4 : Split '-' ['?'] = [['?']] := by decide
  have hb : getBits r.min r.max 1 = .ok ((maxUint64 ^^^ ((maxUint64 <<< (r.max + 1)) % uint64Size)) &&&
      ((maxUint64 <<< r.min) % uint64Size)) := by
    unfold getBits
    rw [if_neg (by omega), if_pos rfl]
  refine ⟨((maxUint64 ^^^ ((maxUint64 <<< (r.max + 1)) % uint64Size)) &&&
      ((maxUint64 <<< r.min) % uint64Size)) ||| starBit, ?_, ?_, fun i => ?_⟩
  · simp only [getRange, e1, e2, List.headD_cons, true_or, if_true, Res.bind,
      Nat.lt_irrefl, if_false, gt_iff_lt, Nat.not_lt.mpr hmin, one_ne_zero, hb]
  · simp only [getRange, e3, e4, List.headD_cons, or_true, if_true, Res.bind,
      Nat.lt_irrefl, if_false, gt_iff_lt, Nat.not_lt.mpr hmin, one_ne_zero, hb]
  · have es : starBit = 2 ^ 63 := by norm_num [starBit]
    rw [Nat.testBit_or, getBits_mask_testBit r.min r.max (by omega) i, es, Nat.testBit_two_pow]
    simp only [Bool.or_eq_true, decide_eq_true_eq]
    constructor
    · rintro (h | h)
      · left; exact h
      · right; exact h.symm
    · rintro (h | h)
      · left; exact h
      · right; exact h.symm

/-- The wildcard of the hours: bits 0..23 and bit 63. -/
theorem getRange_star_witness :
    ∃ bits, getRange ['*'] hours = .ok bits ∧ getRange ['?'] hours = .ok bits ∧
      ∀ i, bits.testBit i = true ↔ ((hours.min ≤ i ∧ i ≤ hours.max) ∨ i = 63) :=
  getRange_star hours (by decide)

/-- Claim C12, at a failing input. The term `*-1-2` holds two `-` and `getRange` accepts it in
each of the six domains, with the bits of `*`: when the part before the first `-` is `*` or `?`
the number of pieces is not looked at. `NewCron` accepts an expression written with such
terms. -/
theorem getRange_star_two_dashes :
    List.count '-' "*-1-2".toList = 2 ∧
    getRange "*-1-2".toList seconds = .ok 10376293541461622783 ∧
    getRange "*-1-2".toList minutes = .ok 10376293541461622783 ∧
    getRange "*-1-2".toList hours = .ok 9223372036871553023 ∧
    getRange "*-1-2".toList daysOfMonth = .ok 9223372041149743102 ∧
    getRange "*-1-2".toList months = .ok 9223372036854783998 ∧
    getRange "*-1-2".toList daysOfWeek = .ok 9223372036854775935 ∧
    getRange ['*'] seconds = .ok 10376293541461622783 ∧
    NewCron "*-1-2 ?--/3 * * * *" = .ok ⟨10376293541461622783, 9388075108941468233,
      9223372036871553023, 9223372041149743102, 9223372036854783998, 9223372036854775935⟩ := by
  decide

/-! ### `getRange`: when `N-M/s` is accepted -/

theorem parseDigits_append (xs ys : List Char) (acc : Nat) :
    parseDigits (xs ++ ys) acc = (parseDigits xs acc).bind fun a => parseDigits ys a := by
  induction xs generalizing acc with
  | nil => rfl
  | cons c cs ih =>
    simp only [List.cons_append, parseDigits]
    split
    · exact ih _
    · rfl

theorem digitChar_toNat (k : Nat) (h : k < 10) : (Nat.digitChar k).toNat = 48 + k := by
  have hk : k = 0 ∨ k = 1 ∨ k = 2 ∨ k = 3 ∨ k = 4 ∨ k = 5 ∨ k = 6 ∨ k = 7 ∨ k = 8 ∨ k = 9 := by
    omega
  rcases hk with e | e | e | e | e | e | e | e | e | e <;> subst e <;> decide

/-- The decimal digits `Nat.toDigitsCore` puts in front of `ds`: a run of ASCII digits, not
empty, that `parseDigits` reads back as `n`. -/
theorem toDigitsCore_spec (fuel n : Nat) (h : n < fuel) (ds : List Char) :
    ∃ pre, Nat.toDigitsCore 10 fuel n ds = pre ++ ds ∧ pre ≠ [] ∧
      (∀ c ∈ pre, 48 ≤ c.toNat ∧ c.toNat ≤ 57) ∧
      ∀ acc, parseDigits pre acc = some (acc * 10 ^ pre.length + n) := by
  induction fuel generalizing n ds with
  | zero => omega
  | succ f ih =>
    have hd := digitChar_toNat (n % 10) (Nat.mod_lt _ (by omega))
    have hdr : 48 ≤ (Nat.digitChar (n % 10)).toNat ∧ (Nat.digitChar (n % 10)).toNat ≤ 57 := by
      have := Nat.mod_lt n (show 0 < 10 by omega)
      omega
    have hone : ∀ acc, parseDigits [Nat.digitChar (n % 10)] acc = some (acc * 10 + n % 10) := by
      intro acc
      simp only [parseDigits]
      rw [if_pos hdr, hd]
      congr 1
      omega
    simp only [Nat.toDigitsCore]
    by_cases h0 : n / 10 = 0
    · rw [if_pos h0]
      refine ⟨[Nat.digitChar (n % 10)], rfl, by simp, ?_, fun acc => ?_⟩
      · intro c hc
        rw [List.mem_singleton] at hc
        rw [hc]; exact hdr
      · rw [hone]
        simp only [List.length_singleton, pow_one]
        congr 1
        omega
    · rw [if_neg h0]
      obtain ⟨pre, hp, hne, hdig, hval⟩ := ih (n / 10) (by omega) (Nat.digitChar (n % 10) :: ds)
      refine ⟨pre ++ [Nat.digitChar (n % 10)], ?_, by simp, ?_, fun acc => ?_⟩
      · rw [hp]; simp
      · intro c hc
        rw [List.mem_append, List.mem_singleton] at hc
        rcases hc with hc | hc
        · exact hdig c hc
        · rw [hc]; exact hdr
      · rw [parseDigits_append, hval]
        simp only [Option.bind, hone, List.length_append, List.length_singleton]
        congr 1
        rw [pow_succ]
        have := Nat.div_add_mod n 10
        nlinarith [Nat.div_add_mod n 10]

/-- The decimal writing of `n`: ASCII digits, at least one, read back as `n`. -/
theorem toDigits_spec (n : Nat) :
    Nat.toDigits 10 n ≠ [] ∧ (∀ c ∈ Nat.toDigits 10 n, 48 ≤ c.toNat ∧ c.toNat ≤ 57) ∧
    parseDigits (Nat.toDigits 10 n) 0 = some n := by
  obtain ⟨pre, hp, hne, hdig, hval⟩ := toDigitsCore_spec (n + 1) n (by omega) []
  rw [List.append_nil] at hp
  unfold Nat.toDigits
  rw [hp]
  refine ⟨hne, hdig, ?_⟩
  rw [hval]
  simp
/-- Go `mustParseInt` reads the decimal writing of an `int` that is not negative. -/
theorem mustParseInt_toDigits (n : Nat) (h : n < 2 ^ 63) :
    mustParseInt (Nat.toDigits 10 n) = .ok n := by
  obtain ⟨hne, hdig, hval⟩ := toDigits_spec n
  have e63 : (2 : Nat) ^ 63 = 9223372036854775808 := by norm_num
  rw [e63] at h
  cases hs : Nat.toDigits 10 n with
  | nil => exact absurd hs hne
  | cons c cs =>
    rw [hs] at hdig hval
    have hc := hdig c (List.mem_cons_self _ _)
    have h1 : ¬ c = '-' := by
      intro e; rw [e] at hc; revert hc; decide
    have h2 : ¬ c = '+' := by
      intro e; rw [e] at hc; revert hc; decide
    simp only [mustParseInt, Atoi, if_neg h1, if_neg h2, hval, Option.bind, if_pos h]
    simp

theorem toLowerChar_digit (c : Char) (h : 48 ≤ c.toNat ∧ c.toNat ≤ 57) : toLowerChar c = c := by
  unfold toLowerChar
  rw [if_neg (by omega), if_neg (by omega), if_neg (by omega)]

theorem ToLower_digits (s : List Char) (h : ∀ c ∈ s, 48 ≤ c.toNat ∧ c.toNat ≤ 57) :
    ToLower s = s := by
  unfold ToLower
  conv => rhs; rw [← List.map_id s]
  apply List.map_congr_left
  intro c hc
  exact toLowerChar_digit c (h c hc)

/-- A string that starts with a digit is not a key of a table whose keys start otherwise. -/
theorem lookup_digits (tbl : List (List Char × Nat)) (c : Char) (cs : List Char)
    (hc : 48 ≤ c.toNat ∧ c.toNat ≤ 57)
    (ht : ∀ p ∈ tbl, ∀ d ∈ p.1.head?, ¬ (48 ≤ d.toNat ∧ d.toNat ≤ 57)) :
    tbl.lookup (c :: cs) = none := by
  induction tbl with
  | nil => rfl
  | cons p rest ih =>
    obtain ⟨k, v⟩ := p
    have hk : ((c :: cs) == k) = false := by
      cases k with
      | nil => rfl
      | cons d ds =>
        have hd := ht (d :: ds, v) (List.mem_cons_self _ _) d (by simp)
        have hne : c ≠ d := by
          intro e; rw [e] at hc; exact hd hc
        simp [hne]
    simp only [List.lookup, hk]
    exact ih (fun q hq => ht q (List.mem_cons_of_mem _ hq))

/-- In each of the six domains `parseIntOrName` reads the decimal writing of an `int` that is
not negative: no name starts with a digit. -/
theorem parseIntOrName_toDigits (r : bounds)
    (hr : r ∈ [seconds, minutes, hours, daysOfMonth, months, daysOfWeek]) (n : Nat)
    (h : n < 2 ^ 63) : parseIntOrName (Nat.toDigits 10 n) r.names = .ok n := by
  obtain ⟨hne, hdig, _⟩ := toDigits_spec n
  have hm := mustParseInt_toDigits n h
  have hl : ∀ tbl : List (List Char × Nat),
      (∀ p ∈ tbl, ∀ d ∈ p.1.head?, ¬ (48 ≤ d.toNat ∧ d.toNat ≤ 57)) →
      tbl.lookup (ToLower (Nat.toDigits 10 n)) = none := by
    intro tbl ht
    rw [ToLower_digits _ hdig]
    cases hs : Nat.toDigits 10 n with
    | nil => exact absurd hs hne
    | cons c cs =>
      rw [hs] at hdig
      exact lookup_digits tbl c cs (hdig c (List.mem_cons_self _ _)) ht
  simp only [List.mem_cons, List.mem_singleton, List.not_mem_nil, or_false] at hr
  rcases hr with e | e | e | e | e | e <;> subst e
  · simp only [parseIntOrName, seconds, hm]
  · simp only [parseIntOrName, minutes, hm]
  · simp only [parseIntOrName, hours, hm]
  · simp only [parseIntOrName, daysOfMonth, hm]
  · obtain ⟨tbl, e, hp⟩ : ∃ tbl, months.names = some tbl ∧
        (∀ p ∈ tbl, ∀ d ∈ p.1.head?, ¬ (48 ≤ d.toNat ∧ d.toNat ≤ 57)) := ⟨_, rfl, by decide⟩
    simp only [parseIntOrName, e, hl tbl hp, hm]
  · obtain ⟨tbl, e, hp⟩ : ∃ tbl, daysOfWeek.names = some tbl ∧
        (∀ p ∈ tbl, ∀ d ∈ p.1.head?, ¬ (48 ≤ d.toNat ∧ d.toNat ≤ 57)) := ⟨_, rfl, by decide⟩
    simp only [parseIntOrName, e, hl tbl hp, hm]

theorem toDigits_no_sep (n : Nat) : '-' ∉ Nat.toDigits 10 n ∧ '/' ∉ Nat.toDigits 10 n := by
  obtain ⟨_, hdig, _⟩ := toDigits_spec n
  constructor
  · intro h; have := hdig _ h; revert this; decide
  · intro h; have := hdig _ h; revert this; decide

theorem toDigits_not_star (n : Nat) : Nat.toDigits 10 n ≠ ['*'] ∧ Nat.toDigits 10 n ≠ ['?'] := by
  obtain ⟨_, hdig, _⟩ := toDigits_spec n
  constructor
  · intro h; rw [h] at hdig; have := hdig '*' (by simp); revert this; decide
  · intro h; rw [h] at hdig; have := hdig '?' (by simp); revert this; decide
/-- The checks `getRange` comes down to on `N-M/s` written in decimal. -/
theorem getRange_toDigits (r : bounds)
    (hr : r ∈ [seconds, minutes, hours, daysOfMonth, months, daysOfWeek]) (N M s : Nat)
    (hN : N < 2 ^ 63) (hM : M < 2 ^ 63) (hs : s < 2 ^ 63) :
    getRange (Nat.toDigits 10 N ++ '-' :: Nat.toDigits 10 M ++ '/' :: Nat.toDigits 10 s) r =
      (if N < r.min then (Res.err CronError.belowMin : Res CronError Nat)
       else if M > r.max then .err .aboveMax
       else if N > M then .err .startAfterEnd
       else if s = 0 then .err .zeroStep
       else (getBits N M s).bind fun b => .ok (b ||| 0)) := by
  have ha := toDigits_no_sep N
  have hb := toDigits_no_sep M
  have hc := toDigits_no_sep s
  have hstar : ¬ (Nat.toDigits 10 N = ['*'] ∨ Nat.toDigits 10 N = ['?']) := by
    rintro (e | e)
    · exact (toDigits_not_star N).1 e
    · exact (toDigits_not_star N).2 e
  have hab : '/' ∉ Nat.toDigits 10 N ++ '-' :: Nat.toDigits 10 M := by
    simp only [List.mem_append, List.mem_cons, not_or]
    exact ⟨ha.2, by decide, hb.2⟩
  have s4 : Split '-' (Nat.toDigits 10 N ++ '-' :: Nat.toDigits 10 M) =
      [Nat.toDigits 10 N, Nat.toDigits 10 M] := by
    rw [Split_append_sep _ _ _ ha.1, Split_of_not_mem _ _ hb.1]
  have s6 : Split '/' (Nat.toDigits 10 N ++ '-' :: Nat.toDigits 10 M ++ '/' :: Nat.toDigits 10 s) =
      [Nat.toDigits 10 N ++ '-' :: Nat.toDigits 10 M, Nat.toDigits 10 s] := by
    rw [Split_append_sep _ _ _ hab, Split_of_not_mem _ _ hc.2]
  have hne : ((0 + 1 + 1 : Nat) == 1) = false := by decide
  simp only [getRange, s6, s4, List.headD_cons, if_neg hstar, parseIntOrName_toDigits r hr N hN,
    parseIntOrName_toDigits r hr M hM, mustParseInt_toDigits s hs, Res.bind, List.length_cons,
    List.length_singleton, List.length_nil, hne, Bool.false_eq_true, if_false]

/-- Claim C11. In each of the six field domains, for non-negative `N`, `M`, `s` within Go's
`int` written in decimal, `getRange` accepts the term `N-M/s` exactly when `min ≤ N`, `M ≤ max`,
`N ≤ M` and `s ≥ 1`, and returns an error in every other case. -/
theorem getRange_range_step_iff (r : bounds)
    (hr : r ∈ [seconds, minutes, hours, daysOfMonth, months, daysOfWeek]) (N M s : Nat)
    (hN : N < 2 ^ 63) (hM : M < 2 ^ 63) (hs : s < 2 ^ 63) :
    ((∃ bits,
        getRange (Nat.toDigits 10 N ++ '-' :: Nat.toDigits 10 M ++ '/' :: Nat.toDigits 10 s) r
          = .ok bits) ↔ (r.min ≤ N ∧ M ≤ r.max ∧ N ≤ M ∧ 1 ≤ s)) ∧
    (¬ (r.min ≤ N ∧ M ≤ r.max ∧ N ≤ M ∧ 1 ≤ s) → ∃ e,
        getRange (Nat.toDigits 10 N ++ '-' :: Nat.toDigits 10 M ++ '/' :: Nat.toDigits 10 s) r
          = .err e) := by
  rw [getRange_toDigits r hr N M s hN hM hs]
  have hmax := domain_max_lt r hr
  by_cases h1 : N < r.min
  · rw [if_pos h1]
    refine ⟨⟨fun ⟨_, h⟩ => (by cases h), fun h => (by omega)⟩, fun _ => ⟨_, rfl⟩⟩
  rw [if_neg h1]
  by_cases h2 : M > r.max
  · rw [if_pos h2]
    refine ⟨⟨fun ⟨_, h⟩ => (by cases h), fun h => (by omega)⟩, fun _ => ⟨_, rfl⟩⟩
  rw [if_neg h2]
  by_cases h3 : N > M
  · rw [if_pos h3]
    refine ⟨⟨fun ⟨_, h⟩ => (by cases h), fun h => (by omega)⟩, fun _ => ⟨_, rfl⟩⟩
  rw [if_neg h3]
  by_cases h4 : s = 0
  · rw [if_pos h4]
    refine ⟨⟨fun ⟨_, h⟩ => (by cases h), fun h => (by omega)⟩, fun _ => ⟨_, rfl⟩⟩
  rw [if_neg h4]
  obtain ⟨b, hb, _⟩ := getBits_spec N M s (by omega) (by omega) (by omega) hs
  rw [hb]
  refine ⟨⟨fun _ => (by omega), fun _ => ⟨_, rfl⟩⟩, fun h => (by omega)⟩

/-- The terms `10-50/3` (accepted), `10-60/3` (end above 59) and `10-50/0` (step 0) of the
seconds. -/
theorem getRange_range_step_iff_witness :
    Nat.toDigits 10 10 ++ '-' :: Nat.toDigits 10 50 ++ '/' :: Nat.toDigits 10 3
      = "10-50/3".toList ∧
    (∃ bits,
      getRange (Nat.toDigits 10 10 ++ '-' :: Nat.toDigits 10 50 ++ '/' :: Nat.toDigits 10 3)
        seconds = .ok bits) ∧
    (∃ e,
      getRange (Nat.toDigits 10 10 ++ '-' :: Nat.toDigits 10 60 ++ '/' :: Nat.toDigits 10 3)
        seconds = .err e) ∧
    (∃ e,
      getRange (Nat.toDigits 10 10 ++ '-' :: Nat.toDigits 10 50 ++ '/' :: Nat.toDigits 10 0)
        seconds = .err e) :=
  ⟨by decide,
   (getRange_range_step_iff seconds (by decide) 10 50 3 (by norm_num) (by norm_num)
      (by norm_num)).1.mpr (by decide),
   (getRange_range_step_iff seconds (by decide) 10 60 3 (by norm_num) (by norm_num)
      (by norm_num)).2 (by decide),
   (getRange_range_step_iff seconds (by decide) 10 50 0 (by norm_num) (by norm_num)
      (by norm_num)).2 (by decide)⟩

/-! ### The control loop: Delete, Open, Close, and the stopped state -/

/-- What `findJobById` finds: the job at the index, with the id asked for, and no job before it
with that id. -/
theorem findJobById_some (jobs : List Job) (id : String) (idx : Nat) (job : Job)
    (h : findJobById jobs id = some (idx, job)) :
    jobs[idx]? = some job ∧ job.Id = id ∧ idx < jobs.length ∧
    jobs.take idx ++ job :: jobs.drop (idx + 1) = jobs ∧
    ∀ j ∈ jobs.take idx, j.Id ≠ id := by
  induction jobs generalizing idx with
  | nil => simp [findJobById] at h
  | cons j rest ih =>
    simp only [findJobById] at h
    split at h
    · rename_i hid
      injection h with h
      injection h with h1 h2
      subst h1 h2
      simp [hid]
    · rename_i hid
      cases hf : findJobById rest id with
      | none => simp [hf] at h
      | some p =>
        obtain ⟨i, jb⟩ := p
        simp only [hf, Option.map] at h
        injection h with h
        injection h with h1 h2
        subst h1 h2
        obtain ⟨a1, a2, a3, a4, a5⟩ := ih i hf
        refine ⟨by simpa using a1, a2, by simpa using a3, ?_, ?_⟩
        · simp only [List.take_succ_cons, List.drop_succ_cons, List.cons_append]
          rw [a4]
        · intro x hx
          simp only [List.take_succ_cons, List.mem_cons] at hx
          rcases hx with e | hx
          · rw [e]; exact hid
          · exact a5 x hx

theorem findJobById_none (jobs : List Job) (id : String) :
    findJobById jobs id = none ↔ ∀ j ∈ jobs, j.Id ≠ id := by
  induction jobs with
  | nil => simp [findJobById]
  | cons j rest ih =>
    simp only [findJobById]
    split
    · rename_i hid
      simp [hid]
    · rename_i hid
      simp only [Option.map_eq_none', ih, List.mem_cons, forall_eq_or_imp]
      exact ⟨fun h => ⟨hid, h⟩, fun h => h.2⟩

theorem set_found (jobs : List Job) (id : String) (idx : Nat) (job : Job)
    (h : findJobById jobs id = some (idx, job)) : jobs.set idx job = jobs := by
  obtain ⟨a1, _, a3, _, _⟩ := findJobById_some jobs id idx job h
  apply List.ext_getElem?
  intro i
  by_cases hi : i = idx
  · subst hi
    rw [List.getElem?_set_self a3, a1]
  · rw [List.getElem?_set_ne (fun e => hi e.symm)]

/-- Claim C17. Over a job list with pairwise distinct ids: when `processDeleteJobCMD(id)`
succeeds, the list left is the old one without the job of that id (the other jobs unchanged and
in their order, none of them with that id) and the one store call made is `DeleteJob` of the
job found, whose id is `id`; when no job has that id, it returns an error, the list is
unchanged and no store call is made. -/
theorem processDeleteJobCMD_spec (s : scheduler) (id : String) (db : Option Time)
    (hd : s.jobs.Pairwise fun a b => a.Id ≠ b.Id) :
    ((processDeleteJobCMD s id db).2 = .ok () →
      (processDeleteJobCMD s id db).1.jobs = s.jobs.filter (fun j => decide (j.Id ≠ id)) ∧
      (∀ j ∈ (processDeleteJobCMD s id db).1.jobs, j.Id ≠ id) ∧
      ∃ job, job ∈ s.jobs ∧ job.Id = id ∧
        processDeleteJobCMD_calls s id = [JobStoreCall.delete job]) ∧
    ((∀ j ∈ s.jobs, j.Id ≠ id) →
      (processDeleteJobCMD s id db).2 = .err .notFound ∧
      (processDeleteJobCMD s id db).1.jobs = s.jobs ∧
      processDeleteJobCMD_calls s id = []) := by
  constructor
  · intro h
    cases hf : findJobById s.jobs id with
    | none => simp [processDeleteJobCMD, hf] at h
    | some p =>
      obtain ⟨idx, job⟩ := p
      obtain ⟨a1, a2, a3, a4, a5⟩ := findJobById_some s.jobs id idx job hf
      cases hdb : DeleteJob db job with
      | none => simp [processDeleteJobCMD, hf, hdb] at h
      | some j2 =>
        have hres : (processDeleteJobCMD s id db).1.jobs =
            s.jobs.take idx ++ s.jobs.drop (idx + 1) := by
          simp [processDeleteJobCMD, hf, hdb]
        have hd2 := hd
        rw [← a4, List.pairwise_append, List.pairwise_cons] at hd2
        have hdrop : ∀ j ∈ s.jobs.drop (idx + 1), j.Id ≠ id := by
          intro j hj
          have := hd2.2.1.1 j hj
          rw [a2] at this
          exact fun e => this e.symm
        have hfil : s.jobs.filter (fun j => decide (j.Id ≠ id)) =
            s.jobs.take idx ++ s.jobs.drop (idx + 1) := by
          conv => lhs; rw [← a4]
          rw [List.filter_append, List.filter_cons]
          have e1 : (s.jobs.take idx).filter (fun j => decide (j.Id ≠ id)) = s.jobs.take idx := by
            rw [List.filter_eq_self]
            intro j hj
            simp [a5 j hj]
          have e2 : (s.jobs.drop (idx + 1)).filter (fun j => decide (j.Id ≠ id)) =
              s.jobs.drop (idx + 1) := by
            rw [List.filter_eq_self]
            intro j hj
            simp [hdrop j hj]
          rw [e1, e2]
          simp [a2]
        refine ⟨by rw [hres, hfil], ?_, job, ?_, a2, ?_⟩
        · intro j hj
          rw [hres, List.mem_append] at hj
          rcases hj with hj | hj
          · exact a5 j hj
          · exact hdrop j hj
        · rw [List.getElem?_eq_some_iff] at a1
          obtain ⟨hlt, he⟩ := a1
          rw [← he]
          exact List.getElem_mem _
        · simp [processDeleteJobCMD_calls, hf]
  · intro hn
    have hf := (findJobById_none s.jobs id).mpr hn
    simp [processDeleteJobCMD, processDeleteJobCMD_calls, hf]

/-- Deleting the first of two jobs, and deleting an id no job has. -/
theorem processDeleteJobCMD_spec_witness :
    (processDeleteJobCMD
      ⟨true, [{ toJobCore := ⟨"a", "first", "* * * * * *", "WeiXinArticle", ""⟩,
                CreateTime := Time.zero, UpdateTime := Time.zero, Deleted := false,
                Opened := true, Runner := some Runner.weixinCrawl, Cron := none,
                Next := Time.zero },
              { toJobCore := ⟨"b", "second", "* * * * * *", "WeiXinArticle", ""⟩,
                CreateTime := Time.zero, UpdateTime := Time.zero, Deleted := false,
                Opened := false, Runner := some Runner.weixinCrawl, Cron := none,
                Next := Time.zero }]⟩ "a" (some (Date 2024 1 1 0 0 0 0))).1.jobs =
      [{ toJobCore := ⟨"b", "second", "* * * * * *", "WeiXinArticle", ""⟩,
         CreateTime := Time.zero, UpdateTime := Time.zero, Deleted := false,
         Opened := false, Runner := some Runner.weixinCrawl, Cron := none,
         Next := Time.zero }] ∧
    (processDeleteJobCMD
      ⟨true, [{ toJobCore := ⟨"a", "first", "* * * * * *", "WeiXinArticle", ""⟩,
                CreateTime := Time.zero, UpdateTime := Time.zero, Deleted := false,
                Opened := true, Runner := some Runner.weixinCrawl, Cron := none,
                Next := Time.zero },
              { toJobCore := ⟨"b", "second", "* * * * * *", "WeiXinArticle", ""⟩,
                CreateTime := Time.zero, UpdateTime := Time.zero, Deleted := false,
                Opened := false, Runner := some Runner.weixinCrawl, Cron := none,
                Next := Time.zero }]⟩ "c" (some (Date 2024 1 1 0 0 0 0))).2 =
      .err .notFound := by
  constructor
  · rw [((processDeleteJobCMD_spec _ "a" (some (Date 2024 1 1 0 0 0 0)) (by decide)).1
      (by decide)).1]
    decide
  · exact ((processDeleteJobCMD_spec _ "c" (some (Date 2024 1 1 0 0 0 0)) (by decide)).2
      (by decide)).1

theorem process_running (fuel : Nat) (s : scheduler) (jobCore : JobCore) (id : String)
    (db : Option Time) (now : Time) :
    (processNewJobCMD fuel s jobCore id db now).1.running = s.running ∧
    (processDeleteJobCMD s id db).1.running = s.running ∧
    (processUpdateJobCMD fuel s jobCore db now).1.running = s.running ∧
    (processOpenJobCMD fuel s id db now).1.running = s.running ∧
    (processCloseJobCMD s id db).1.running = s.running := by
  refine ⟨?_, ?_, ?_, ?_, ?_⟩
  · simp only [processNewJobCMD]
    repeat' split
    all_goals rfl
  · simp only [processDeleteJobCMD]
    repeat' split
    all_goals rfl
  · simp only [processUpdateJobCMD]
    repeat' split
    all_goals rfl
  · simp only [processOpenJobCMD]
    repeat' split
    all_goals rfl
  · simp only [processCloseJobCMD]
    repeat' split
    all_goals rfl

theorem afterCmd_running (p : scheduler × Res CmdError Unit) (s1 : scheduler) (fl : Flow)
    (h : afterCmd p = some (s1, fl)) : s1 = p.1 ∧ fl ≠ Flow.schedulerStateChanged := by
  unfold afterCmd at h
  split at h
  · injection h with h; injection h with h1 h2; subst h1 h2; exact ⟨rfl, by decide⟩
  · injection h with h; injection h with h1 h2; subst h1 h2; exact ⟨rfl, by decide⟩
  · cases h
  · cases h

/-- A case of the `select` that does not leave `SchedulerStateChanged` keeps `running`, and in
a stopped state with no jobs it keeps the state. -/
theorem onCommand_keeps (fuel : Nat) (s s1 : scheduler) (cmd : Command) (fl : Flow)
    (h : onCommand fuel s cmd = some (s1, fl)) (hfl : fl ≠ Flow.schedulerStateChanged) :
    s1.running = s.running ∧ (s.running = false → s.jobs = [] → s1 = s) := by
  cases cmd with
  | start =>
    simp only [onCommand] at h
    split at h
    · injection h with h; injection h with h1 h2; exact absurd h2.symm hfl
    · injection h with h; injection h with h1 h2; subst h1; exact ⟨rfl, fun _ _ => rfl⟩
  | stop =>
    simp only [onCommand] at h
    split at h
    · injection h with h; injection h with h1 h2; exact absurd h2.symm hfl
    · injection h with h; injection h with h1 h2; subst h1; exact ⟨rfl, fun _ _ => rfl⟩
  | reload =>
    simp only [onCommand] at h
    injection h with h; injection h with h1 h2; exact absurd h2.symm hfl
  | jobSnapshot =>
    simp only [onCommand] at h
    injection h with h; injection h with h1 h2; subst h1; exact ⟨rfl, fun _ _ => rfl⟩
  | isRunningSnapshot =>
    simp only [onCommand] at h
    injection h with h; injection h with h1 h2; subst h1; exact ⟨rfl, fun _ _ => rfl⟩
  | timer now =>
    simp only [onCommand] at h
    split at h
    · rename_i p hp
      injection h with h; injection h with h1 h2; subst h1
      refine ⟨rfl, fun _ hj => ?_⟩
      rw [hj] at hp
      simp only [timerLoop] at hp
      injection hp with hp
      subst hp
      cases s
      simp_all
    · cases h
  | newJob jobCore id db now =>
    simp only [onCommand] at h
    split at h
    · rename_i hrun
      obtain ⟨e, _⟩ := afterCmd_running _ s1 fl h
      rw [e]
      exact ⟨(process_running fuel s jobCore id db now).1, fun hf => by rw [hf] at hrun; cases hrun⟩
    · injection h with h; injection h with h1 h2; subst h1; exact ⟨rfl, fun _ _ => rfl⟩
  | deleteJob id db =>
    simp only [onCommand] at h
    split at h
    · rename_i hrun
      obtain ⟨e, _⟩ := afterCmd_running _ s1 fl h
      rw [e]
      exact ⟨(process_running fuel s ⟨"", "", "", "", ""⟩ id db Time.zero).2.1,
        fun hf => by rw [hf] at hrun; cases hrun⟩
    · injection h with h; injection h with h1 h2; subst h1; exact ⟨rfl, fun _ _ => rfl⟩
  | updateJob jobCore db now =>
    simp only [onCommand] at h
    split at h
    · rename_i hrun
      obtain ⟨e, _⟩ := afterCmd_running _ s1 fl h
      rw [e]
      exact ⟨(process_running fuel s jobCore "" db now).2.2.1,
        fun hf => by rw [hf] at hrun; cases hrun⟩
    · injection h with h; injection h with h1 h2; subst h1; exact ⟨rfl, fun _ _ => rfl⟩
  | openJob id db now =>
    simp only [onCommand] at h
    split at h
    · rename_i hrun
      obtain ⟨e, _⟩ := afterCmd_running _ s1 fl h
      rw [e]
      exact ⟨(process_running fuel s ⟨"", "", "", "", ""⟩ id db now).2.2.2.1,
        fun hf => by rw [hf] at hrun; cases hrun⟩
    · injection h with h; injection h with h1 h2; subst h1; exact ⟨rfl, fun _ _ => rfl⟩
  | closeJob id db =>
    simp only [onCommand] at h
    split at h
    · rename_i hrun
      obtain ⟨e, _⟩ := afterCmd_running _ s1 fl h
      rw [e]
      exact ⟨(process_running fuel s ⟨"", "", "", "", ""⟩ id db Time.zero).2.2.2.2,
        fun hf => by rw [hf] at hrun; cases hrun⟩
    · injection h with h; injection h with h1 h2; subst h1; exact ⟨rfl, fun _ _ => rfl⟩

/-- While stopped, the control loop holds no job. -/
theorem Reachable_stopped (fuel : Nat) (s : scheduler) (h : Reachable fuel s) :
    s.running = false → s.jobs = [] := by
  induction h with
  | init => intro _; rfl
  | wait s s1 cmd _ hc ih =>
    intro hr
    obtain ⟨k1, k2⟩ := onCommand_keeps fuel s s1 cmd Flow.wait hc (by decide)
    rw [k1] at hr
    rw [k2 hr (ih hr)]
    exact ih hr
  | jobsChanged s s1 cmd sorted _ hc hs ih =>
    intro hr
    have hr1 : s1.running = false := hr
    obtain ⟨k1, k2⟩ := onCommand_keeps fuel s s1 cmd Flow.jobsChanged hc (by decide)
    rw [k1] at hr1
    have e := k2 hr1 (ih hr1)
    rw [e, ih hr1] at hs
    exact List.Perm.eq_nil hs.1
  | schedulerStateChanged s s1 s2 cmd db now sorted _ hc he hs ih =>
    intro hr
    have hr2 : s2.running = false := hr
    unfold enterPhase at he
    split at he
    · rename_i hrun
      exfalso
      split at he
      · cases he
      · cases he
      · split at he
        · injection he with he; subst he; rw [hrun] at hr2; cases hr2
        · cases he
      · split at he
        · injection he with he; subst he; rw [hrun] at hr2; cases hr2
        · cases he
    · injection he with he
      subst he
      exact List.Perm.eq_nil hs.1

/-- Claim C18. In every state in which the control loop waits for a command, `running = false`
implies that the job list is empty; and there each of New, Update, Delete, Open and Close,
whatever it carries, leaves the state (the flag and the empty list) as it is, makes no store
call, and the loop waits on. -/
theorem stopped_spec (fuel : Nat) (s : scheduler) (h : Reachable fuel s)
    (hr : s.running = false) :
    s.jobs = [] ∧
    ∀ (jobCore : JobCore) (id : String) (db : Option Time) (now : Time),
      (onCommand fuel s (.newJob jobCore id db now) = some (s, Flow.wait) ∧
        onCommand_calls s (.newJob jobCore id db now) = []) ∧
      (onCommand fuel s (.updateJob jobCore db now) = some (s, Flow.wait) ∧
        onCommand_calls s (.updateJob jobCore db now) = []) ∧
      (onCommand fuel s (.deleteJob id db) = some (s, Flow.wait) ∧
        onCommand_calls s (.deleteJob id db) = []) ∧
      (onCommand fuel s (.openJob id db now) = some (s, Flow.wait) ∧
        onCommand_calls s (.openJob id db now) = []) ∧
      (onCommand fuel s (.closeJob id db) = some (s, Flow.wait) ∧
        onCommand_calls s (.closeJob id db) = []) := by
  refine ⟨Reachable_stopped fuel s h hr, fun jobCore id db now => ?_⟩
  simp [onCommand, onCommand_calls, hr]

/-- The initial state, and the state after Start, New and Stop. -/
theorem stopped_spec_witness :
    (⟨false, []⟩ : scheduler).jobs = [] ∧
    onCommand 4 ⟨false, []⟩
      (.newJob ⟨"", "job", "* * * * * *", "WeiXinArticle", ""⟩ "id-1"
        (some (Date 2024 1 1 0 0 0 0)) (Date 2024 1 1 0 0 0 0)) = some (⟨false, []⟩, Flow.wait) :=
  ⟨(stopped_spec 4 ⟨false, []⟩ Reachable.init rfl).1,
   ((stopped_spec 4 ⟨false, []⟩ Reachable.init rfl).2
      ⟨"", "job", "* * * * * *", "WeiXinArticle", ""⟩ "id-1" (some (Date 2024 1 1 0 0 0 0))
      (Date 2024 1 1 0 0 0 0)).1.1⟩

/-! ### The execution wrapper: its store calls -/

/-- Claim C20 as stated fails: with the insert succeeding, the runner returning nil and the
update of the body failing, the wrapper makes a second store update (from the deferred
function). -/
theorem two_updates_when_body_update_fails :
    ¬ ∀ (job : Job) (env : ExecEnv), job.Runner ≠ none →
      ((runJobWithRecover job env).calls.filter StoreCall.isUpdate).length ≤ 1 := by
  intro h
  have h1 := h
    { toJobCore := ⟨"a", "first", "* * * * * *", "WeiXinArticle", ""⟩,
      CreateTime := Time.zero, UpdateTime := Time.zero, Deleted := false, Opened := true,
      Runner := some Runner.weixinCrawl, Cron := none, Next := Time.zero }
    { id := "r", tStart := ⟨1⟩, tEnd := ⟨2⟩, tRecover := ⟨3⟩, insertErr := none,
      updateErr := some "connection lost", recoverUpdateErr := none,
      runner := RunnerOutcome.returnsNil }
    (by decide)
  revert h1
  decide

/-- Claim C20, amended. For every job with a runner: the answer of the store to the update
made by the deferred function changes nothing in what the wrapper does (the error is logged,
no further update is tried); at most two store updates are made per execution; and two are made
exactly when the insert succeeded, the runner returned (nil or an error) and the update made by
the body failed. -/
theorem updates_at_most_two (job : Job) (env : ExecEnv) (hr : job.Runner ≠ none) :
    (∀ x, runJobWithRecover job { env with recoverUpdateErr := x } = runJobWithRecover job env) ∧
    ((runJobWithRecover job env).calls.filter StoreCall.isUpdate).length ≤ 2 ∧
    (((runJobWithRecover job env).calls.filter StoreCall.isUpdate).length = 2 ↔
      (env.insertErr = none ∧ (∀ shown, env.runner ≠ RunnerOutcome.panics shown) ∧
        env.updateErr ≠ none)) := by
  obtain ⟨rn, hrn⟩ : ∃ rn, job.Runner = some rn := by
    cases h : job.Runner with
    | none => exact absurd h hr
    | some rn => exact ⟨rn, rfl⟩
  refine ⟨fun x => ?_, ?_⟩
  · simp only [runJobWithRecover, runBody, runDeferred]
  · cases hi : env.insertErr with
    | some e =>
      simp [runJobWithRecover, runBody, runDeferred, hi, StoreCall.isUpdate]
    | none =>
      cases hrun : env.runner with
      | panics shown =>
        simp [runJobWithRecover, runBody, runDeferred, hi, hrn, hrun, StoreCall.isUpdate]
      | returnsErr msg =>
        cases hu : env.updateErr <;>
          simp [runJobWithRecover, runBody, runDeferred, hi, hrn, hrun, hu, StoreCall.isUpdate]
      | returnsNil =>
        cases hu : env.updateErr <;>
          simp [runJobWithRecover, runBody, runDeferred, hi, hrn, hrun, hu, StoreCall.isUpdate]

/-- A run whose body update fails: two updates; a run whose runner panics: one. -/
theorem updates_at_most_two_witness :
    ((runJobWithRecover
        { toJobCore := ⟨"a", "first", "* * * * * *", "WeiXinArticle", ""⟩,
          CreateTime := Time.zero, UpdateTime := Time.zero, Deleted := false, Opened := true,
          Runner := some Runner.weixinCrawl, Cron := none, Next := Time.zero }
        { id := "r", tStart := ⟨1⟩, tEnd := ⟨2⟩, tRecover := ⟨3⟩, insertErr := none,
          updateErr := some "connection lost", recoverUpdateErr := some "connection lost",
          runner := RunnerOutcome.returnsErr "no data" }).calls.filter
            StoreCall.isUpdate).length = 2 :=
  (updates_at_most_two _ _ (by decide)).2.2.mpr
    ⟨rfl, (by intro shown h; cases h), (by decide)⟩

/-! ### `Next`: every loop exits -/

/-- A loop with fuel, of the shape of the five loops of `Next`: if the condition fails after `j`
steps, the loop returns, with any fuel above the number `i ≤ j` of steps it makes, the value
after these steps, the first at which the condition fails. -/
theorem fuelLoop_exit {α : Type} (f : Nat → α → Option α) (cond : α → Prop)
    [DecidablePred cond] (step : α → α)
    (hs : ∀ n x, f (n + 1) x = if cond x then f n (step x) else some x)
    (j : Nat) (x : α) (hj : ¬ cond (step^[j] x)) :
    ∃ i, i ≤ j ∧ ¬ cond (step^[i] x) ∧ (∀ m, m < i → cond (step^[m] x)) ∧
      ∀ n, i < n → f n x = some (step^[i] x) := by
  induction j generalizing x with
  | zero =>
    refine ⟨0, le_refl _, hj, fun m hm => absurd hm (Nat.not_lt_zero _), fun n hn => ?_⟩
    obtain ⟨k, rfl⟩ : ∃ k, n = k + 1 := ⟨n - 1, by omega⟩
    rw [hs]
    simp only [Function.iterate_zero, id_eq] at hj ⊢
    rw [if_neg hj]
  | succ j ih =>
    by_cases hc : cond x
    · rw [Function.iterate_succ_apply] at hj
      obtain ⟨i, hi, hci, hlt, hf⟩ := ih (step x) hj
      refine ⟨i + 1, by omega, by rw [Function.iterate_succ_apply]; exact hci, fun m hm => ?_,
        fun n hn => ?_⟩
      · cases m with
        | zero => exact hc
        | succ m =>
          rw [Function.iterate_succ_apply]
          exact hlt m (by omega)
      · obtain ⟨k, rfl⟩ : ∃ k, n = k + 1 := ⟨n - 1, by omega⟩
        rw [hs, if_pos hc, Function.iterate_succ_apply]
        exact hf k (by omega)
    · refine ⟨0, by omega, hc, fun m hm => absurd hm (Nat.not_lt_zero _), fun n hn => ?_⟩
      obtain ⟨k, rfl⟩ : ∃ k, n = k + 1 := ⟨n - 1, by omega⟩
      rw [hs]
      simp only [Function.iterate_zero, id_eq]
      rw [if_neg hc]

/-- The second step of `Next`, `j` times. -/
theorem secondStep_iterate (j : Nat) (x : Time) :
    ((fun y : Time => y.Add (1 * nsPerSecond))^[j] x).ns = x.ns + j * nsPerSecond := by
  induction j generalizing x with
  | zero => simp
  | succ j ih =>
    rw [Function.iterate_succ_apply, ih]
    simp only [Time.Add, nsPerSecond]
    push_cast
    ring

/-- The second loop of `Next`, for a schedule with a second in 0..59: it returns, within 59
steps, a time whose second is in the schedule. -/
theorem secondLoop_exit (s : Cron) (b : Int) (hb : 0 ≤ b ∧ b ≤ 59)
    (hbit : oneShl b &&& s.Second ≠ 0) (x : Time) :
    ∃ r, (∀ n, 60 ≤ n → secondLoop n s x = some r) ∧ oneShl r.Second &&& s.Second ≠ 0 ∧
      x.ns ≤ r.ns ∧ r.ns ≤ x.ns + 59 * nsPerSecond := by
  have hs : ∀ n y, secondLoop (n + 1) s y =
      if oneShl y.Second &&& s.Second = 0 then secondLoop n s (y.Add (1 * nsPerSecond))
      else some y := by
    intro n y
    simp only [secondLoop, ite_self]
  have hiter := fun j => secondStep_iterate j x
  -- the number of seconds to the second `b`
  have hex : ∃ j : Nat, j ≤ 59 ∧ (x.Second + j) % 60 = b := by
    have hr := x.second_range
    refine ⟨((b - x.Second) % 60).toNat, ?_, ?_⟩ <;> omega
  obtain ⟨j, hj59, hjb⟩ := hex
  have hsec : ∀ i : Nat, ((fun y : Time => y.Add (1 * nsPerSecond))^[i] x).Second
      = (x.Second + i) % 60 := by
    intro i
    have h := hiter i
    generalize ((fun y : Time => y.Add (1 * nsPerSecond))^[i] x) = y at h ⊢
    simp only [Time.Second, Time.secOfDay, nsPerSecond] at h ⊢
    omega
  have hcond : ¬ (oneShl ((fun y : Time => y.Add (1 * nsPerSecond))^[j] x).Second
      &&& s.Second = 0) := by
    rw [hsec j, hjb]
    exact hbit
  obtain ⟨i, hi, hci, _, hf⟩ := fuelLoop_exit (fun n y => secondLoop n s y)
    (fun y => oneShl y.Second &&& s.Second = 0) (fun y => y.Add (1 * nsPerSecond)) hs j x hcond
  refine ⟨_, fun n hn => hf n (by omega), hci, ?_, ?_⟩
  · rw [hiter i]; simp only [nsPerSecond]; omega
  · rw [hiter i]; simp only [nsPerSecond]; omega
/-- The minute step of `Next`, `j` times: the start of the `j`-th minute after that of `x`. -/
theorem minuteStep_iterate (j : Nat) (x : Time) :
    ((fun y : Time => (y.Add (1 * nsPerMinute)).Truncate nsPerMinute)^[j + 1] x).ns
      = (x.ns / nsPerMinute + (j + 1)) * nsPerMinute := by
  induction j with
  | zero =>
    simp only [Function.iterate_succ, Function.iterate_zero, Function.comp_apply, id_eq,
      Time.Add, Time.Truncate, nsPerMinute, nsPerSecond]
    omega
  | succ j ih =>
    rw [Function.iterate_succ_apply']
    generalize ((fun y : Time => (y.Add (1 * nsPerMinute)).Truncate nsPerMinute)^[j + 1] x) = y
      at ih ⊢
    simp only [Time.Add, Time.Truncate, nsPerMinute, nsPerSecond] at ih ⊢
    push_cast at ih ⊢
    omega

/-- The minute loop of `Next`, for a schedule with a minute in 0..59: it returns, within 59
steps, a time whose minute is in the schedule. -/
theorem minuteLoop_exit (s : Cron) (b : Int) (hb : 0 ≤ b ∧ b ≤ 59)
    (hbit : oneShl b &&& s.Minute ≠ 0) (x : Time) :
    ∃ r, (∀ n, 60 ≤ n → minuteLoop n s x = some r) ∧ oneShl r.Minute &&& s.Minute ≠ 0 ∧
      x.ns ≤ r.ns ∧ r.ns ≤ x.ns + 59 * nsPerMinute := by
  have hs : ∀ n y, minuteLoop (n + 1) s y =
      if oneShl y.Minute &&& s.Minute = 0
      then minuteLoop n s ((y.Add (1 * nsPerMinute)).Truncate nsPerMinute)
      else some y := by
    intro n y
    simp only [minuteLoop, ite_self]
  have hex : ∃ j : Nat, j ≤ 59 ∧ (x.Minute + j) % 60 = b := by
    have hr := x.minute_range
    refine ⟨((b - x.Minute) % 60).toNat, ?_, ?_⟩ <;> omega
  obtain ⟨j, hj59, hjb⟩ := hex
  have hns : ∀ i : Nat,
      x.ns ≤ ((fun y : Time => (y.Add (1 * nsPerMinute)).Truncate nsPerMinute)^[i] x).ns ∧
      ((fun y : Time => (y.Add (1 * nsPerMinute)).Truncate nsPerMinute)^[i] x).ns
        ≤ x.ns + i * nsPerMinute ∧
      ((fun y : Time => (y.Add (1 * nsPerMinute)).Truncate nsPerMinute)^[i] x).Minute
        = (x.Minute + i) % 60 := by
    intro i
    cases i with
    | zero =>
      have hr := x.minute_range
      simp only [Function.iterate_zero, id_eq, nsPerMinute, nsPerSecond]
      omega
    | succ i =>
      have h := minuteStep_iterate i x
      generalize ((fun y : Time => (y.Add (1 * nsPerMinute)).Truncate nsPerMinute)^[i + 1] x) = y
        at h ⊢
      simp only [Time.Minute, Time.secOfDay, nsPerMinute, nsPerSecond] at h ⊢
      push_cast at h ⊢
      omega
  have hcond : ¬ (oneShl
      ((fun y : Time => (y.Add (1 * nsPerMinute)).Truncate nsPerMinute)^[j] x).Minute
      &&& s.Minute = 0) := by
    rw [(hns j).2.2, hjb]
    exact hbit
  obtain ⟨i, hi, hci, _, hf⟩ := fuelLoop_exit (fun n y => minuteLoop n s y)
    (fun y => oneShl y.Minute &&& s.Minute = 0)
    (fun y => (y.Add (1 * nsPerMinute)).Truncate nsPerMinute) hs j x hcond
  refine ⟨_, fun n hn => hf n (by omega), hci, (hns i).1, ?_⟩
  have h := (hns i).2.1
  generalize ((fun y : Time => (y.Add (1 * nsPerMinute)).Truncate nsPerMinute)^[i] x) = y at h ⊢
  simp only [nsPerMinute, nsPerSecond] at h ⊢
  omega

/-- The hour step of `Next`, `j` times: the start of the `j`-th hour after that of `x`. -/
theorem hourStep_iterate (j : Nat) (x : Time) :
    ((fun y : Time => (y.Add (1 * nsPerHour)).Truncate nsPerHour)^[j + 1] x).ns
      = (x.ns / nsPerHour + (j + 1)) * nsPerHour := by
  induction j with
  | zero =>
    simp only [Function.iterate_succ, Function.iterate_zero, Function.comp_apply, id_eq,
      Time.Add, Time.Truncate, nsPerHour, nsPerSecond]
    omega
  | succ j ih =>
    rw [Function.iterate_succ_apply']
    generalize ((fun y : Time => (y.Add (1 * nsPerHour)).Truncate nsPerHour)^[j + 1] x) = y
      at ih ⊢
    simp only [Time.Add, Time.Truncate, nsPerHour, nsPerSecond] at ih ⊢
    push_cast at ih ⊢
    omega

/-- The hour loop of `Next`, for a schedule with an hour in 0..23: it returns, within 23 steps,
a time whose hour is in the schedule. -/
theorem hourLoop_exit (s : Cron) (b : Int) (hb : 0 ≤ b ∧ b ≤ 23)
    (hbit : oneShl b &&& s.Hour ≠ 0) (x : Time) :
    ∃ r, (∀ n, 24 ≤ n → hourLoop n s x = some r) ∧ oneShl r.Hour &&& s.Hour ≠ 0 ∧
      x.ns ≤ r.ns ∧ r.ns ≤ x.ns + 23 * nsPerHour := by
  have hs : ∀ n y, hourLoop (n + 1) s y =
      if oneShl y.Hour &&& s.Hour = 0
      then hourLoop n s ((y.Add (1 * nsPerHour)).Truncate nsPerHour)
      else some y := by
    intro n y
    simp only [hourLoop, ite_self]
  have hex : ∃ j : Nat, j ≤ 23 ∧ (x.Hour + j) % 24 = b := by
    have hr := x.hour_range
    refine ⟨((b - x.Hour) % 24).toNat, ?_, ?_⟩ <;> omega
  obtain ⟨j, hj23, hjb⟩ := hex
  have hns : ∀ i : Nat,
      x.ns ≤ ((fun y : Time => (y.Add (1 * nsPerHour)).Truncate nsPerHour)^[i] x).ns ∧
      ((fun y : Time => (y.Add (1 * nsPerHour)).Truncate nsPerHour)^[i] x).ns
        ≤ x.ns + i * nsPerHour ∧
      ((fun y : Time => (y.Add (1 * nsPerHour)).Truncate nsPerHour)^[i] x).Hour
        = (x.Hour + i) % 24 := by
    intro i
    cases i with
    | zero =>
      have hr := x.hour_range
      simp only [Function.iterate_zero, id_eq, nsPerHour, nsPerSecond]
      omega
    | succ i =>
      have h := hourStep_iterate i x
      generalize ((fun y : Time => (y.Add (1 * nsPerHour)).Truncate nsPerHour)^[i + 1] x) = y
        at h ⊢
      simp only [Time.Hour, Time.secOfDay, nsPerHour, nsPerSecond] at h ⊢
      push_cast at h ⊢
      omega
  have hcond : ¬ (oneShl
      ((fun y : Time => (y.Add (1 * nsPerHour)).Truncate nsPerHour)^[j] x).Hour
      &&& s.Hour = 0) := by
    rw [(hns j).2.2, hjb]
    exact hbit
  obtain ⟨i, hi, hci, _, hf⟩ := fuelLoop_exit (fun n y => hourLoop n s y)
    (fun y => oneShl y.Hour &&& s.Hour = 0)
    (fun y => (y.Add (1 * nsPerHour)).Truncate nsPerHour) hs j x hcond
  refine ⟨_, fun n hn => hf n (by omega), hci, (hns i).1, ?_⟩
  have h := (hns i).2.1
  generalize ((fun y : Time => (y.Add (1 * nsPerHour)).Truncate nsPerHour)^[i] x) = y at h ⊢
  simp only [nsPerHour, nsPerSecond] at h ⊢
  omega
/-- The fields of a time are those of the one valid date with its day number. -/
theorem fields_of_absDays (t : Time) (y m d : Int) (hm : 1 ≤ m ∧ m ≤ 12)
    (hd : 1 ≤ d ∧ daysBefore (isLeap y) m + d ≤ daysBefore (isLeap y) (m + 1))
    (h : t.absDays = daysSinceEpoch y + daysBefore (isLeap y) m + (d - 1)) :
    t.Year = y ∧ t.Month = m ∧ t.Day = d := by
  have hr := t.month_range
  have hb := t.absDays_bounds
  have he := t.absDays_eq
  have hym : t.Year = y ∧ t.Month = m := by
    by_contra hne
    have hcases : (y < t.Year ∨ (y = t.Year ∧ m + 1 ≤ t.Month)) ∨
        (t.Year < y ∨ (t.Year = y ∧ t.Month + 1 ≤ m)) := by omega
    rcases hcases with hc | hc
    · have a1 := monthStart_le y (m + 1) t.Year t.Month (by omega) (by omega) hr.1 (by omega) hc
      generalize daysSinceEpoch t.Year = p at *
      generalize daysBefore (isLeap t.Year) t.Month = u at *
      generalize daysBefore (isLeap t.Year) (t.Month + 1) = v at *
      generalize daysSinceEpoch y = q at *
      generalize daysBefore (isLeap y) m = w at *
      generalize daysBefore (isLeap y) (m + 1) = z at *
      generalize t.absDays = a at *
      omega
    · have a1 := monthStart_le t.Year (t.Month + 1) y m (by omega) (by omega) hm.1 (by omega) hc
      generalize daysSinceEpoch t.Year = p at *
      generalize daysBefore (isLeap t.Year) t.Month = u at *
      generalize daysBefore (isLeap t.Year) (t.Month + 1) = v at *
      generalize daysSinceEpoch y = q at *
      generalize daysBefore (isLeap y) m = w at *
      generalize daysBefore (isLeap y) (m + 1) = z at *
      generalize t.absDays = a at *
      omega
  refine ⟨hym.1, hym.2, ?_⟩
  rw [hym.1, hym.2] at he
  generalize daysSinceEpoch y = q at *
  generalize daysBefore (isLeap y) m = w at *
  generalize t.absDays = a at *
  generalize t.Day = dd at *
  omega

theorem absDays_of_days (n : Int) : (⟨n * nsPerDay⟩ : Time).absDays = n := by
  simp only [Time.absDays, nsPerDay, nsPerSecond]
  omega

/-- Weekday and day of the month are those of the day number. -/
theorem day_weekday_of_absDays (t u : Time) (h : t.absDays = u.absDays) :
    t.Day = u.Day ∧ t.Weekday = u.Weekday ∧ t.Month = u.Month ∧ t.Year = u.Year := by
  simp [Time.Day, Time.Weekday, Time.Month, Time.Year, Time.YearDay0, h]

/-- Among twelve months of 31 days of two years in a row, one starts on the weekday that puts
its day `d` on the weekday `w`; `A` is the day number of the first January 1st, `l1` and `l2`
are 1 for a leap year. -/
theorem long_month_weekday (A d w l1 l2 : Int) (hl1 : 0 ≤ l1 ∧ l1 ≤ 1) (hl2 : 0 ≤ l2 ∧ l2 ≤ 1)
    (hw : 0 ≤ w ∧ w ≤ 6) :
    (A + (0) + d) % 7 = w ∨
    (A + (59 + l1) + d) % 7 = w ∨
    (A + (120 + l1) + d) % 7 = w ∨
    (A + (181 + l1) + d) % 7 = w ∨
    (A + (212 + l1) + d) % 7 = w ∨
    (A + (273 + l1) + d) % 7 = w ∨
    (A + (334 + l1) + d) % 7 = w ∨
    (A + (365 + l1 + 0) + d) % 7 = w ∨
    (A + (365 + l1 + (59 + l2)) + d) % 7 = w ∨
    (A + (365 + l1 + (120 + l2)) + d) % 7 = w ∨
    (A + (365 + l1 + (181 + l2)) + d) % 7 = w ∨
    (A + (365 + l1 + (212 + l2)) + d) % 7 = w := by
  have hr : (A + d - w) % 7 = 0 ∨ (A + d - w) % 7 = 1 ∨ (A + d - w) % 7 = 2 ∨
      (A + d - w) % 7 = 3 ∨ (A + d - w) % 7 = 4 ∨ (A + d - w) % 7 = 5 ∨
      (A + d - w) % 7 = 6 := by omega
  have h1 : l1 = 0 ∨ l1 = 1 := by omega
  have h2 : l2 = 0 ∨ l2 = 1 := by omega
  rcases h1 with e1 | e1 <;> rcases h2 with e2 | e2 <;> subst e1 <;> subst e2 <;>
    rcases hr with r | r | r | r | r | r | r <;>
    first
      | (refine Or.inl ?_; omega)
      | (refine Or.inr (Or.inl ?_); omega)
      | (refine Or.inr (Or.inr (Or.inl ?_)); omega)
      | (refine Or.inr (Or.inr (Or.inr (Or.inl ?_))); omega)
      | (refine Or.inr (Or.inr (Or.inr (Or.inr (Or.inl ?_)))); omega)
      | (refine Or.inr (Or.inr (Or.inr (Or.inr (Or.inr (Or.inl ?_))))); omega)
      | (refine Or.inr (Or.inr (Or.inr (Or.inr (Or.inr (Or.inr (Or.inl ?_)))))); omega)
      | (refine Or.inr (Or.inr (Or.inr (Or.inr (Or.inr (Or.inr (Or.inr (Or.inl ?_))))))); omega)
      | (refine Or.inr (Or.inr (Or.inr (Or.inr (Or.inr (Or.inr (Or.inr (Or.inr (Or.inl ?_)))))))); omega)
      | (refine Or.inr (Or.inr (Or.inr (Or.inr (Or.inr (Or.inr (Or.inr (Or.inr (Or.inr (Or.inl ?_))))))))); omega)
      | (refine Or.inr (Or.inr (Or.inr (Or.inr (Or.inr (Or.inr (Or.inr (Or.inr (Or.inr (Or.inr (Or.inl ?_)))))))))); omega)
      | (refine Or.inr (Or.inr (Or.inr (Or.inr (Or.inr (Or.inr (Or.inr (Or.inr (Or.inr (Or.inr (Or.inr ?_)))))))))); omega)

theorem long_month_offsets (l1 l2 : Int) (h1 : 0 ≤ l1 ∧ l1 ≤ 1) (h2 : 0 ≤ l2 ∧ l2 ≤ 1) :
    ((0 : Int) ≤ 0 ∧ (0 : Int) ≤ 365 + 1 + 212 + 1) ∧
    (0 ≤ 59 + l1 ∧ 59 + l1 ≤ 365 + 1 + 212 + 1) ∧
    (0 ≤ 120 + l1 ∧ 120 + l1 ≤ 365 + 1 + 212 + 1) ∧
    (0 ≤ 181 + l1 ∧ 181 + l1 ≤ 365 + 1 + 212 + 1) ∧
    (0 ≤ 212 + l1 ∧ 212 + l1 ≤ 365 + 1 + 212 + 1) ∧
    (0 ≤ 273 + l1 ∧ 273 + l1 ≤ 365 + 1 + 212 + 1) ∧
    (0 ≤ 334 + l1 ∧ 334 + l1 ≤ 365 + 1 + 212 + 1) ∧
    (0 ≤ 365 + l1 + 0 ∧ 365 + l1 + 0 ≤ 365 + 1 + 212 + 1) ∧
    (0 ≤ 365 + l1 + (59 + l2) ∧ 365 + l1 + (59 + l2) ≤ 365 + 1 + 212 + 1) ∧
    (0 ≤ 365 + l1 + (120 + l2) ∧ 365 + l1 + (120 + l2) ≤ 365 + 1 + 212 + 1) ∧
    (0 ≤ 365 + l1 + (181 + l2) ∧ 365 + l1 + (181 + l2) ≤ 365 + 1 + 212 + 1) ∧
    (0 ≤ 365 + l1 + (212 + l2) ∧ 365 + l1 + (212 + l2) ≤ 365 + 1 + 212 + 1) := by
  omega

/-- Every day of the month `d` falls on every weekday `w` within 1100 days of any day `n`. -/
theorem day_recurs (n d w : Int) (hd : 1 ≤ d ∧ d ≤ 31) (hw : 0 ≤ w ∧ w ≤ 6) :
    ∃ j : Nat, 1 ≤ j ∧ j ≤ 1100 ∧ ∀ t : Time, t.absDays = n + j → t.Day = d ∧ t.Weekday = w := by
  obtain ⟨hy, hyd0, hyd⟩ := absYear_spec n
  generalize (absYear n).1 = y at hy hyd
  generalize (absYear n).2 = yd at hy hyd0 hyd
  have hyd366 : yd ≤ 365 := by omega
  have s1 := daysSinceEpoch_succ y
  have hl0 : 0 ≤ (if isLeap y = true then (1 : Int) else 0) ∧
      (if isLeap y = true then (1 : Int) else 0) ≤ 1 := by split <;> omega
  have hlt : n < daysSinceEpoch (y + 1) := by
    rcases hyd with h | ⟨h, hl⟩
    · generalize daysSinceEpoch (y + 1) = A at *
      generalize daysSinceEpoch y = B at *
      omega
    · rw [if_pos hl] at s1
      generalize daysSinceEpoch (y + 1) = A at *
      generalize daysSinceEpoch y = B at *
      omega
  -- a month of 31 days of the year `yy`, starting `o` days after the January 1st of year `y + 1`
  have key : ∀ (yy m o : Int), 1 ≤ m ∧ m ≤ 12 →
      daysBefore (isLeap yy) (m + 1) = daysBefore (isLeap yy) m + 31 →
      daysSinceEpoch yy + daysBefore (isLeap yy) m = daysSinceEpoch (y + 1) + o →
      0 ≤ o ∧ o ≤ 365 + 1 + 212 + 1 →
      (daysSinceEpoch (y + 1) + o + d) % 7 = w →
      ∃ j : Nat, 1 ≤ j ∧ j ≤ 1100 ∧
        ∀ t : Time, t.absDays = n + j → t.Day = d ∧ t.Weekday = w := by
    intro yy m o hm h31 hst ho hwk
    refine ⟨(daysSinceEpoch (y + 1) + o + (d - 1) - n).toNat, ?_, ?_, fun t ht => ?_⟩
    · generalize daysSinceEpoch (y + 1) = A at *
      generalize daysSinceEpoch y = B at *
      omega
    · generalize daysSinceEpoch (y + 1) = A at *
      generalize daysSinceEpoch y = B at *
      omega
    · have habs : t.absDays = daysSinceEpoch yy + daysBefore (isLeap yy) m + (d - 1) := by
        rw [ht, hst]
        generalize daysSinceEpoch (y + 1) = A at *
        generalize daysSinceEpoch y = B at *
        omega
      have hf := fields_of_absDays t yy m d hm ⟨hd.1, by rw [h31]; omega⟩ habs
      refine ⟨hf.2.2, ?_⟩
      simp only [Time.Weekday]
      rw [habs, hst]
      generalize daysSinceEpoch (y + 1) = A at *
      omega
  have s2 := daysSinceEpoch_succ (y + 1)
  have s3 := daysSinceEpoch_succ (y + 2)
  have e2 : y + 1 + 1 = y + 2 := by ring
  have e3 : y + 2 + 1 = y + 3 := by ring
  rw [e2] at s2
  rw [e3] at s3
  obtain ⟨v2, v3, v4, v5, v6, v7, v8, v9, v10, v11, v12⟩ := daysBefore_values (isLeap (y + 1))
  obtain ⟨u2, u3, u4, u5, u6, u7, u8, u9, u10, u11, u12⟩ := daysBefore_values (isLeap (y + 2))
  have v1 := daysBefore_one (isLeap (y + 1))
  have u1 := daysBefore_one (isLeap (y + 2))
  have v13 := daysBefore_thirteen (isLeap (y + 1))
  have u13 := daysBefore_thirteen (isLeap (y + 2))
  have hl1 : 0 ≤ (if isLeap (y + 1) = true then (1 : Int) else 0) ∧
      (if isLeap (y + 1) = true then (1 : Int) else 0) ≤ 1 := by split <;> omega
  have hl2 : 0 ≤ (if isLeap (y + 2) = true then (1 : Int) else 0) ∧
      (if isLeap (y + 2) = true then (1 : Int) else 0) ≤ 1 := by split <;> omega
  have sel := long_month_weekday (daysSinceEpoch (y + 1)) d w
    (if isLeap (y + 1) = true then (1 : Int) else 0)
    (if isLeap (y + 2) = true then (1 : Int) else 0) hl1 hl2 hw
  have c3 : (3 : Int) + 1 = 4 := rfl
  have c5 : (5 : Int) + 1 = 6 := rfl
  have c7 : (7 : Int) + 1 = 8 := rfl
  have c8 : (8 : Int) + 1 = 9 := rfl
  have c10 : (10 : Int) + 1 = 11 := rfl
  have c12 : (12 : Int) + 1 = 13 := rfl
  have c1 : (1 : Int) + 1 = 2 := rfl
  obtain ⟨b1, b3, b5, b7, b8, b10, b12, d1, d3, d5, d7, d8⟩ := long_month_offsets _ _ hl1 hl2
  rcases sel with h | h | h | h | h | h | h | h | h | h | h | h
  · exact key (y + 1) 1 0 (by norm_num) (by rw [c1, v1, v2]; norm_num) (by rw [v1]) b1
      (by simpa using h)
  · exact key (y + 1) 3 _ (by norm_num) (by rw [c3, v3, v4]; ring) (by rw [v3]) b3 h
  · exact key (y + 1) 5 _ (by norm_num) (by rw [c5, v5, v6]; ring) (by rw [v5]) b5 h
  · exact key (y + 1) 7 _ (by norm_num) (by rw [c7, v7, v8]; ring) (by rw [v7]) b7 h
  · exact key (y + 1) 8 _ (by norm_num) (by rw [c8, v8, v9]; ring) (by rw [v8]) b8 h
  · exact key (y + 1) 10 _ (by norm_num) (by rw [c10, v10, v11]; ring) (by rw [v10]) b10 h
  · exact key (y + 1) 12 _ (by norm_num) (by rw [c12, v12, v13]; ring) (by rw [v12]) b12 h
  · exact key (y + 2) 1 _ (by norm_num) (by rw [c1, u1, u2]; norm_num) (by rw [u1, s2]; ring)
      d1 h
  · exact key (y + 2) 3 _ (by norm_num) (by rw [c3, u3, u4]; ring) (by rw [u3, s2]; ring) d3 h
  · exact key (y + 2) 5 _ (by norm_num) (by rw [c5, u5, u6]; ring) (by rw [u5, s2]; ring) d5 h
  · exact key (y + 2) 7 _ (by norm_num) (by rw [c7, u7, u8]; ring) (by rw [u7, s2]; ring) d7 h
  · exact key (y + 2) 8 _ (by norm_num) (by rw [c8, u8, u9]; ring) (by rw [u8, s2]; ring) d8 h
/-- The day step of `Next`, `j + 1` times: the start of the day `j + 1` days after that of
`x`. -/
theorem dayStep_iterate (j : Nat) (x : Time) :
    ((fun y : Time => Date (y.AddDate 0 0 1).Year (y.AddDate 0 0 1).Month (y.AddDate 0 0 1).Day
      0 0 0 0)^[j + 1] x).ns = (x.absDays + (j + 1)) * nsPerDay := by
  induction j with
  | zero =>
    simp only [Function.iterate_succ, Function.iterate_zero, Function.comp_apply, id_eq]
    rw [dayStep_eq]
    simp
  | succ j ih =>
    rw [Function.iterate_succ_apply', dayStep_eq]
    generalize ((fun y : Time => Date (y.AddDate 0 0 1).Year (y.AddDate 0 0 1).Month
      (y.AddDate 0 0 1).Day 0 0 0 0)^[j + 1] x) = y at ih ⊢
    have e : y.absDays = x.absDays + (j + 1) := by
      simp only [Time.absDays] at ih ⊢
      generalize x.ns / nsPerDay = a at ih ⊢
      simp only [nsPerDay, nsPerSecond] at ih ⊢
      omega
    rw [e]
    push_cast
    ring

/-- A day whose day of the month and weekday are both in the schedule matches it. -/
theorem dayMatches_of_bits (s : Cron) (t : Time) (hdom : oneShl t.Day &&& s.Dom ≠ 0)
    (hdow : oneShl t.Weekday &&& s.Dow ≠ 0) : dayMatches s t = true := by
  have h1 : oneShl t.Day &&& s.Dom > 0 := Nat.pos_of_ne_zero hdom
  have h2 : oneShl t.Weekday &&& s.Dow > 0 := Nat.pos_of_ne_zero hdow
  simp only [dayMatches, h1, h2, decide_True, Bool.and_self, Bool.or_self, ite_self]

/-- The day loop of `Next`, for a schedule with a day of the month in 1..31 and a weekday in
0..6: it returns, within 1100 steps, a time whose day matches the schedule. -/
theorem dayLoop_exit (s : Cron) (d w : Int) (hd : 1 ≤ d ∧ d ≤ 31) (hw : 0 ≤ w ∧ w ≤ 6)
    (hdom : oneShl d &&& s.Dom ≠ 0) (hdow : oneShl w &&& s.Dow ≠ 0) (x : Time) :
    ∃ r, (∀ n, 1101 ≤ n → dayLoop n s x = some r) ∧ dayMatches s r = true ∧
      x.ns ≤ r.ns ∧ r.ns ≤ x.ns + 1100 * nsPerDay := by
  have hs : ∀ n y, dayLoop (n + 1) s y =
      if dayMatches s y ≠ true
      then dayLoop n s (Date (y.AddDate 0 0 1).Year (y.AddDate 0 0 1).Month
        (y.AddDate 0 0 1).Day 0 0 0 0)
      else some y := by
    intro n y
    simp only [dayLoop, ite_self]
    cases dayMatches s y <;> simp
  obtain ⟨j, hj1, hj, hrec⟩ := day_recurs x.absDays d w hd hw
  have hit : ∀ i : Nat, 1 ≤ i →
      ((fun y : Time => Date (y.AddDate 0 0 1).Year (y.AddDate 0 0 1).Month
        (y.AddDate 0 0 1).Day 0 0 0 0)^[i] x).ns = (x.absDays + i) * nsPerDay := by
    intro i hi
    obtain ⟨k, rfl⟩ : ∃ k, i = k + 1 := ⟨i - 1, by omega⟩
    rw [dayStep_iterate k x]
    push_cast
    ring
  have hcond : ¬ (dayMatches s ((fun y : Time => Date (y.AddDate 0 0 1).Year
      (y.AddDate 0 0 1).Month (y.AddDate 0 0 1).Day 0 0 0 0)^[j] x) ≠ true) := by
    have h := hit j hj1
    generalize ((fun y : Time => Date (y.AddDate 0 0 1).Year (y.AddDate 0 0 1).Month
      (y.AddDate 0 0 1).Day 0 0 0 0)^[j] x) = y at h ⊢
    have habs : y.absDays = x.absDays + j := by
      simp only [Time.absDays, h]
      generalize x.ns / nsPerDay = a
      simp only [nsPerDay, nsPerSecond]
      omega
    obtain ⟨e1, e2⟩ := hrec y habs
    have := dayMatches_of_bits s y (by rw [e1]; exact hdom) (by rw [e2]; exact hdow)
    simp [this]
  obtain ⟨i, hi, hci, _, hf⟩ := fuelLoop_exit (fun n y => dayLoop n s y)
    (fun y => dayMatches s y ≠ true)
    (fun y => Date (y.AddDate 0 0 1).Year (y.AddDate 0 0 1).Month (y.AddDate 0 0 1).Day 0 0 0 0)
    hs j x hcond
  have hb := x.ns_bounds
  refine ⟨_, fun n hn => hf n (by omega), by simpa using hci, ?_, ?_⟩
  · cases i with
    | zero => simp
    | succ i =>
      rw [hit (i + 1) (by omega)]
      generalize x.absDays = a at *
      simp only [nsPerDay, nsPerSecond] at *
      push_cast
      omega
  · cases i with
    | zero => simp [nsPerDay, nsPerSecond]
    | succ i =>
      rw [hit (i + 1) (by omega)]
      generalize x.absDays = a at *
      simp only [nsPerDay, nsPerSecond] at *
      push_cast
      omega

/-- The month step of `Next` ends at the start of a month: day 1, midnight, after `x` and at
most 31 days after it, in the month and year that `AddDate(0, 1, 0)` reaches. -/
theorem monthStep_fields (x : Time) :
    (Date (x.AddDate 0 1 0).Year (x.AddDate 0 1 0).Month 1 0 0 0 0).Day = 1 ∧
    (Date (x.AddDate 0 1 0).Year (x.AddDate 0 1 0).Month 1 0 0 0 0).Month
      = (x.AddDate 0 1 0).Month ∧
    (Date (x.AddDate 0 1 0).Year (x.AddDate 0 1 0).Month 1 0 0 0 0).Year
      = (x.AddDate 0 1 0).Year ∧
    (Date (x.AddDate 0 1 0).Year (x.AddDate 0 1 0).Month 1 0 0 0 0).ns % nsPerDay = 0 ∧
    x.ns < (Date (x.AddDate 0 1 0).Year (x.AddDate 0 1 0).Month 1 0 0 0 0).ns ∧
    (Date (x.AddDate 0 1 0).Year (x.AddDate 0 1 0).Month 1 0 0 0 0).ns ≤ x.ns + 31 * nsPerDay := by
  have hgt := (monthStep_gt x).1
  have hx1 := x.addMonth_ns
  have hxe := x.ns_eq
  have hxa := x.absDays_eq
  have hstep := daysBefore_step (isLeap x.Year) x.Month x.month_range.1 x.month_range.2
  generalize x.AddDate 0 1 0 = x1 at *
  have hr := x1.month_range
  have hns := Date_ns x1.Year x1.Month 1 0 0 0 0 hr.1 hr.2
  have hb := x1.absDays_bounds
  have hb2 := x1.ns_bounds
  have hst := daysBefore_step (isLeap x1.Year) x1.Month hr.1 hr.2
  generalize Date x1.Year x1.Month 1 0 0 0 0 = y at *
  have habs : y.absDays = daysSinceEpoch x1.Year + daysBefore (isLeap x1.Year) x1.Month
      + (1 - 1) := by
    simp only [Time.absDays, hns]
    generalize daysSinceEpoch x1.Year + daysBefore (isLeap x1.Year) x1.Month = q
    simp only [nsPerDay, nsPerSecond]
    omega
  have hf := fields_of_absDays y x1.Year x1.Month 1 hr ⟨le_refl 1, by omega⟩ habs
  refine ⟨hf.2.2, hf.2.1, hf.1, ?_, hgt, ?_⟩
  · rw [hns]
    generalize daysSinceEpoch x1.Year + daysBefore (isLeap x1.Year) x1.Month = q
    simp only [nsPerDay, nsPerSecond]
    omega
  · rw [hns]
    generalize daysSinceEpoch x1.Year = p at *
    generalize daysBefore (isLeap x1.Year) x1.Month = u at *
    generalize daysBefore (isLeap x1.Year) (x1.Month + 1) = v at *
    generalize daysSinceEpoch x.Year = p0 at *
    generalize daysBefore (isLeap x.Year) x.Month = u0 at *
    generalize daysBefore (isLeap x.Year) (x.Month + 1) = v0 at *
    generalize x1.absDays = a1 at *
    generalize x.absDays = a0 at *
    generalize x.Hour = h0 at *
    generalize x.Minute = mi0 at *
    generalize x.Second = s0 at *
    generalize x.Nanosecond = n0 at *
    generalize x.Day = d0 at *
    simp only [nsPerDay, nsPerSecond] at *
    omega

/-- From the start of a month the month step of `Next` reaches the start of the next month. -/
theorem monthStep_of_start (x : Time) (hd : x.Day = 1) (h0 : x.ns % nsPerDay = 0) :
    (Date (x.AddDate 0 1 0).Year (x.AddDate 0 1 0).Month 1 0 0 0 0).Month
      = x.Month % 12 + 1 := by
  rw [(monthStep_fields x).2.1]
  have hx1 := x.addMonth_ns
  have hr := x.month_range
  have hclock : x.Hour = 0 ∧ x.Minute = 0 ∧ x.Second = 0 ∧ x.Nanosecond = 0 := by
    simp only [Time.Hour, Time.Minute, Time.Second, Time.Nanosecond, Time.secOfDay, nsPerDay,
      nsPerSecond] at h0 ⊢
    omega
  rw [hd, hclock.1, hclock.2.1, hclock.2.2.1, hclock.2.2.2] at hx1
  generalize x.AddDate 0 1 0 = x1 at *
  have habs : x1.absDays = daysSinceEpoch x.Year + daysBefore (isLeap x.Year) (x.Month + 1) := by
    simp only [Time.absDays, hx1]
    generalize daysSinceEpoch x.Year + daysBefore (isLeap x.Year) (x.Month + 1) = q
    simp only [nsPerDay, nsPerSecond]
    omega
  by_cases h12 : x.Month = 12
  · rw [h12] at habs
    have e13 : (12 : Int) + 1 = 13 := rfl
    rw [e13, ← yearStart_succ] at habs
    have hf := fields_of_absDays x1 (x.Year + 1) 1 1 (by norm_num)
      ⟨le_refl 1, by
        have := daysBefore_step (isLeap (x.Year + 1)) 1 (by norm_num) (by norm_num)
        omega⟩
      (by rw [habs, daysBefore_one]; ring)
    rw [hf.2.1, h12]
    rfl
  · have hm : 1 ≤ x.Month + 1 ∧ x.Month + 1 ≤ 12 := by omega
    have hf := fields_of_absDays x1 x.Year (x.Month + 1) 1 hm
      ⟨le_refl 1, by
        have := daysBefore_step (isLeap x.Year) (x.Month + 1) hm.1 hm.2
        omega⟩
      (by rw [habs]; ring)
    rw [hf.2.1]
    omega
/-- The month step of `Next`, `j + 1` times: the start of a month, after `x` and at most
`31 * (j + 1)` days after it, whose month is that of the first step moved on by `j`. -/
theorem monthStep_iterate (j : Nat) (x : Time) :
    ((fun y : Time => Date (y.AddDate 0 1 0).Year (y.AddDate 0 1 0).Month 1 0 0 0 0)^[j + 1]
      x).Day = 1 ∧
    ((fun y : Time => Date (y.AddDate 0 1 0).Year (y.AddDate 0 1 0).Month 1 0 0 0 0)^[j + 1]
      x).ns % nsPerDay = 0 ∧
    x.ns < ((fun y : Time => Date (y.AddDate 0 1 0).Year (y.AddDate 0 1 0).Month 1 0 0 0 0)^[j + 1]
      x).ns ∧
    ((fun y : Time => Date (y.AddDate 0 1 0).Year (y.AddDate 0 1 0).Month 1 0 0 0 0)^[j + 1]
      x).ns ≤ x.ns + 31 * (j + 1) * nsPerDay ∧
    ((fun y : Time => Date (y.AddDate 0 1 0).Year (y.AddDate 0 1 0).Month 1 0 0 0 0)^[j + 1]
      x).Month =
      ((Date (x.AddDate 0 1 0).Year (x.AddDate 0 1 0).Month 1 0 0 0 0).Month - 1 + j) % 12
        + 1 := by
  induction j with
  | zero =>
    simp only [Function.iterate_succ, Function.iterate_zero, Function.comp_apply, id_eq]
    obtain ⟨h1, _, _, h4, h5, h6⟩ := monthStep_fields x
    have hr := (Date (x.AddDate 0 1 0).Year (x.AddDate 0 1 0).Month 1 0 0 0 0).month_range
    refine ⟨h1, h4, h5, by simpa using h6, ?_⟩
    omega
  | succ j ih =>
    rw [Function.iterate_succ_apply']
    generalize ((fun y : Time => Date (y.AddDate 0 1 0).Year (y.AddDate 0 1 0).Month 1 0 0 0 0)^[j
      + 1] x) = y at ih ⊢
    obtain ⟨i1, i2, i3, i4, i5⟩ := ih
    obtain ⟨h1, _, _, h4, h5, h6⟩ := monthStep_fields y
    have hm := monthStep_of_start y i1 i2
    have hr := y.month_range
    generalize (Date (y.AddDate 0 1 0).Year (y.AddDate 0 1 0).Month 1 0 0 0 0) = z at *
    generalize (Date (x.AddDate 0 1 0).Year (x.AddDate 0 1 0).Month 1 0 0 0 0).Month = m1 at *
    refine ⟨h1, h4, by omega, ?_, ?_⟩
    · simp only [nsPerDay, nsPerSecond] at *
      push_cast
      omega
    · rw [hm, i5]
      push_cast
      omega

/-- The month loop of `Next`, for a schedule with a month in 1..12: it returns, within 12
steps, a time whose month is in the schedule. -/
theorem monthLoop_exit (s : Cron) (b : Int) (hb : 1 ≤ b ∧ b ≤ 12)
    (hbit : oneShl b &&& s.Month ≠ 0) (x : Time) :
    ∃ r, (∀ n, 13 ≤ n → monthLoop n s x = some r) ∧ oneShl r.Month &&& s.Month ≠ 0 ∧
      x.ns ≤ r.ns ∧ r.ns ≤ x.ns + 372 * nsPerDay := by
  have hs : ∀ n y, monthLoop (n + 1) s y =
      if oneShl y.Month &&& s.Month = 0
      then monthLoop n s (Date (y.AddDate 0 1 0).Year (y.AddDate 0 1 0).Month 1 0 0 0 0)
      else some y := by
    intro n y
    simp only [monthLoop, ite_self]
  have hit := fun j => monthStep_iterate j x
  have hr := (Date (x.AddDate 0 1 0).Year (x.AddDate 0 1 0).Month 1 0 0 0 0).month_range
  generalize hm1 : (Date (x.AddDate 0 1 0).Year (x.AddDate 0 1 0).Month 1 0 0 0 0).Month = m1
    at hit hr
  have hex : ∃ j : Nat, j ≤ 11 ∧ (m1 - 1 + j) % 12 + 1 = b := by
    refine ⟨((b - m1) % 12).toNat, ?_, ?_⟩ <;> omega
  obtain ⟨j, hj11, hjb⟩ := hex
  have hcond : ¬ (oneShl ((fun y : Time => Date (y.AddDate 0 1 0).Year (y.AddDate 0 1 0).Month
      1 0 0 0 0)^[j + 1] x).Month &&& s.Month = 0) := by
    rw [(hit j).2.2.2.2, hjb]
    exact hbit
  obtain ⟨i, hi, hci, _, hf⟩ := fuelLoop_exit (fun n y => monthLoop n s y)
    (fun y => oneShl y.Month &&& s.Month = 0)
    (fun y => Date (y.AddDate 0 1 0).Year (y.AddDate 0 1 0).Month 1 0 0 0 0) hs (j + 1) x hcond
  refine ⟨_, fun n hn => hf n (by omega), hci, ?_, ?_⟩
  · cases i with
    | zero => simp
    | succ i => exact le_of_lt (hit i).2.2.1
  · cases i with
    | zero => simp [nsPerDay, nsPerSecond]
    | succ i =>
      have h := (hit i).2.2.2.1
      generalize ((fun y : Time => Date (y.AddDate 0 1 0).Year (y.AddDate 0 1 0).Month
        1 0 0 0 0)^[i + 1] x).ns = q at h ⊢
      simp only [nsPerDay, nsPerSecond] at *
      have : (i : Int) ≤ 11 := by omega
      omega
/-! ### Every field of a parsed schedule has a value of its domain -/

theorem Res.bind_eq_ok {ε α β : Type} (x : Res ε α) (f : α → Res ε β) (v : β)
    (h : x.bind f = .ok v) : ∃ a, x = .ok a ∧ f a = .ok v := by
  cases x with
  | ok a => exact ⟨a, rfl, h⟩
  | err e => simp [Res.bind] at h
  | panic => simp [Res.bind] at h
  | hang => simp [Res.bind] at h

theorem Split_ne_nil (sep : Char) (s : List Char) : Split sep s ≠ [] := by
  cases s with
  | nil => simp [Split]
  | cons c cs =>
    simp only [Split]
    split
    · simp
    · split <;> simp

/-- A term that `getRange` accepts sets the bit of its start value, which lies in the domain. -/
theorem getRange_has_bit (r : bounds) (hr : r.max < 63) (expr : List Char) (bits : Nat)
    (h : getRange expr r = .ok bits) :
    ∃ b, r.min ≤ b ∧ b ≤ r.max ∧ bits.testBit b = true := by
  simp only [getRange] at h
  obtain ⟨⟨start, end1, extra⟩, _, h⟩ := Res.bind_eq_ok _ _ _ h
  obtain ⟨⟨step, end2⟩, hS, h⟩ := Res.bind_eq_ok _ _ _ h
  have hwrap : step < 2 ^ 63 := by
    split at hS
    · injection hS with hS
      injection hS with hS _
      omega
    · obtain ⟨st, hst, hS⟩ := Res.bind_eq_ok _ _ _ hS
      injection hS with hS
      injection hS with hS _
      subst hS
      exact mustParseInt_lt _ _ hst
    · simp at hS
  simp only at h
  split at h
  · simp at h
  split at h
  · simp at h
  split at h
  · simp at h
  split at h
  · simp at h
  rename_i h1 h2 h3 h4
  obtain ⟨b, hb, hspec⟩ := getBits_spec start end2 step (by omega) (by omega) (by omega) hwrap
  rw [hb] at h
  simp only [Res.bind] at h
  injection h with h
  subst h
  refine ⟨start, by omega, by omega, ?_⟩
  rw [Nat.testBit_or, (hspec start).mpr ⟨0, by simp, by omega⟩]
  rfl

/-- The loop of `getField` keeps the bits it has and adds those of each term. -/
theorem getFieldLoop_has_bit (r : bounds) (hr : r.max < 63) (l : List (List Char))
    (acc bits : Nat) (h : getFieldLoop r l acc = .ok bits) :
    (∀ j, acc.testBit j = true → bits.testBit j = true) ∧
    (l ≠ [] → ∃ b, r.min ≤ b ∧ b ≤ r.max ∧ bits.testBit b = true) := by
  induction l generalizing acc with
  | nil =>
    simp only [getFieldLoop] at h
    injection h with h
    subst h
    exact ⟨fun _ hj => hj, fun hne => absurd rfl hne⟩
  | cons e rest ih =>
    simp only [getFieldLoop] at h
    obtain ⟨bit, hbit, h⟩ := Res.bind_eq_ok _ _ _ h
    obtain ⟨hk, _⟩ := ih _ h
    refine ⟨fun j hj => hk j (by rw [Nat.testBit_or, hj]; rfl), fun _ => ?_⟩
    obtain ⟨b, h1, h2, h3⟩ := getRange_has_bit r hr e bit hbit
    exact ⟨b, h1, h2, hk b (by rw [Nat.testBit_or, h3]; simp)⟩

/-- A field that `getField` accepts has a value of its domain, in the form `Next` tests. -/
theorem getField_has_bit (r : bounds) (hr : r.max < 63) (field : List Char) (bits : Nat)
    (h : getField field r = .ok bits) :
    ∃ b : Int, (r.min : Int) ≤ b ∧ b ≤ r.max ∧ oneShl b &&& bits ≠ 0 := by
  obtain ⟨b, h1, h2, h3⟩ :=
    (getFieldLoop_has_bit r hr _ 0 bits h).2 (Split_ne_nil ',' field)
  refine ⟨(b : Int), by omega, by omega, ?_⟩
  have := (oneShl_land_pos (b : Int) bits (by omega) (by omega)).mpr (by simpa using h3)
  omega

/-- Every field of a schedule that `NewCron` returns has a value of its domain. -/
theorem NewCron_has_values (expr : String) (c : Cron) (h : NewCron expr = .ok c) :
    (∃ b : Int, 0 ≤ b ∧ b ≤ 59 ∧ oneShl b &&& c.Second ≠ 0) ∧
    (∃ b : Int, 0 ≤ b ∧ b ≤ 59 ∧ oneShl b &&& c.Minute ≠ 0) ∧
    (∃ b : Int, 0 ≤ b ∧ b ≤ 23 ∧ oneShl b &&& c.Hour ≠ 0) ∧
    (∃ b : Int, 1 ≤ b ∧ b ≤ 31 ∧ oneShl b &&& c.Dom ≠ 0) ∧
    (∃ b : Int, 1 ≤ b ∧ b ≤ 12 ∧ oneShl b &&& c.Month ≠ 0) ∧
    (∃ b : Int, 0 ≤ b ∧ b ≤ 6 ∧ oneShl b &&& c.Dow ≠ 0) := by
  simp only [NewCron] at h
  split at h
  · simp at h
  split at h
  · obtain ⟨b0, e0, h⟩ := Res.bind_eq_ok _ _ _ h
    obtain ⟨b1, e1, h⟩ := Res.bind_eq_ok _ _ _ h
    obtain ⟨b2, e2, h⟩ := Res.bind_eq_ok _ _ _ h
    obtain ⟨b3, e3, h⟩ := Res.bind_eq_ok _ _ _ h
    obtain ⟨b4, e4, h⟩ := Res.bind_eq_ok _ _ _ h
    obtain ⟨b5, e5, h⟩ := Res.bind_eq_ok _ _ _ h
    injection h with h
    subst h
    exact ⟨getField_has_bit seconds (by decide) _ _ e0,
      getField_has_bit minutes (by decide) _ _ e1,
      getField_has_bit hours (by decide) _ _ e2,
      getField_has_bit daysOfMonth (by decide) _ _ e3,
      getField_has_bit months (by decide) _ _ e4,
      getField_has_bit daysOfWeek (by decide) _ _ e5⟩
  · simp at h
/-! ### The five-year cap of `Next` is at least 1825 days away -/

theorem daysBefore_leap_diff (l k : Bool) (m : Int) (h1 : 1 ≤ m) (h12 : m ≤ 12) :
    daysBefore k m ≤ daysBefore l m + (if k = true then 1 else 0) := by
  have hm : m = 1 ∨ m = 2 ∨ m = 3 ∨ m = 4 ∨ m = 5 ∨ m = 6 ∨ m = 7 ∨ m = 8 ∨ m = 9 ∨ m = 10 ∨
      m = 11 ∨ m = 12 := by omega
  rcases hm with h | h | h | h | h | h | h | h | h | h | h | h <;> subst h <;>
    cases l <;> cases k <;> simp [daysBefore]

theorem daysSinceEpoch_add_four (y : Int) :
    daysSinceEpoch y + 1460 ≤ daysSinceEpoch (y + 4) := by
  simp only [daysSinceEpoch]
  omega

/-- The instant `t.AddDate(5, 0, 0)` is at least 1825 days after `t`. -/
theorem addFiveYears_ge (t : Time) : t.ns + 1825 * nsPerDay ≤ (t.AddDate 5 0 0).ns := by
  have hr := t.month_range
  have hns : (t.AddDate 5 0 0).ns =
      ((daysSinceEpoch (t.Year + 5) + daysBefore (isLeap (t.Year + 5)) t.Month + (t.Day - 1))
        * 86400 + t.Hour * 3600 + t.Minute * 60 + t.Second) * nsPerSecond + t.Nanosecond := by
    simp only [Time.AddDate, add_zero]
    exact Date_ns _ _ _ _ _ _ _ hr.1 hr.2
  have he := t.ns_eq
  have ha := t.absDays_eq
  have h1 := daysSinceEpoch_succ t.Year
  have h4 := daysSinceEpoch_add_four (t.Year + 1)
  have e5 : t.Year + 1 + 4 = t.Year + 5 := by ring
  rw [e5] at h4
  have hd := daysBefore_leap_diff (isLeap (t.Year + 5)) (isLeap t.Year) t.Month hr.1 hr.2
  rw [hns, ← he]
  generalize daysSinceEpoch (t.Year + 5) = p5 at *
  generalize daysSinceEpoch (t.Year + 1) = p1 at *
  generalize daysSinceEpoch t.Year = p0 at *
  generalize daysBefore (isLeap (t.Year + 5)) t.Month = u5 at *
  generalize daysBefore (isLeap t.Year) t.Month = u0 at *
  generalize t.absDays = a at *
  generalize t.Hour = hh at *
  generalize t.Minute = mi at *
  generalize t.Second = ss at *
  generalize t.Nanosecond = nn at *
  generalize t.Day = dd at *
  simp only [nsPerDay, nsPerSecond]
  split at h1 <;> split at hd <;> first | omega | contradiction
/-! ### `Next` returns, and not the cap, for a schedule with a value in every field -/

/-- For a schedule with a value of its domain in every field, `Next(a)` returns with any fuel
from 1101 on, and what it returns is not the zero time of the five-year cap but the time `r`
the five loops end at: `r` is after `a`, less than 1474 days after it, and less than a day
after a time `d` whose day matches the schedule (the exit of the day loop). -/
theorem Cron.Next_path (s : Cron)
    (hv : (∃ b : Int, 0 ≤ b ∧ b ≤ 59 ∧ oneShl b &&& s.Second ≠ 0) ∧
      (∃ b : Int, 0 ≤ b ∧ b ≤ 59 ∧ oneShl b &&& s.Minute ≠ 0) ∧
      (∃ b : Int, 0 ≤ b ∧ b ≤ 23 ∧ oneShl b &&& s.Hour ≠ 0) ∧
      (∃ b : Int, 1 ≤ b ∧ b ≤ 31 ∧ oneShl b &&& s.Dom ≠ 0) ∧
      (∃ b : Int, 1 ≤ b ∧ b ≤ 12 ∧ oneShl b &&& s.Month ≠ 0) ∧
      (∃ b : Int, 0 ≤ b ∧ b ≤ 6 ∧ oneShl b &&& s.Dow ≠ 0)) (a : Time) :
    ∃ d r, (∀ n, 1101 ≤ n → s.Next n a = some r) ∧ a.ns < r.ns ∧
      r.ns < a.ns + 1474 * nsPerDay ∧ dayMatches s d = true ∧ d.ns ≤ r.ns ∧
      r.ns < d.ns + nsPerDay := by
  obtain ⟨⟨bs, hs0, hs1, hsb⟩, ⟨bm, hm0, hm1, hmb⟩, ⟨bh, hh0, hh1, hhb⟩, ⟨bd, hd0, hd1, hdb⟩,
    ⟨bM, hM0, hM1, hMb⟩, ⟨bw, hw0, hw1, hwb⟩⟩ := hv
  have hst : a.ns < ((a.Add nsPerSecond).Truncate nsPerSecond).ns ∧
      ((a.Add nsPerSecond).Truncate nsPerSecond).ns ≤ a.ns + nsPerSecond := by
    simp only [Time.Add, Time.Truncate, nsPerSecond]; omega
  have hend := addFiveYears_ge a
  obtain ⟨x1, f1, -, l1, u1⟩ := monthLoop_exit s bM ⟨hM0, hM1⟩ hMb
    ((a.Add nsPerSecond).Truncate nsPerSecond)
  obtain ⟨x2, f2, hday, l2, u2⟩ := dayLoop_exit s bd bw ⟨hd0, hd1⟩ ⟨hw0, hw1⟩ hdb hwb x1
  obtain ⟨x3, f3, -, l3, u3⟩ := hourLoop_exit s bh ⟨hh0, hh1⟩ hhb x2
  obtain ⟨x4, f4, -, l4, u4⟩ := minuteLoop_exit s bm ⟨hm0, hm1⟩ hmb x3
  obtain ⟨x5, f5, -, l5, u5⟩ := secondLoop_exit s bs ⟨hs0, hs1⟩ hsb x4
  refine ⟨x2, x5, fun n hn => ?_, ?_, ?_, hday, ?_, ?_⟩
  · have hna : ((a.Add nsPerSecond).Truncate nsPerSecond).After (a.AddDate 5 0 0) = false := by
      simp only [Time.After, decide_eq_false_iff_not, not_lt]
      simp only [nsPerDay, nsPerSecond] at *
      omega
    have hnb : x5.After (a.AddDate 5 0 0) = false := by
      simp only [Time.After, decide_eq_false_iff_not, not_lt]
      simp only [nsPerDay, nsPerHour, nsPerMinute, nsPerSecond] at *
      omega
    simp only [Cron.Next, hna, f1 n (by omega), f2 n hn, f3 n (by omega), f4 n (by omega),
      f5 n (by omega), Option.bind, hnb, Bool.false_eq_true, if_false]
  · omega
  · simp only [nsPerDay, nsPerHour, nsPerMinute, nsPerSecond] at *
    omega
  · omega
  · simp only [nsPerDay, nsPerHour, nsPerMinute, nsPerSecond] at *
    omega

/-! ### `Next` of `Next` -/

/-- Claim C15. For every `Cron` `c` that `NewCron` returns and every time `t`, `c.Next(t)`
returns a time `r` (with any fuel from 1101 on), and when `r` is not the zero time, `c.Next(r)`
returns as well, a time `r2` that is after `r`. -/
theorem Next_of_Next_later (expr : String) (c : Cron) (hc : NewCron expr = .ok c) (t : Time) :
    ∃ r, (∀ k : Nat, c.Next (1101 + k) t = some r) ∧
      (r.IsZero = false →
        ∃ r2, (∀ k : Nat, c.Next (1101 + k) r = some r2) ∧ r2.After r = true) := by
  have hv := NewCron_has_values expr c hc
  obtain ⟨_, r, hr, _⟩ := Cron.Next_path c hv t
  refine ⟨r, fun k => hr _ (by omega), fun _ => ?_⟩
  obtain ⟨_, r2, hr2, hlt, _⟩ := Cron.Next_path c hv r
  exact ⟨r2, fun k => hr2 _ (by omega), by simp only [Time.After, decide_eq_true_eq]; exact hlt⟩

/-- The theorem of claim C15 at the schedule of `"0 0 12 15 * mon"` and 2024-01-01T00:00:00Z. -/
theorem Next_of_Next_later_witness :
    NewCron "0 0 12 15 * mon" = .ok ⟨1, 1, 4096, 32768, 9223372036854783998, 2⟩ ∧
    ∃ r, (∀ k : Nat, Cron.Next (1101 + k) ⟨1, 1, 4096, 32768, 9223372036854783998, 2⟩
        (Date 2024 1 1 0 0 0 0) = some r) ∧
      (r.IsZero = false →
        ∃ r2, (∀ k : Nat, Cron.Next (1101 + k) ⟨1, 1, 4096, 32768, 9223372036854783998, 2⟩ r
          = some r2) ∧ r2.After r = true) :=
  ⟨by decide, Next_of_Next_later "0 0 12 15 * mon" _ (by decide) (Date 2024 1 1 0 0 0 0)⟩

/-- Claim C16. `NewCron("0 0 0 ? * wed")` returns a schedule; for every time `t` its `Next(t)`
returns (with any fuel from 1101 on) a time that is not the zero time; and at
2024-01-01T00:00:00Z it returns 2024-01-03T00:00:00Z. -/
theorem Next_wednesday_midnight :
    NewCron "0 0 0 ? * wed" = .ok ⟨1, 1, 1, 9223372041149743102, 9223372036854783998, 8⟩ ∧
    (∀ t : Time, ∃ r, (∀ k : Nat,
        Cron.Next (1101 + k) ⟨1, 1, 1, 9223372041149743102, 9223372036854783998, 8⟩ t = some r) ∧
      r.IsZero = false) ∧
    (∀ k : Nat, Cron.Next (1101 + k) ⟨1, 1, 1, 9223372041149743102, 9223372036854783998, 8⟩
      (Date 2024 1 1 0 0 0 0) = some (Date 2024 1 3 0 0 0 0)) := by
  have hc : NewCron "0 0 0 ? * wed" =
      .ok ⟨1, 1, 1, 9223372041149743102, 9223372036854783998, 8⟩ := by decide
  refine ⟨hc, fun t => ?_, fun k => ?_⟩
  · obtain ⟨d, r, hr, _, _, hday, hle, hlt⟩ :=
      Cron.Next_path _ (NewCron_has_values _ _ hc) t
    refine ⟨r, fun k => hr _ (by omega), ?_⟩
    -- the day loop ends on a Wednesday, and the other loops stay within a day of it
    have hstar : (9223372041149743102 &&& starBit > 0 ∨ 8 &&& starBit > 0) := by decide
    simp only [dayMatches, hstar, if_true, Bool.and_eq_true, decide_eq_true_eq] at hday
    have hw := d.weekday_range
    have h3 : d.Weekday = 3 := by
      have h := (oneShl_land_pos d.Weekday 8 hw.1 (by omega)).mp hday.2
      obtain ⟨n, hn⟩ : ∃ n : Nat, d.Weekday = (n : Int) := ⟨d.Weekday.toNat, by omega⟩
      rw [hn, Int.toNat_ofNat] at h
      have e : (8 : Nat) = 2 ^ 3 := by norm_num
      rw [e, Nat.testBit_two_pow] at h
      simp only [decide_eq_true_eq] at h
      omega
    simp only [Time.IsZero, decide_eq_false_iff_not]
    intro h0
    simp only [Time.Weekday, Time.absDays, nsPerDay, nsPerSecond] at h3 hle hlt
    omega
  · exact Cron.Next_fuel 64 (1101 + k) (by omega) _ _ _ (by decide)

/-! ### The execution wrapper: a runner that panics -/

/-- Claim C21. For every job with a runner that panics (with a value, shown as `shown`) after
a successful store insert, whatever the store answers to the update: `runJobWithRecover` makes
exactly two store calls, first the insert of the record in state RUNNING with the new id, then
one update of the record with the same id, in state FAIL, with the log `"作业宕机，" ++ shown ++
"。"`, which is not empty; the record the wrapper ends with is the one sent by the update; and
no panic is under way when the wrapper is left. -/
theorem runner_panic_one_fail_record (job : Job) (env : ExecEnv) (rn : Runner) (shown : String)
    (hr : job.Runner = some rn) (hi : env.insertErr = none)
    (hp : env.runner = RunnerOutcome.panics shown) :
    ∃ r0 r1, (runJobWithRecover job env).calls = [StoreCall.insert r0, StoreCall.update r1] ∧
      r0.id = env.id ∧ r0.executeState = runningJobExecuteState ∧
      r1.id = r0.id ∧ r1.executeState = failJobExecuteState ∧
      r1.log = "作业宕机，" ++ shown ++ "。" ∧ r1.log ≠ "" ∧
      (runJobWithRecover job env).result = r1 ∧
      (runJobWithRecover job env).panicking = none := by
  have hlog : ("" : String) ++ ("作业宕机，" ++ shown ++ "。") = "作业宕机，" ++ shown ++ "。" := by
    simp
  have hne : "作业宕机，" ++ shown ++ "。" ≠ "" := by
    intro h
    have hl := congrArg String.length h
    simp only [String.length_append] at hl
    have h5 : ("作业宕机，" : String).length = 5 := by decide
    have h0 : ("" : String).length = 0 := by decide
    omega
  refine ⟨(NewJobResult job env.id).atStart env.tStart,
    ((NewJobResult job env.id).atStart env.tStart).atEnd false ("作业宕机，" ++ shown ++ "。")
      env.tRecover, ?_, rfl, rfl, rfl, rfl, rfl, hne, ?_, ?_⟩
  · simp only [runJobWithRecover, runBody, runDeferred, hi, hr, hp, hlog, List.singleton_append]
  · simp only [runJobWithRecover, runBody, runDeferred, hi, hr, hp, hlog]
  · simp only [runJobWithRecover, runBody, runDeferred, hi, hr, hp]

/-- The theorem of claim C21 at a job whose runner panics with `"boom"`. -/
theorem runner_panic_one_fail_record_witness :
    ∃ r0 r1, (runJobWithRecover
        { toJobCore := ⟨"a", "first", "* * * * * *", "WeiXinArticle", ""⟩,
          CreateTime := Time.zero, UpdateTime := Time.zero, Deleted := false, Opened := true,
          Runner := some Runner.weixinCrawl, Cron := none, Next := Time.zero }
        { id := "r", tStart := ⟨1⟩, tEnd := ⟨2⟩, tRecover := ⟨3⟩, insertErr := none,
          updateErr := none, recoverUpdateErr := none,
          runner := RunnerOutcome.panics "boom" }).calls
        = [StoreCall.insert r0, StoreCall.update r1] ∧
      r0.id = "r" ∧ r0.executeState = runningJobExecuteState ∧
      r1.id = r0.id ∧ r1.executeState = failJobExecuteState ∧
      r1.log = "作业宕机，" ++ "boom" ++ "。" ∧ r1.log ≠ "" ∧
      (runJobWithRecover
        { toJobCore := ⟨"a", "first", "* * * * * *", "WeiXinArticle", ""⟩,
          CreateTime := Time.zero, UpdateTime := Time.zero, Deleted := false, Opened := true,
          Runner := some Runner.weixinCrawl, Cron := none, Next := Time.zero }
        { id := "r", tStart := ⟨1⟩, tEnd := ⟨2⟩, tRecover := ⟨3⟩, insertErr := none,
          updateErr := none, recoverUpdateErr := none,
          runner := RunnerOutcome.panics "boom" }).result = r1 ∧
      (runJobWithRecover
        { toJobCore := ⟨"a", "first", "* * * * * *", "WeiXinArticle", ""⟩,
          CreateTime := Time.zero, UpdateTime := Time.zero, Deleted := false, Opened := true,
          Runner := some Runner.weixinCrawl, Cron := none, Next := Time.zero }
        { id := "r", tStart := ⟨1⟩, tEnd := ⟨2⟩, tRecover := ⟨3⟩, insertErr := none,
          updateErr := none, recoverUpdateErr := none,
          runner := RunnerOutcome.panics "boom" }).panicking = none :=
  runner_panic_one_fail_record _ _ Runner.weixinCrawl "boom" rfl rfl rfl

/-! ### The order of the job list -/

theorem JobsByTime.Less_iff_key (a b : Job) :
    JobsByTime.Less a b = true ↔ JobsByTime.key a < JobsByTime.key b := by
  simp only [JobsByTime.Less, JobsByTime.key, Time.IsZero, Time.Before]
  by_cases ha : a.Next.ns = 0
  · simp [ha]
  · by_cases hb : b.Next.ns = 0
    · simp [ha, hb, WithTop.coe_lt_top]
    · simp [ha, hb, WithTop.coe_lt_coe]

theorem JobsByTime.Less_false_iff_key (a b : Job) :
    JobsByTime.Less a b = false ↔ JobsByTime.key b ≤ JobsByTime.key a := by
  rw [← not_lt, ← JobsByTime.Less_iff_key]
  simp

/-- Claim C22. `JobsByTime.Less(a, b)` holds exactly when `key(a) < key(b)`, where the key of a
job is its `Next`, and `+∞` when `Next` is the zero time. So `Less` is a strict weak ordering:
irreflexive, transitive, and with a transitive incomparability. And a list that is sorted by it
(no later element is `Less` than an earlier one, as `sort.Sort` leaves the list) is a list of
jobs with non-zero `Next`, in non-decreasing order of `Next`, followed by a list of jobs whose
`Next` is the zero time. -/
theorem JobsByTime.Less_spec :
    (∀ a b : Job, JobsByTime.Less a b = true ↔ JobsByTime.key a < JobsByTime.key b) ∧
    (∀ a : Job, JobsByTime.Less a a = false) ∧
    (∀ a b c : Job, JobsByTime.Less a b = true → JobsByTime.Less b c = true →
      JobsByTime.Less a c = true) ∧
    (∀ a b c : Job, JobsByTime.Less a b = false ∧ JobsByTime.Less b a = false →
      JobsByTime.Less b c = false ∧ JobsByTime.Less c b = false →
      JobsByTime.Less a c = false ∧ JobsByTime.Less c a = false) ∧
    (∀ jobs sorted : List Job, SortedByTime jobs sorted →
      ∃ front back, sorted = front ++ back ∧
        (∀ j ∈ front, j.Next.IsZero = false) ∧
        front.Pairwise (fun a b => a.Next.ns ≤ b.Next.ns) ∧
        (∀ j ∈ back, j.Next.IsZero = true)) := by
  refine ⟨JobsByTime.Less_iff_key, fun a => ?_, fun a b c hab hbc => ?_, fun a b c hab hbc => ?_,
    fun jobs sorted hs => ?_⟩
  · rw [JobsByTime.Less_false_iff_key]
  · simp only [JobsByTime.Less_iff_key] at *
    exact lt_trans hab hbc
  · simp only [JobsByTime.Less_false_iff_key] at *
    exact ⟨le_trans hbc.1 hab.1, le_trans hab.2 hbc.2⟩
  · obtain ⟨-, hp⟩ := hs
    clear jobs
    induction sorted with
    | nil => exact ⟨[], [], rfl, by simp, List.Pairwise.nil, by simp⟩
    | cons a rest ih =>
      rw [List.pairwise_cons] at hp
      obtain ⟨front, back, hrest, hf, hpw, hb⟩ := ih hp.2
      by_cases ha : a.Next.ns = 0
      · refine ⟨[], a :: rest, rfl, by simp, List.Pairwise.nil, fun j hj => ?_⟩
        rw [List.mem_cons] at hj
        rcases hj with rfl | hj
        · simp [Time.IsZero, ha]
        · have h := hp.1 j hj
          simp only [JobsByTime.Less, Time.IsZero, ha, decide_True, if_true] at h
          by_cases hj0 : j.Next.ns = 0
          · simp [Time.IsZero, hj0]
          · simp [hj0] at h
      · refine ⟨a :: front, back, by rw [hrest]; rfl, fun j hj => ?_, ?_, hb⟩
        · rw [List.mem_cons] at hj
          rcases hj with rfl | hj
          · simp [Time.IsZero, ha]
          · exact hf j hj
        · rw [List.pairwise_cons]
          refine ⟨fun j hj => ?_, hpw⟩
          have h := hp.1 j (by rw [hrest]; exact List.mem_append_left _ hj)
          have hj0 := hf j hj
          simp only [Time.IsZero, decide_eq_false_iff_not] at hj0
          simp only [JobsByTime.Less, Time.IsZero, Time.Before, ha, hj0, decide_False,
            Bool.false_eq_true, if_false, decide_eq_false_iff_not, not_lt] at h
          exact h

/-- The theorem of claim C22 at a sorted list of three jobs with `Next` 5 ns, 7 ns and the zero
time. -/
theorem JobsByTime.Less_spec_witness :
    SortedByTime
      [{ toJobCore := ⟨"a", "", "", "", ""⟩, CreateTime := Time.zero, UpdateTime := Time.zero,
          Deleted := false, Opened := true, Runner := none, Cron := none, Next := ⟨5⟩ },
        { toJobCore := ⟨"b", "", "", "", ""⟩, CreateTime := Time.zero, UpdateTime := Time.zero,
          Deleted := false, Opened := true, Runner := none, Cron := none, Next := ⟨7⟩ },
        { toJobCore := ⟨"c", "", "", "", ""⟩, CreateTime := Time.zero, UpdateTime := Time.zero,
          Deleted := false, Opened := false, Runner := none, Cron := none, Next := Time.zero }]
      [{ toJobCore := ⟨"a", "", "", "", ""⟩, CreateTime := Time.zero, UpdateTime := Time.zero,
          Deleted := false, Opened := true, Runner := none, Cron := none, Next := ⟨5⟩ },
        { toJobCore := ⟨"b", "", "", "", ""⟩, CreateTime := Time.zero, UpdateTime := Time.zero,
          Deleted := false, Opened := true, Runner := none, Cron := none, Next := ⟨7⟩ },
        { toJobCore := ⟨"c", "", "", "", ""⟩, CreateTime := Time.zero, UpdateTime := Time.zero,
          Deleted := false, Opened := false, Runner := none, Cron := none, Next := Time.zero }] ∧
    ∃ front back : List Job,
      [{ toJobCore := ⟨"a", "", "", "", ""⟩, CreateTime := Time.zero, UpdateTime := Time.zero,
          Deleted := false, Opened := true, Runner := none, Cron := none, Next := ⟨5⟩ },
        { toJobCore := ⟨"b", "", "", "", ""⟩, CreateTime := Time.zero, UpdateTime := Time.zero,
          Deleted := false, Opened := true, Runner := none, Cron := none, Next := ⟨7⟩ },
        { toJobCore := ⟨"c", "", "", "", ""⟩, CreateTime := Time.zero, UpdateTime := Time.zero,
          Deleted := false, Opened := false, Runner := none, Cron := none, Next := Time.zero }]
        = front ++ back ∧
      (∀ j ∈ front, j.Next.IsZero = false) ∧
      front.Pairwise (fun a b => a.Next.ns ≤ b.Next.ns) ∧
      (∀ j ∈ back, j.Next.IsZero = true) :=
  ⟨⟨List.Perm.refl _, by decide⟩,
    JobsByTime.Less_spec.2.2.2.2 _ _ ⟨List.Perm.refl _, by decide⟩⟩

/-! ### Parsing returns a schedule or an error -/

theorem Res.bind_value {ε α β : Type} (x : Res ε α) (f : α → Res ε β)
    (hx : (∃ a, x = .ok a) ∨ (∃ e, x = .err e))
    (hf : ∀ a, x = .ok a → (∃ b, f a = .ok b) ∨ (∃ e, f a = .err e)) :
    (∃ b, x.bind f = .ok b) ∨ (∃ e, x.bind f = .err e) := by
  rcases hx with ⟨a, rfl⟩ | ⟨e, rfl⟩
  · exact hf a rfl
  · exact Or.inr ⟨e, rfl⟩

theorem mustParseInt_value (expr : List Char) :
    (∃ v, mustParseInt expr = .ok v) ∨ (∃ e, mustParseInt expr = .err e) := by
  simp only [mustParseInt]
  split
  · exact Or.inr ⟨_, rfl⟩
  · split
    · exact Or.inr ⟨_, rfl⟩
    · exact Or.inl ⟨_, rfl⟩

theorem parseIntOrName_value (expr : List Char) (names : Option (List (List Char × Nat))) :
    (∃ v, parseIntOrName expr names = .ok v) ∨ (∃ e, parseIntOrName expr names = .err e) := by
  simp only [parseIntOrName]
  split
  · split
    · exact Or.inl ⟨_, rfl⟩
    · exact mustParseInt_value expr
  · exact mustParseInt_value expr

theorem Res.bind_congr {ε α β : Type} (x : Res ε α) (f g : α → Res ε β)
    (h : ∀ a, f a = g a) : x.bind f = x.bind g := by
  cases x <;> simp [Res.bind, h]

theorem Res.bind_assoc {ε α β γ : Type} (x : Res ε α) (f : α → Res ε β) (g : β → Res ε γ) :
    (x.bind f).bind g = x.bind fun a => (f a).bind g := by
  cases x <;> rfl

/-- The function `getRange` is `getRangeCall` followed by the call of `getBits`. -/
theorem getRange_eq_call (expr : List Char) (r : bounds) :
    getRange expr r = (getRangeCall expr r).bind fun c =>
      (getBits c.1 c.2.1 c.2.2.1).bind fun b => .ok (b ||| c.2.2.2) := by
  simp only [getRange, getRangeCall, Res.bind_assoc]
  refine Res.bind_congr _ _ _ fun a => ?_
  refine Res.bind_congr _ _ _ fun b => ?_
  split
  · rfl
  split
  · rfl
  split
  · rfl
  split
  · rfl
  rfl

/-- What `getRangeCall` returns has passed the four checks, and the step is below `2^63`. -/
theorem getRangeCall_checks (expr : List Char) (r : bounds) (mn mx st extra : Nat)
    (h : getRangeCall expr r = .ok (mn, mx, st, extra)) :
    r.min ≤ mn ∧ mn ≤ mx ∧ mx ≤ r.max ∧ 1 ≤ st ∧ st < 2 ^ 63 := by
  simp only [getRangeCall] at h
  obtain ⟨⟨start, end1, ex⟩, -, h⟩ := Res.bind_eq_ok _ _ _ h
  obtain ⟨⟨step, end2⟩, hS, h⟩ := Res.bind_eq_ok _ _ _ h
  have hwrap : step < 2 ^ 63 := by
    split at hS
    · injection hS with hS
      injection hS with hS _
      omega
    · obtain ⟨v, hv, hS⟩ := Res.bind_eq_ok _ _ _ hS
      injection hS with hS
      injection hS with hS _
      subst hS
      exact mustParseInt_lt _ _ hv
    · simp at hS
  simp only at h
  split at h
  · simp at h
  split at h
  · simp at h
  split at h
  · simp at h
  split at h
  · simp at h
  rename_i h1 h2 h3 h4
  simp only [Res.ok.injEq, Prod.mk.injEq] at h
  obtain ⟨e1, e2, e3, e4⟩ := h
  subst e1 e2 e3 e4
  exact ⟨by omega, by omega, by omega, by omega, hwrap⟩

/-- The steps of `getRange` before the call of `getBits` return its arguments or an error. -/
theorem getRangeCall_value (expr : List Char) (r : bounds) :
    (∃ c, getRangeCall expr r = .ok c) ∨ (∃ e, getRangeCall expr r = .err e) := by
  simp only [getRangeCall]
  refine Res.bind_value _ _ ?_ ?_
  · split
    · exact Or.inl ⟨_, rfl⟩
    · refine Res.bind_value _ _ (parseIntOrName_value _ _) fun start _ => ?_
      split
      · exact Or.inl ⟨_, rfl⟩
      · exact Res.bind_value _ _ (parseIntOrName_value _ _) fun e _ => Or.inl ⟨_, rfl⟩
      · exact Or.inr ⟨_, rfl⟩
  · rintro ⟨start, end1, extra⟩ -
    refine Res.bind_value _ _ ?_ ?_
    · split
      · exact Or.inl ⟨_, rfl⟩
      · exact Res.bind_value _ _ (mustParseInt_value _) fun e _ => Or.inl ⟨_, rfl⟩
      · exact Or.inr ⟨_, rfl⟩
    · rintro ⟨step, end2⟩ -
      simp only
      split
      · exact Or.inr ⟨_, rfl⟩
      split
      · exact Or.inr ⟨_, rfl⟩
      split
      · exact Or.inr ⟨_, rfl⟩
      split
      · exact Or.inr ⟨_, rfl⟩
      exact Or.inl ⟨_, rfl⟩

/-- In a domain with maximum below 63, `getRange` returns bits or an error: it does not reach
the panic of `getBits`, and the loop of `getBits` ends. -/
theorem getRange_value (r : bounds) (hr : r.max < 63) (expr : List Char) :
    (∃ bits, getRange expr r = .ok bits) ∨ (∃ e, getRange expr r = .err e) := by
  rw [getRange_eq_call]
  refine Res.bind_value _ _ (getRangeCall_value expr r) ?_
  rintro ⟨mn, mx, st, extra⟩ hc
  obtain ⟨-, h2, h3, h4, h5⟩ := getRangeCall_checks expr r mn mx st extra hc
  obtain ⟨b, hb, -⟩ := getBits_spec mn mx st h2 (by omega) h4 h5
  simp only [hb]
  exact Or.inl ⟨_, rfl⟩

theorem getFieldLoop_value (r : bounds) (hr : r.max < 63) (l : List (List Char)) (acc : Nat) :
    (∃ bits, getFieldLoop r l acc = .ok bits) ∨ (∃ e, getFieldLoop r l acc = .err e) := by
  induction l generalizing acc with
  | nil => exact Or.inl ⟨_, rfl⟩
  | cons e rest ih =>
    simp only [getFieldLoop]
    exact Res.bind_value _ _ (getRange_value r hr e) fun bit _ => ih _

theorem getField_value (r : bounds) (hr : r.max < 63) (field : List Char) :
    (∃ bits, getField field r = .ok bits) ∨ (∃ e, getField field r = .err e) :=
  getFieldLoop_value r hr _ 0

theorem NewCron_value (cron : String) :
    (∃ c, NewCron cron = .ok c) ∨ (∃ e, NewCron cron = .err e) := by
  simp only [NewCron]
  split
  · exact Or.inr ⟨_, rfl⟩
  split
  · refine Res.bind_value _ _ (getField_value seconds (by decide) _) fun _ _ => ?_
    refine Res.bind_value _ _ (getField_value minutes (by decide) _) fun _ _ => ?_
    refine Res.bind_value _ _ (getField_value hours (by decide) _) fun _ _ => ?_
    refine Res.bind_value _ _ (getField_value daysOfMonth (by decide) _) fun _ _ => ?_
    refine Res.bind_value _ _ (getField_value months (by decide) _) fun _ _ => ?_
    refine Res.bind_value _ _ (getField_value daysOfWeek (by decide) _) fun _ _ => ?_
    exact Or.inl ⟨_, rfl⟩
  · exact Or.inr ⟨_, rfl⟩

/-- Claim C23. `getBits` panics exactly when its `max` is above 63. In each of the six field
domains and for every term, `getRange` is the steps of `getRangeCall` followed by its one call
of `getBits`; these steps return an error or the arguments of the call, and then the `max` of
the call is at most the domain maximum, so at most 63, and the call returns bits. So for every
input string `NewCron` returns a `Cron` or an error, never the panic. -/
theorem NewCron_never_panics :
    (∀ min max step : Nat, getBits min max step = .panic ↔ max > 63) ∧
    (∀ r ∈ [seconds, minutes, hours, daysOfMonth, months, daysOfWeek], ∀ expr : List Char,
      (getRange expr r = (getRangeCall expr r).bind fun c =>
        (getBits c.1 c.2.1 c.2.2.1).bind fun b => .ok (b ||| c.2.2.2)) ∧
      ((∃ c, getRangeCall expr r = .ok c) ∨ (∃ e, getRangeCall expr r = .err e)) ∧
      (∀ mn mx st extra : Nat, getRangeCall expr r = .ok (mn, mx, st, extra) →
        mx ≤ r.max ∧ mx ≤ 63 ∧ ∃ bits, getBits mn mx st = .ok bits)) ∧
    (∀ cron : String, (∃ c, NewCron cron = .ok c) ∨ (∃ e, NewCron cron = .err e)) ∧
    (∀ cron : String, NewCron cron ≠ .panic) := by
  refine ⟨fun min max step => ?_, fun r hr expr => ?_, NewCron_value, fun cron h => ?_⟩
  · simp only [getBits]
    split
    · simp [*]
    · split
      · simp [*]
      · split <;> simp [*]
  · have hmax := domain_max_lt r hr
    refine ⟨getRange_eq_call expr r, getRangeCall_value expr r, fun mn mx st extra h => ?_⟩
    obtain ⟨-, h2, h3, h4, h5⟩ := getRangeCall_checks expr r mn mx st extra h
    obtain ⟨b, hb, -⟩ := getBits_spec mn mx st h2 (by omega) h4 h5
    exact ⟨h3, by omega, b, hb⟩
  · rcases NewCron_value cron with ⟨c, hc⟩ | ⟨e, he⟩
    · rw [hc] at h; cases h
    · rw [he] at h; cases h

/-- The theorem of claim C23 at the term `"1-5/2"` of the hour field and at a string with a
second out of range. -/
theorem NewCron_never_panics_witness :
    (getRangeCall "1-5/2".toList hours = .ok (1, 5, 2, 0) ∧
      5 ≤ hours.max ∧ 5 ≤ 63 ∧ ∃ bits, getBits 1 5 2 = .ok bits) ∧
    ((∃ c, NewCron "61 * * * * *" = .ok c) ∨ (∃ e, NewCron "61 * * * * *" = .err e)) :=
  ⟨⟨by decide, (NewCron_never_panics.2.1 hours (by decide) "1-5/2".toList).2.2 1 5 2 0
      (by decide)⟩,
    NewCron_never_panics.2.2.1 "61 * * * * *"⟩

/-! ### `Next` terminates -/

/-- Claim C24. For every `Cron` `c` that `NewCron` returns: each of its six fields has a value
bit inside its domain; every pair of a day of the month in 1..31 and a weekday in 0..6 comes
again within 1100 days after any day; so from every time each of the five loops of `Next`
returns (the fuel is the number of times the loop condition is tested: 13, 1101, 24, 60 and 60
are enough), and `c.Next(t)` returns for every time `t`. -/
theorem Next_terminates (expr : String) (c : Cron) (hc : NewCron expr = .ok c) :
    ((∃ b : Int, 0 ≤ b ∧ b ≤ 59 ∧ oneShl b &&& c.Second ≠ 0) ∧
      (∃ b : Int, 0 ≤ b ∧ b ≤ 59 ∧ oneShl b &&& c.Minute ≠ 0) ∧
      (∃ b : Int, 0 ≤ b ∧ b ≤ 23 ∧ oneShl b &&& c.Hour ≠ 0) ∧
      (∃ b : Int, 1 ≤ b ∧ b ≤ 31 ∧ oneShl b &&& c.Dom ≠ 0) ∧
      (∃ b : Int, 1 ≤ b ∧ b ≤ 12 ∧ oneShl b &&& c.Month ≠ 0) ∧
      (∃ b : Int, 0 ≤ b ∧ b ≤ 6 ∧ oneShl b &&& c.Dow ≠ 0)) ∧
    (∀ n d w : Int, 1 ≤ d ∧ d ≤ 31 → 0 ≤ w ∧ w ≤ 6 →
      ∃ j : Nat, 1 ≤ j ∧ j ≤ 1100 ∧ ∀ t : Time, t.absDays = n + j → t.Day = d ∧ t.Weekday = w) ∧
    (∀ x : Time, ∃ r, (∀ k : Nat, monthLoop (13 + k) c x = some r) ∧
      oneShl r.Month &&& c.Month ≠ 0) ∧
    (∀ x : Time, ∃ r, (∀ k : Nat, dayLoop (1101 + k) c x = some r) ∧ dayMatches c r = true) ∧
    (∀ x : Time, ∃ r, (∀ k : Nat, hourLoop (24 + k) c x = some r) ∧
      oneShl r.Hour &&& c.Hour ≠ 0) ∧
    (∀ x : Time, ∃ r, (∀ k : Nat, minuteLoop (60 + k) c x = some r) ∧
      oneShl r.Minute &&& c.Minute ≠ 0) ∧
    (∀ x : Time, ∃ r, (∀ k : Nat, secondLoop (60 + k) c x = some r) ∧
      oneShl r.Second &&& c.Second ≠ 0) ∧
    (∀ t : Time, ∃ r, ∀ k : Nat, c.Next (1101 + k) t = some r) := by
  have hv := NewCron_has_values expr c hc
  refine ⟨hv, fun n d w hd hw => day_recurs n d w hd hw, fun x => ?_, fun x => ?_, fun x => ?_,
    fun x => ?_, fun x => ?_, fun t => ?_⟩
  · obtain ⟨-, -, -, -, ⟨b, h0, h1, hb⟩, -⟩ := hv
    obtain ⟨r, hr, hbit, -⟩ := monthLoop_exit c b ⟨h0, h1⟩ hb x
    exact ⟨r, fun k => hr _ (by omega), hbit⟩
  · obtain ⟨-, -, -, ⟨d, hd0, hd1, hd⟩, -, ⟨w, hw0, hw1, hw⟩⟩ := hv
    obtain ⟨r, hr, hm, -⟩ := dayLoop_exit c d w ⟨hd0, hd1⟩ ⟨hw0, hw1⟩ hd hw x
    exact ⟨r, fun k => hr _ (by omega), hm⟩
  · obtain ⟨-, -, ⟨b, h0, h1, hb⟩, -⟩ := hv
    obtain ⟨r, hr, hbit, -⟩ := hourLoop_exit c b ⟨h0, h1⟩ hb x
    exact ⟨r, fun k => hr _ (by omega), hbit⟩
  · obtain ⟨-, ⟨b, h0, h1, hb⟩, -⟩ := hv
    obtain ⟨r, hr, hbit, -⟩ := minuteLoop_exit c b ⟨h0, h1⟩ hb x
    exact ⟨r, fun k => hr _ (by omega), hbit⟩
  · obtain ⟨⟨b, h0, h1, hb⟩, -⟩ := hv
    obtain ⟨r, hr, hbit, -⟩ := secondLoop_exit c b ⟨h0, h1⟩ hb x
    exact ⟨r, fun k => hr _ (by omega), hbit⟩
  · obtain ⟨-, r, hr, -⟩ := Cron.Next_path c hv t
    exact ⟨r, fun k => hr _ (by omega)⟩

/-- The theorem of claim C24 at the schedule of `"0 0 0 31 2 *"` (a day that February never
has) and 2024-01-01T00:00:00Z. -/
theorem Next_terminates_witness :
    NewCron "0 0 0 31 2 *" = .ok ⟨1, 1, 1, 2147483648, 4, 9223372036854775935⟩ ∧
    ∃ r, ∀ k : Nat, Cron.Next (1101 + k) ⟨1, 1, 1, 2147483648, 4, 9223372036854775935⟩
      (Date 2024 1 1 0 0 0 0) = some r :=
  ⟨by decide,
    (Next_terminates "0 0 0 31 2 *" _ (by decide)).2.2.2.2.2.2.2 (Date 2024 1 1 0 0 0 0)⟩

/-! ### The control loop: Open and Close -/

/-- Putting, at the index `findJobById` gives, a job with the same id: it is the one found. -/
theorem findJobById_set (jobs : List Job) (id : String) (idx : Nat) (job job2 : Job)
    (h : findJobById jobs id = some (idx, job)) (hid : job2.Id = job.Id) :
    findJobById (jobs.set idx job2) id = some (idx, job2) := by
  induction jobs generalizing idx with
  | nil => simp [findJobById] at h
  | cons j rest ih =>
    simp only [findJobById] at h
    by_cases hj : j.Id = id
    · rw [if_pos hj] at h
      simp only [Option.some.injEq, Prod.mk.injEq] at h
      obtain ⟨h0, hjob⟩ := h
      subst h0
      subst hjob
      simp only [List.set_cons_zero, findJobById]
      rw [if_pos (by rw [hid]; exact hj)]
    · rw [if_neg hj] at h
      cases hr : findJobById rest id with
      | none => simp [hr] at h
      | some p =>
        obtain ⟨i, q⟩ := p
        simp only [hr, Option.map_some', Option.some.injEq, Prod.mk.injEq] at h
        obtain ⟨h0, hjob⟩ := h
        subst h0
        subst hjob
        simp only [List.set_cons_succ, findJobById]
        rw [if_neg hj, ih i hr]
        rfl

/-- Claim C19. When `processOpenJobCMD` or `processCloseJobCMD` returns an error the job list
is the one before the call, so the job has the `Opened` and `Next` it had; and each of the
errors is returned when its cause is there: the id is not in the list, the job is already
open (Open) or already closed (Close), the store refuses the update. Open succeeds exactly
when the job is found closed, the store accepts the update and `Cron.Next(now)` returns: the
job is then left, at its index, with `Opened = true` and `Next` the result of `Cron.Next(now)`;
for a job whose `Cron` is the schedule of its rule this is so with any fuel from 1101 on. Close
succeeds exactly when the job is found open and the store accepts the update: the job is then
left with `Opened = false` and the zero time as `Next`. The store's time stamp apart, nothing
else of the list changes. -/
theorem processOpenClose_spec (fuel : Nat) (s : scheduler) (id : String) (db : Option Time)
    (now : Time) :
    (∀ e, (processOpenJobCMD fuel s id db now).2 = .err e →
      (processOpenJobCMD fuel s id db now).1.jobs = s.jobs) ∧
    (∀ e, (processCloseJobCMD s id db).2 = .err e →
      (processCloseJobCMD s id db).1.jobs = s.jobs) ∧
    ((processOpenJobCMD fuel s id db now).2 = .ok () →
      ∃ idx job t c n, findJobById s.jobs id = some (idx, job) ∧ job.Opened = false ∧
        db = some t ∧ job.Cron = some c ∧ c.Next fuel now = some n ∧
        (processOpenJobCMD fuel s id db now).1.jobs =
          s.jobs.set idx { job with Opened := true, UpdateTime := t, Next := n }) ∧
    ((processCloseJobCMD s id db).2 = .ok () →
      ∃ idx job t, findJobById s.jobs id = some (idx, job) ∧ job.Opened = true ∧
        db = some t ∧
        (processCloseJobCMD s id db).1.jobs =
          s.jobs.set idx { job with Opened := false, UpdateTime := t, Next := Time.zero }) ∧
    (∀ idx job t c n, findJobById s.jobs id = some (idx, job) → job.Opened = false →
      db = some t → job.Cron = some c → c.Next fuel now = some n →
      processOpenJobCMD fuel s id db now =
        (⟨s.running, s.jobs.set idx { job with Opened := true, UpdateTime := t, Next := n }⟩,
          .ok ()) ∧
      findJobById (processOpenJobCMD fuel s id db now).1.jobs id =
        some (idx, { job with Opened := true, UpdateTime := t, Next := n })) ∧
    (∀ idx job t c, findJobById s.jobs id = some (idx, job) → job.Opened = false →
      db = some t → job.Cron = some c → NewCron job.CronRule = .ok c →
      ∃ n, ∀ k : Nat, processOpenJobCMD (1101 + k) s id db now =
        (⟨s.running, s.jobs.set idx { job with Opened := true, UpdateTime := t, Next := n }⟩,
          .ok ())) ∧
    (∀ idx job t, findJobById s.jobs id = some (idx, job) → job.Opened = true → db = some t →
      processCloseJobCMD s id db =
        (⟨s.running,
            s.jobs.set idx { job with Opened := false, UpdateTime := t, Next := Time.zero }⟩,
          .ok ()) ∧
      findJobById (processCloseJobCMD s id db).1.jobs id =
        some (idx, { job with Opened := false, UpdateTime := t, Next := Time.zero })) ∧
    (findJobById s.jobs id = none →
      processOpenJobCMD fuel s id db now = (s, .err .notFound) ∧
      processCloseJobCMD s id db = (s, .err .notFound)) ∧
    (∀ idx job, findJobById s.jobs id = some (idx, job) → job.Opened = true →
      processOpenJobCMD fuel s id db now = (s, .err .alreadyOpened)) ∧
    (∀ idx job, findJobById s.jobs id = some (idx, job) → job.Opened = false →
      processCloseJobCMD s id db = (s, .err .alreadyClosed)) ∧
    (∀ idx job, findJobById s.jobs id = some (idx, job) → job.Opened = false → db = none →
      processOpenJobCMD fuel s id db now = (s, .err .storeUpdate)) ∧
    (∀ idx job, findJobById s.jobs id = some (idx, job) → job.Opened = true → db = none →
      processCloseJobCMD s id db = (s, .err .storeUpdate)) := by
  have hopen : ∀ (f : Nat) idx job t c n, findJobById s.jobs id = some (idx, job) →
      job.Opened = false → db = some t → job.Cron = some c → c.Next f now = some n →
      processOpenJobCMD f s id db now =
        (⟨s.running, s.jobs.set idx { job with Opened := true, UpdateTime := t, Next := n }⟩,
          .ok ()) := by
    intro f idx job t c n hf ho hdb hc hn
    simp [processOpenJobCMD, hf, ho, hdb, UpdateJob, hc, hn]
  have hclose : ∀ idx job t, findJobById s.jobs id = some (idx, job) → job.Opened = true →
      db = some t →
      processCloseJobCMD s id db =
        (⟨s.running,
            s.jobs.set idx { job with Opened := false, UpdateTime := t, Next := Time.zero }⟩,
          .ok ()) := by
    intro idx job t hf ho hdb
    simp [processCloseJobCMD, hf, ho, hdb, UpdateJob]
  refine ⟨fun e h => ?_, fun e h => ?_, fun h => ?_, fun h => ?_,
    fun idx job t c n hf ho hdb hc hn => ?_, fun idx job t c hf ho hdb hc hp => ?_,
    fun idx job t hf ho hdb => ?_, fun hf => ?_, fun idx job hf ho => ?_,
    fun idx job hf ho => ?_, fun idx job hf ho hdb => ?_, fun idx job hf ho hdb => ?_⟩
  · cases hf : findJobById s.jobs id with
    | none => simp [processOpenJobCMD, hf]
    | some p =>
      obtain ⟨idx, job⟩ := p
      by_cases ho : job.Opened = true
      · simp [processOpenJobCMD, hf, ho]
      · have ho2 : job.Opened = false := by simpa using ho
        cases hdb : db with
        | none =>
          have hj : ({ job with Opened := false } : Job) = job := by
            cases job; simp_all
          simp [processOpenJobCMD, hf, ho2, UpdateJob, hj, set_found s.jobs id idx job hf]
        | some t =>
          exfalso
          simp only [processOpenJobCMD, hf, ho2, hdb, UpdateJob, Option.map, Bool.false_eq_true,
            if_false] at h
          split at h
          · cases h
          · split at h <;> cases h
  · cases hf : findJobById s.jobs id with
    | none => simp [processCloseJobCMD, hf]
    | some p =>
      obtain ⟨idx, job⟩ := p
      by_cases ho : job.Opened = true
      · cases hdb : db with
        | none =>
          have hj : ({ job with Opened := true } : Job) = job := by
            cases job; simp_all
          simp [processCloseJobCMD, hf, ho, UpdateJob, hj, set_found s.jobs id idx job hf]
        | some t =>
          exfalso
          simp [processCloseJobCMD, hf, ho, hdb, UpdateJob] at h
      · have ho2 : job.Opened = false := by simpa using ho
        simp [processCloseJobCMD, hf, ho2]
  · cases hf : findJobById s.jobs id with
    | none => simp [processOpenJobCMD, hf] at h
    | some p =>
      obtain ⟨idx, job⟩ := p
      by_cases ho : job.Opened = true
      · simp [processOpenJobCMD, hf, ho] at h
      · have ho2 : job.Opened = false := by simpa using ho
        cases hdb : db with
        | none => simp [processOpenJobCMD, hf, ho2, hdb, UpdateJob] at h
        | some t =>
          cases hc : job.Cron with
          | none => simp [processOpenJobCMD, hf, ho2, hdb, UpdateJob, hc] at h
          | some c =>
            cases hn : c.Next fuel now with
            | none => simp [processOpenJobCMD, hf, ho2, hdb, UpdateJob, hc, hn] at h
            | some n =>
              refine ⟨idx, job, t, c, n, rfl, ho2, rfl, hc, hn, ?_⟩
              simp [processOpenJobCMD, hf, ho2, UpdateJob, hc, hn]
  · cases hf : findJobById s.jobs id with
    | none => simp [processCloseJobCMD, hf] at h
    | some p =>
      obtain ⟨idx, job⟩ := p
      by_cases ho : job.Opened = true
      · cases hdb : db with
        | none => simp [processCloseJobCMD, hf, ho, hdb, UpdateJob] at h
        | some t =>
          refine ⟨idx, job, t, rfl, ho, rfl, ?_⟩
          simp [processCloseJobCMD, hf, ho, UpdateJob]
      · have ho2 : job.Opened = false := by simpa using ho
        simp [processCloseJobCMD, hf, ho2] at h
  · rw [hopen fuel idx job t c n hf ho hdb hc hn]
    exact ⟨rfl, findJobById_set s.jobs id idx job _ hf rfl⟩
  · obtain ⟨-, n, hn, -⟩ := Cron.Next_path c (NewCron_has_values _ c hp) now
    exact ⟨n, fun k => hopen (1101 + k) idx job t c n hf ho hdb hc (hn _ (by omega))⟩
  · rw [hclose idx job t hf ho hdb]
    exact ⟨rfl, findJobById_set s.jobs id idx job _ hf rfl⟩
  · simp [processOpenJobCMD, processCloseJobCMD, hf]
  · simp [processOpenJobCMD, hf, ho]
  · simp [processCloseJobCMD, hf, ho]
  · have hj : ({ job with Opened := false } : Job) = job := by
      cases job; simp_all
    simp [processOpenJobCMD, hf, ho, hdb, UpdateJob, hj, set_found s.jobs id idx job hf]
  · have hj : ({ job with Opened := true } : Job) = job := by
      cases job; simp_all
    simp [processCloseJobCMD, hf, ho, hdb, UpdateJob, hj, set_found s.jobs id idx job hf]

/-- The theorem of claim C19 over a list of two jobs with the schedule of `"* * * * * *"`, `"a"`
open and `"b"` closed, at 2024-01-01T00:00:00Z: an Open of `"b"` that succeeds and leaves it
open with `Next` 2024-01-01T00:00:01Z, a Close of `"a"` that succeeds and leaves it closed with
the zero time as `Next`, and an Open of `"b"` whose store update fails and leaves the list as
it was. -/
theorem processOpenClose_spec_witness :
    processOpenJobCMD 4
      ⟨true, [{ toJobCore := ⟨"a", "first", "* * * * * *", "WeiXinArticle", ""⟩,
                CreateTime := Time.zero, UpdateTime := Time.zero, Deleted := false,
                Opened := true, Runner := some Runner.weixinCrawl,
                Cron := some ⟨10376293541461622783, 10376293541461622783, 9223372036871553023,
                  9223372041149743102, 9223372036854783998, 9223372036854775935⟩,
                Next := Date 2024 1 1 0 0 1 0 },
              { toJobCore := ⟨"b", "second", "* * * * * *", "WeiXinArticle", ""⟩,
                CreateTime := Time.zero, UpdateTime := Time.zero, Deleted := false,
                Opened := false, Runner := some Runner.weixinCrawl,
                Cron := some ⟨10376293541461622783, 10376293541461622783, 9223372036871553023,
                  9223372041149743102, 9223372036854783998, 9223372036854775935⟩,
                Next := Time.zero }]⟩
      "b" (some (Date 2024 1 1 0 0 0 0)) (Date 2024 1 1 0 0 0 0) =
      (⟨true, [{ toJobCore := ⟨"a", "first", "* * * * * *", "WeiXinArticle", ""⟩,
                 CreateTime := Time.zero, UpdateTime := Time.zero, Deleted := false,
                 Opened := true, Runner := some Runner.weixinCrawl,
                 Cron := some ⟨10376293541461622783, 10376293541461622783, 9223372036871553023,
                   9223372041149743102, 9223372036854783998, 9223372036854775935⟩,
                 Next := Date 2024 1 1 0 0 1 0 },
               { toJobCore := ⟨"b", "second", "* * * * * *", "WeiXinArticle", ""⟩,
                 CreateTime := Time.zero, UpdateTime := Date 2024 1 1 0 0 0 0, Deleted := false,
                 Opened := true, Runner := some Runner.weixinCrawl,
                 Cron := some ⟨10376293541461622783, 10376293541461622783, 9223372036871553023,
                   9223372041149743102, 9223372036854783998, 9223372036854775935⟩,
                 Next := Date 2024 1 1 0 0 1 0 }]⟩,
        .ok ()) ∧
    processCloseJobCMD
      ⟨true, [{ toJobCore := ⟨"a", "first", "* * * * * *", "WeiXinArticle", ""⟩,
                CreateTime := Time.zero, UpdateTime := Time.zero, Deleted := false,
                Opened := true, Runner := some Runner.weixinCrawl,
                Cron := some ⟨10376293541461622783, 10376293541461622783, 9223372036871553023,
                  9223372041149743102, 9223372036854783998, 9223372036854775935⟩,
                Next := Date 2024 1 1 0 0 1 0 },
              { toJobCore := ⟨"b", "second", "* * * * * *", "WeiXinArticle", ""⟩,
                CreateTime := Time.zero, UpdateTime := Time.zero, Deleted := false,
                Opened := false, Runner := some Runner.weixinCrawl,
                Cron := some ⟨10376293541461622783, 10376293541461622783, 9223372036871553023,
                  9223372041149743102, 9223372036854783998, 9223372036854775935⟩,
                Next := Time.zero }]⟩
      "a" (some (Date 2024 1 1 0 0 0 0)) =
      (⟨true, [{ toJobCore := ⟨"a", "first", "* * * * * *", "WeiXinArticle", ""⟩,
                 CreateTime := Time.zero, UpdateTime := Date 2024 1 1 0 0 0 0, Deleted := false,
                 Opened := false, Runner := some Runner.weixinCrawl,
                 Cron := some ⟨10376293541461622783, 10376293541461622783, 9223372036871553023,
                   9223372041149743102, 9223372036854783998, 9223372036854775935⟩,
                 Next := Time.zero },
               { toJobCore := ⟨"b", "second", "* * * * * *", "WeiXinArticle", ""⟩,
                 CreateTime := Time.zero, UpdateTime := Time.zero, Deleted := false,
                 Opened := false, Runner := some Runner.weixinCrawl,
                 Cron := some ⟨10376293541461622783, 10376293541461622783, 9223372036871553023,
                   9223372041149743102, 9223372036854783998, 9223372036854775935⟩,
                 Next := Time.zero }]⟩,
        .ok ()) ∧
    (processOpenJobCMD 4
      ⟨true, [{ toJobCore := ⟨"a", "first", "* * * * * *", "WeiXinArticle", ""⟩,
                CreateTime := Time.zero, UpdateTime := Time.zero, Deleted := false,
                Opened := true, Runner := some Runner.weixinCrawl,
                Cron := some ⟨10376293541461622783, 10376293541461622783, 9223372036871553023,
                  9223372041149743102, 9223372036854783998, 9223372036854775935⟩,
                Next := Date 2024 1 1 0 0 1 0 },
              { toJobCore := ⟨"b", "second", "* * * * * *", "WeiXinArticle", ""⟩,
                CreateTime := Time.zero, UpdateTime := Time.zero, Deleted := false,
                Opened := false, Runner := some Runner.weixinCrawl,
                Cron := some ⟨10376293541461622783, 10376293541461622783, 9223372036871553023,
                  9223372041149743102, 9223372036854783998, 9223372036854775935⟩,
                Next := Time.zero }]⟩
      "b" none (Date 2024 1 1 0 0 0 0)).1.jobs =
      [{ toJobCore := ⟨"a", "first", "* * * * * *", "WeiXinArticle", ""⟩,
         CreateTime := Time.zero, UpdateTime := Time.zero, Deleted := false,
         Opened := true, Runner := some Runner.weixinCrawl,
         Cron := some ⟨10376293541461622783, 10376293541461622783, 9223372036871553023,
           9223372041149743102, 9223372036854783998, 9223372036854775935⟩,
         Next := Date 2024 1 1 0 0 1 0 },
       { toJobCore := ⟨"b", "second", "* * * * * *", "WeiXinArticle", ""⟩,
         CreateTime := Time.zero, UpdateTime := Time.zero, Deleted := false,
         Opened := false, Runner := some Runner.weixinCrawl,
         Cron := some ⟨10376293541461622783, 10376293541461622783, 9223372036871553023,
           9223372041149743102, 9223372036854783998, 9223372036854775935⟩,
         Next := Time.zero }] :=
  ⟨((processOpenClose_spec 4
      ⟨true, [{ toJobCore := ⟨"a", "first", "* * * * * *", "WeiXinArticle", ""⟩,
                CreateTime := Time.zero, UpdateTime := Time.zero, Deleted := false,
                Opened := true, Runner := some Runner.weixinCrawl,
                Cron := some ⟨10376293541461622783, 10376293541461622783, 9223372036871553023,
                  9223372041149743102, 9223372036854783998, 9223372036854775935⟩,
                Next := Date 2024 1 1 0 0 1 0 },
              { toJobCore := ⟨"b", "second", "* * * * * *", "WeiXinArticle", ""⟩,
                CreateTime := Time.zero, UpdateTime := Time.zero, Deleted := false,
                Opened := false, Runner := some Runner.weixinCrawl,
                Cron := some ⟨10376293541461622783, 10376293541461622783, 9223372036871553023,
                  9223372041149743102, 9223372036854783998, 9223372036854775935⟩,
                Next := Time.zero }]⟩
      "b" (some (Date 2024 1 1 0 0 0 0)) (Date 2024 1 1 0 0 0 0)).2.2.2.2.1 1
      { toJobCore := ⟨"b", "second", "* * * * * *", "WeiXinArticle", ""⟩,
        CreateTime := Time.zero, UpdateTime := Time.zero, Deleted := false,
        Opened := false, Runner := some Runner.weixinCrawl,
        Cron := some ⟨10376293541461622783, 10376293541461622783, 9223372036871553023,
          9223372041149743102, 9223372036854783998, 9223372036854775935⟩,
        Next := Time.zero }
      (Date 2024 1 1 0 0 0 0)
      ⟨10376293541461622783, 10376293541461622783, 9223372036871553023,
        9223372041149743102, 9223372036854783998, 9223372036854775935⟩
      (Date 2024 1 1 0 0 1 0) (by decide) rfl rfl rfl (by decide)).1,
    ((processOpenClose_spec 4
      ⟨true, [{ toJobCore := ⟨"a", "first", "* * * * * *", "WeiXinArticle", ""⟩,
                CreateTime := Time.zero, UpdateTime := Time.zero, Deleted := false,
                Opened := true, Runner := some Runner.weixinCrawl,
                Cron := some ⟨10376293541461622783, 10376293541461622783, 9223372036871553023,
                  9223372041149743102, 9223372036854783998, 9223372036854775935⟩,
                Next := Date 2024 1 1 0 0 1 0 },
              { toJobCore := ⟨"b", "second", "* * * * * *", "WeiXinArticle", ""⟩,
                CreateTime := Time.zero, UpdateTime := Time.zero, Deleted := false,
                Opened := false, Runner := some Runner.weixinCrawl,
                Cron := some ⟨10376293541461622783, 10376293541461622783, 9223372036871553023,
                  9223372041149743102, 9223372036854783998, 9223372036854775935⟩,
                Next := Time.zero }]⟩
      "a" (some (Date 2024 1 1 0 0 0 0)) (Date 2024 1 1 0 0 0 0)).2.2.2.2.2.2.1 0
      { toJobCore := ⟨"a", "first", "* * * * * *", "WeiXinArticle", ""⟩,
        CreateTime := Time.zero, UpdateTime := Time.zero, Deleted := false,
        Opened := true, Runner := some Runner.weixinCrawl,
        Cron := some ⟨10376293541461622783, 10376293541461622783, 9223372036871553023,
          9223372041149743102, 9223372036854783998, 9223372036854775935⟩,
        Next := Date 2024 1 1 0 0 1 0 }
      (Date 2024 1 1 0 0 0 0) (by decide) rfl rfl).1,
    (processOpenClose_spec 4
      ⟨true, [{ toJobCore := ⟨"a", "first", "* * * * * *", "WeiXinArticle", ""⟩,
                CreateTime := Time.zero, UpdateTime := Time.zero, Deleted := false,
                Opened := true, Runner := some Runner.weixinCrawl,
                Cron := some ⟨10376293541461622783, 10376293541461622783, 9223372036871553023,
                  9223372041149743102, 9223372036854783998, 9223372036854775935⟩,
                Next := Date 2024 1 1 0 0 1 0 },
              { toJobCore := ⟨"b", "second", "* * * * * *", "WeiXinArticle", ""⟩,
                CreateTime := Time.zero, UpdateTime := Time.zero, Deleted := false,
                Opened := false, Runner := some Runner.weixinCrawl,
                Cron := some ⟨10376293541461622783, 10376293541461622783, 9223372036871553023,
                  9223372041149743102, 9223372036854783998, 9223372036854775935⟩,
                Next := Time.zero }]⟩
      "b" none (Date 2024 1 1 0 0 0 0)).1 CmdError.storeUpdate (by decide)⟩

end Gospider
